import Mathlib

/-!
# Type checking pass (`taichi/transforms/type_check.cpp`)

A shallow embedding of the `TypeCheck` IR visitor.  Statements live in an arena
(`IR.stmts`); a `Stmt *` is an index into it, a `Block` is a list of such indices
(`IR.blocks`).  Every `visit` overload of the source is one function from a state to
`Except Abort IR`:

* `Abort.fatal ir`  : the process stops (`TC_ERROR`, a failed `TC_ASSERT`, `exit(-1)`,
  `TC_NOT_IMPLEMENTED`); `ir` is the state reached at that point;
* `Abort.invalid`   : a null or dangling pointer is dereferenced (undefined in the source);
* `Abort.fuel`      : the recursion budget of the traversal is exhausted.
-/

namespace TypeCheck

/-! ## Declarations of `ir.h` that the pass uses -/

/-- Modelled from the spec: the `DataType` enumeration (declared in `ir.h`, which is not part
of the sources): signed and unsigned integers of several widths, floating-point types of
several precisions, and the `unknown` placeholder. -/
inductive DataType
  | f16 | f32 | f64
  | i8 | i16 | i32 | i64
  | u8 | u16 | u32 | u64
  | ptr | none | unknown
  deriving DecidableEq, Repr

/-- Modelled from the spec: `is_real` (declared in `ir.h`) holds of the floating-point
element types. -/
def is_real : DataType → Bool
  | .f16 | .f32 | .f64 => true
  | _ => false

/-- Modelled from the spec: `is_integral` (declared in `ir.h`) holds of the signed and
unsigned integer element types. -/
def is_integral : DataType → Bool
  | .i8 | .i16 | .i32 | .i64 | .u8 | .u16 | .u32 | .u64 => true
  | _ => false

/-- Modelled from the spec: the `UnaryOpType` enumeration (declared in `ir.h`). The pass
names `cast`, `floor` and `ceil` and asks whether an operator is trigonometric. -/
inductive UnaryOpType
  | neg | sqrt | floor | ceil | cast | abs | sgn
  | sin | asin | cos | acos | tan | tanh
  | inv | rcp | exp | log | rsqrt | bit_not | logic_not
  deriving DecidableEq, Repr

/-- Modelled from the spec: `is_trigonometric` (declared in `ir.h`). -/
def is_trigonometric : UnaryOpType → Bool
  | .sin | .asin | .cos | .acos | .tan | .tanh => true
  | _ => false

/-- Modelled from the spec: the `BinaryOpType` enumeration (declared in `ir.h`). The pass
names `floordiv`, `truediv` and `div` and asks whether an operator is bitwise or a
comparison. -/
inductive BinaryOpType
  | mul | add | sub | truediv | floordiv | div | mod | max | min
  | bit_and | bit_or | bit_xor
  | cmp_lt | cmp_le | cmp_gt | cmp_ge | cmp_eq | cmp_ne
  | atan2 | pow
  deriving DecidableEq, Repr

/-- Modelled from the spec: `binary_is_bitwise` (declared in `ir.h`). -/
def binary_is_bitwise : BinaryOpType → Bool
  | .bit_and | .bit_or | .bit_xor => true
  | _ => false

/-- Modelled from the spec: `is_comparison` (declared in `ir.h`). -/
def is_comparison : BinaryOpType → Bool
  | .cmp_lt | .cmp_le | .cmp_gt | .cmp_ge | .cmp_eq | .cmp_ne => true
  | _ => false

/-- Modelled from the spec: the `TernaryOpType` enumeration (declared in `ir.h`); the pass
implements `select` only. -/
inductive TernaryOpType
  | select | undefined
  deriving DecidableEq, Repr

/-- A `VectorType` is a vector width and an element type; `==` compares both. -/
structure VectorType where
  width : Int
  data_type : DataType
  deriving DecidableEq, Repr

/-- A `Stmt *`: an index into `IR.stmts`. -/
abbrev StmtId := Nat

/-- A `Block *`: an index into `IR.blocks`. -/
abbrev BlockId := Nat

/-- What the pass reads of the parent of an `SNode`. -/
structure SNodeParent where
  num_active_indices : Int
  deriving DecidableEq, Repr

/-- What the pass reads of an `SNode`: its `dt` and its `parent` (`none` is a null pointer). -/
structure SNode where
  dt : DataType
  parent : Option SNodeParent
  deriving DecidableEq, Repr

/-- One entry of the kernel signature (`get_current_kernel().args`). -/
structure Arg where
  dt : DataType
  is_return_value : Bool
  deriving DecidableEq, Repr

/-- The statement variants with a `visit` overload, each with the fields the pass reads or
writes; `Other` stands for every variant without one (`allow_undefined_visitor = true`). -/
inductive StmtKind
  | AllocaStmt
  | ConstStmt
  | IfStmt (true_statements false_statements : Option BlockId)
  | AtomicOpStmt (dest val : StmtId)
  | LocalLoadStmt (ptr : List StmtId)
  | LocalStoreStmt (ptr data : StmtId)
  | GlobalLoadStmt (ptr : StmtId)
  | SNodeOpStmt
  | GlobalPtrStmt (snodes : List (Option SNode)) (indices : List StmtId)
  | GlobalStoreStmt (ptr data : StmtId)
  | RangeForStmt (begin_ end_ : StmtId) (body : BlockId)
  | StructForStmt (body : BlockId)
  | WhileStmt (body : BlockId)
  | UnaryOpStmt (op_type : UnaryOpType) (operand : StmtId) (cast_type : DataType)
      (cast_by_value : Bool)
  | BinaryOpStmt (op_type : BinaryOpType) (lhs rhs : StmtId)
  | TernaryOpStmt (op_type : TernaryOpType) (op1 op2 op3 : StmtId)
  | ElementShuffleStmt (elements : List StmtId)
  | RangeAssumptionStmt (input base : StmtId)
  | ArgLoadStmt (arg_id : Int)
  | ArgStoreStmt (arg_id : Int) (val : StmtId)
  | ExternalPtrStmt (base_ptrs : List StmtId)
  | LoopIndexStmt
  | GetChStmt (output_snode : Option SNode)
  | OffloadedStmt (body : Option BlockId)
  | Other
  deriving DecidableEq, Repr

/-- A statement: its variant, its mutable `ret_type`, and the block that owns it. -/
structure Stmt where
  kind : StmtKind
  ret_type : VectorType
  parent : Option BlockId
  deriving DecidableEq, Repr

/-- The messages of `TC_WARN`. -/
inductive Warning
  | atomic_precision (val dest : DataType)
  | local_store_precision (stmt : StmtId)
  | snode_nullptr
  | global_store_precision (target input : DataType)
  | type_mismatch (stmt : StmtId)
  | bitwise_integral
  | compilation_stopped
  deriving DecidableEq, Repr

/-- The state the pass works on. `accepted` is a ghost log: the statements on which
`accept(this)` was called, in order. -/
structure IR where
  stmts : List Stmt
  blocks : List (List StmtId)
  warnings : List Warning
  accepted : List StmtId
  deriving DecidableEq, Repr

/-- The ways a visit does not return. -/
inductive Abort
  | fatal (ir : IR)
  | invalid
  | fuel
  deriving DecidableEq, Repr

/-- The configuration and the tables the pass reads: `promoted_type` (declared in `ir.h`,
taken as a parameter), `config.default_ip`, `config.default_fp`, and the kernel signature. -/
structure Config where
  promoted_type : DataType → DataType → DataType
  default_ip : DataType
  default_fp : DataType
  args : List Arg

/-! ## Reading and writing statements -/

/-- Dereference a statement pointer. -/
def IR.deref (ir : IR) (s : StmtId) : Except Abort Stmt :=
  match ir.stmts[s]? with
  | some x => .ok x
  | none => .error .invalid

/-- Update the statement `s` in place. -/
def IR.modify (ir : IR) (s : StmtId) (f : Stmt → Stmt) : IR :=
  match ir.stmts[s]? with
  | some x => { ir with stmts := ir.stmts.set s (f x) }
  | none => ir

/-- Read `s->ret_type`. -/
def IR.ret_type (ir : IR) (s : StmtId) : Except Abort VectorType :=
  match ir.stmts[s]? with
  | some x => .ok x.ret_type
  | none => .error .invalid

/-- Assign `s->ret_type = t`. -/
def IR.set_ret_type (ir : IR) (s : StmtId) (t : VectorType) : IR :=
  ir.modify s (fun x => { x with ret_type := t })

/-- Assign `s->ret_type.data_type = dt`. -/
def IR.set_data_type (ir : IR) (s : StmtId) (dt : DataType) : IR :=
  ir.modify s (fun x => { x with ret_type := { x.ret_type with data_type := dt } })

/-- Emit a `TC_WARN`. -/
def IR.warn (ir : IR) (w : Warning) : IR :=
  { ir with warnings := ir.warnings ++ [w] }

/-- Record a call of `accept(this)` on `s` (ghost). -/
def IR.log_accept (ir : IR) (s : StmtId) : IR :=
  { ir with accepted := ir.accepted ++ [s] }

/-- A failed `TC_ASSERT`, a `TC_ERROR` or `TC_NOT_IMPLEMENTED`. -/
def fatal {α : Type} (ir : IR) : Except Abort α :=
  .error (.fatal ir)

/-- A null or dangling pointer. -/
def invalid {α : Type} : Except Abort α :=
  .error .invalid

/-! ## Field accessors of the operator variants -/

/-- Read `op_type`, `lhs`, `rhs` of a `BinaryOpStmt`. -/
def IR.binary (ir : IR) (s : StmtId) : Except Abort (BinaryOpType × StmtId × StmtId) :=
  match ir.stmts[s]? with
  | some x =>
    match x.kind with
    | .BinaryOpStmt op l r => .ok (op, l, r)
    | _ => .error .invalid
  | none => .error .invalid

/-- Apply the assignment `g` to a field of the variant of `s`. -/
def IR.assign (ir : IR) (s : StmtId) (g : StmtKind → StmtKind) : IR :=
  ir.modify s (fun x => { x with kind := g x.kind })

/-- The assignment `lhs = v` on a `BinaryOpStmt`. -/
def StmtKind.set_lhs (v : StmtId) : StmtKind → StmtKind
  | .BinaryOpStmt op _ r => .BinaryOpStmt op v r
  | k => k

/-- The assignment `rhs = v` on a `BinaryOpStmt`. -/
def StmtKind.set_rhs (v : StmtId) : StmtKind → StmtKind
  | .BinaryOpStmt op l _ => .BinaryOpStmt op l v
  | k => k

/-- The assignment `op_type = op` on a `BinaryOpStmt`. -/
def StmtKind.set_op_type (op : BinaryOpType) : StmtKind → StmtKind
  | .BinaryOpStmt _ l r => .BinaryOpStmt op l r
  | k => k

/-- Assign `s->lhs = v`. -/
def IR.set_lhs (ir : IR) (s v : StmtId) : IR :=
  ir.assign s (StmtKind.set_lhs v)

/-- Assign `s->rhs = v`. -/
def IR.set_rhs (ir : IR) (s v : StmtId) : IR :=
  ir.assign s (StmtKind.set_rhs v)

/-- Assign `s->op_type = op` on a `BinaryOpStmt`. -/
def IR.set_op_type (ir : IR) (s : StmtId) (op : BinaryOpType) : IR :=
  ir.assign s (StmtKind.set_op_type op)

/-- Read `op_type`, `op1`, `op2`, `op3` of a `TernaryOpStmt`. -/
def IR.ternary (ir : IR) (s : StmtId) :
    Except Abort (TernaryOpType × StmtId × StmtId × StmtId) :=
  match ir.stmts[s]? with
  | some x =>
    match x.kind with
    | .TernaryOpStmt op a b c => .ok (op, a, b, c)
    | _ => .error .invalid
  | none => .error .invalid

/-- The assignment `op2 = v` on a `TernaryOpStmt`. -/
def StmtKind.set_op2 (v : StmtId) : StmtKind → StmtKind
  | .TernaryOpStmt op a _ c => .TernaryOpStmt op a v c
  | k => k

/-- The assignment `op3 = v` on a `TernaryOpStmt`. -/
def StmtKind.set_op3 (v : StmtId) : StmtKind → StmtKind
  | .TernaryOpStmt op a b _ => .TernaryOpStmt op a b v
  | k => k

/-- The assignment `data = v` on a local or global store. -/
def StmtKind.set_data (v : StmtId) : StmtKind → StmtKind
  | .LocalStoreStmt p _ => .LocalStoreStmt p v
  | .GlobalStoreStmt p _ => .GlobalStoreStmt p v
  | k => k

/-- The assignment `val = v` on an atomic update. -/
def StmtKind.set_val (v : StmtId) : StmtKind → StmtKind
  | .AtomicOpStmt d _ => .AtomicOpStmt d v
  | k => k

/-! ## Unary operators and the cast synthesizer (lines 155-199) -/

/-- The rule `visit(UnaryOpStmt *)`, lines 155-170. -/
def visit_UnaryOpStmt (s : StmtId) (ir : IR) : Except Abort IR := do
  let stmt ← ir.deref s
  match stmt.kind with
  | .UnaryOpStmt op_type operand cast_type _ =>
    let t ← ir.ret_type operand
    let ir := ir.set_ret_type s t
    let ir := if op_type = .cast then ir.set_data_type s cast_type else ir
    let t ← ir.ret_type operand
    if is_trigonometric op_type && !is_real t.data_type then
      fatal ir
    else
      let t ← ir.ret_type operand
      if (op_type = .floor || op_type = .ceil) && !is_real t.data_type then
        fatal ir
      else
        pure ir
  | _ => invalid

/-- The statement built by `Stmt::make_typed<UnaryOpStmt>(UnaryOpType::cast, input)` with
`cast_type = output_type` and `cast_by_value = true` assigned (lines 175-177); it has no
owning block yet. -/
def make_cast (input : StmtId) (output_type : DataType) : Stmt :=
  { kind := .UnaryOpStmt .cast input output_type true
    ret_type := { width := 1, data_type := .unknown }
    parent := none }

/-- Modelled from the spec: the list part of `Stmt::insert_before_me` (declared in `ir.h`):
splice `new_stmt` immediately before the first occurrence of `anchor`; `none` when the
anchor is not in the list. -/
def insert_before (anchor new_stmt : StmtId) : List StmtId → Option (List StmtId)
  | [] => none
  | x :: xs =>
    if x = anchor then some (new_stmt :: x :: xs)
    else (insert_before anchor new_stmt xs).map (fun r => x :: r)

/-- Modelled from the spec: the list part of `Stmt::insert_after_me` (declared in `ir.h`):
splice `new_stmt` immediately after the first occurrence of `anchor`; `none` when the
anchor is not in the list. -/
def insert_after (anchor new_stmt : StmtId) : List StmtId → Option (List StmtId)
  | [] => none
  | x :: xs =>
    if x = anchor then some (x :: new_stmt :: xs)
    else (insert_after anchor new_stmt xs).map (fun r => x :: r)

/-- Modelled from the spec: `Stmt::insert_before_me` (declared in `ir.h`): the new
statement goes into the block that owns the anchor and gets that block as its parent. An
anchor without an owning block, or absent from it, violates the internal precondition. -/
def insert_before_me (anchor new_stmt : StmtId) (ir : IR) : Except Abort IR := do
  let a ← ir.deref anchor
  match a.parent with
  | none => invalid
  | some b =>
    match ir.blocks[b]? with
    | none => invalid
    | some stmts =>
      match insert_before anchor new_stmt stmts with
      | none => invalid
      | some stmts' =>
        let ir := ir.modify new_stmt (fun x => { x with parent := some b })
        pure { ir with blocks := ir.blocks.set b stmts' }

/-- Modelled from the spec: `Stmt::insert_after_me` (declared in `ir.h`), as
`insert_before_me` but after the anchor. -/
def insert_after_me (anchor new_stmt : StmtId) (ir : IR) : Except Abort IR := do
  let a ← ir.deref anchor
  match a.parent with
  | none => invalid
  | some b =>
    match ir.blocks[b]? with
    | none => invalid
    | some stmts =>
      match insert_after anchor new_stmt stmts with
      | none => invalid
      | some stmts' =>
        let ir := ir.modify new_stmt (fun x => { x with parent := some b })
        pure { ir with blocks := ir.blocks.set b stmts' }

/-- The function `insert_type_cast_before`, lines 172-182: allocate the cast, resolve it
through `accept` (which dispatches to `visit(UnaryOpStmt *)`), splice it before the anchor,
return it. -/
def insert_type_cast_before (anchor input : StmtId) (output_type : DataType) (ir : IR) :
    Except Abort (IR × StmtId) := do
  let cast_stmt := ir.stmts.length
  let ir := { ir with stmts := ir.stmts ++ [make_cast input output_type] }
  let ir ← visit_UnaryOpStmt cast_stmt (ir.log_accept cast_stmt)
  let ir ← insert_before_me anchor cast_stmt ir
  pure (ir, cast_stmt)

/-- The function `insert_type_cast_after`, lines 184-194. -/
def insert_type_cast_after (anchor input : StmtId) (output_type : DataType) (ir : IR) :
    Except Abort (IR × StmtId) := do
  let cast_stmt := ir.stmts.length
  let ir := { ir with stmts := ir.stmts ++ [make_cast input output_type] }
  let ir ← visit_UnaryOpStmt cast_stmt (ir.log_accept cast_stmt)
  let ir ← insert_after_me anchor cast_stmt ir
  pure (ir, cast_stmt)

/-- The function `cast(Stmt *&val, DataType dt)`, lines 196-199; the caller stores the
returned statement into the field `val` refers to. -/
def cast (val : StmtId) (dt : DataType) (ir : IR) : Except Abort (IR × StmtId) :=
  insert_type_cast_after val val dt ir

/-- The statement `field = insert_type_cast_before(stmt, field, dt);`, where `input` is the
current value of the operand field and `field` is the assignment to it (lines 52, 71, 123,
247-248, 252-253, 285-286, 289-290). -/
def cast_before (stmt input : StmtId) (dt : DataType) (field : StmtId → StmtKind → StmtKind)
    (ir : IR) : Except Abort IR := do
  let (ir, cast_stmt) ← insert_type_cast_before stmt input dt ir
  pure (ir.assign stmt (field cast_stmt))

/-- The statement `if (c) { field = insert_type_cast_before(stmt, field, dt); }`. -/
def cast_before_if (c : Prop) [Decidable c] (stmt input : StmtId) (dt : DataType)
    (field : StmtId → StmtKind → StmtKind) (ir : IR) : Except Abort IR :=
  if c then cast_before stmt input dt field ir else pure ir

/-! ## Binary operators (lines 201-275) -/

/-- The lambda `error` of `visit(BinaryOpStmt *)` without a comment, lines 202-213: two
warnings, then `exit(-1)`. -/
def error (s : StmtId) (ir : IR) : Except Abort IR :=
  fatal ((ir.warn (.type_mismatch s)).warn .compilation_stopped)

/-- The lambda `error` called with the bitwise comment (line 267). -/
def error_bitwise (ir : IR) : Except Abort IR :=
  fatal ((ir.warn .bitwise_integral).warn .compilation_stopped)

/-- The statement `if (!pred(stmt->lhs->ret_type.data_type)) cast(stmt->lhs, dt);`
(lines 222-224 and 233-235). -/
def coerce_lhs (pred : DataType → Bool) (dt : DataType) (s : StmtId) (ir : IR) :
    Except Abort IR := do
  let (_, lhs, _) ← ir.binary s
  let t ← ir.ret_type lhs
  if pred t.data_type then
    pure ir
  else
    let (ir, c) ← cast lhs dt ir
    pure (ir.set_lhs s c)

/-- The statement `if (!pred(stmt->rhs->ret_type.data_type)) cast(stmt->rhs, dt);`
(lines 225-227 and 236-238). -/
def coerce_rhs (pred : DataType → Bool) (dt : DataType) (s : StmtId) (ir : IR) :
    Except Abort IR := do
  let (_, _, rhs) ← ir.binary s
  let t ← ir.ret_type rhs
  if pred t.data_type then
    pure ir
  else
    let (ir, c) ← cast rhs dt ir
    pure (ir.set_rhs s c)

/-- Lines 220-229: lower `floordiv` into `div`. -/
def lower_floordiv (cfg : Config) (s : StmtId) (ir : IR) : Except Abort IR := do
  let (op, _, _) ← ir.binary s
  if op = .floordiv then
    let default_ip := cfg.default_ip
    let ir ← coerce_lhs is_integral default_ip s ir
    let ir ← coerce_rhs is_integral default_ip s ir
    pure (ir.set_op_type s .div)
  else
    pure ir

/-- Lines 231-240: lower `truediv` into `div`. -/
def lower_truediv (cfg : Config) (s : StmtId) (ir : IR) : Except Abort IR := do
  let (op, _, _) ← ir.binary s
  if op = .truediv then
    let default_fp := cfg.default_fp
    let ir ← coerce_lhs is_real default_fp s ir
    let ir ← coerce_rhs is_real default_fp s ir
    pure (ir.set_op_type s .div)
  else
    pure ir

/-- Lines 242-255: promote the operands to `promoted_type`. -/
def promote (cfg : Config) (s : StmtId) (ir : IR) : Except Abort IR := do
  let (_, lhs, rhs) ← ir.binary s
  let lt ← ir.ret_type lhs
  let rt ← ir.ret_type rhs
  if lt.data_type ≠ rt.data_type then
    let ret_type := cfg.promoted_type lt.data_type rt.data_type
    let ir ← cast_before_if (ret_type ≠ lt.data_type) s lhs ret_type StmtKind.set_lhs ir
    let (_, _, rhs) ← ir.binary s
    let rt ← ir.ret_type rhs
    cast_before_if (ret_type ≠ rt.data_type) s rhs ret_type StmtKind.set_rhs ir
  else
    pure ir

/-- Lines 256-274: the matching check, the bitwise check, and the result type. -/
def check_and_assign (s : StmtId) (ir : IR) : Except Abort IR := do
  let (op, lhs, rhs) ← ir.binary s
  let lt ← ir.ret_type lhs
  let rt ← ir.ret_type rhs
  let matching : Bool :=
    decide (lt.width = rt.width) && decide (lt.data_type ≠ .unknown) &&
      decide (rt.data_type ≠ .unknown) && decide (lt = rt)
  if !matching then
    error s ir
  else if binary_is_bitwise op && !is_integral lt.data_type then
    error_bitwise ir
  else if is_comparison op then
    pure (ir.set_ret_type s { width := lt.width, data_type := .i32 })
  else
    pure (ir.set_ret_type s lt)

/-- The rule `visit(BinaryOpStmt *)`, lines 201-275. -/
def visit_BinaryOpStmt (cfg : Config) (s : StmtId) (ir : IR) : Except Abort IR := do
  let (_, lhs, rhs) ← ir.binary s
  let lt ← ir.ret_type lhs
  let rt ← ir.ret_type rhs
  if lt.data_type = .unknown ∧ rt.data_type = .unknown then
    error s ir
  else
    let ir ← lower_floordiv cfg s ir
    let ir ← lower_truediv cfg s ir
    let ir ← promote cfg s ir
    check_and_assign s ir

/-! ## Ternary operators (lines 277-296) -/

/-- The rule `visit(TernaryOpStmt *)`, lines 277-296. -/
def visit_TernaryOpStmt (cfg : Config) (s : StmtId) (ir : IR) : Except Abort IR := do
  let (op_type, op1, op2, op3) ← ir.ternary s
  if op_type = .select then
    let t2 ← ir.ret_type op2
    let t3 ← ir.ret_type op3
    let ret_type := cfg.promoted_type t2.data_type t3.data_type
    let t1 ← ir.ret_type op1
    if t1.data_type ≠ .i32 then fatal ir
    else if t1.width ≠ t2.width then fatal ir
    else if t2.width ≠ t3.width then fatal ir
    else
      let ir ← cast_before_if (ret_type ≠ t2.data_type) s op2 ret_type StmtKind.set_op2 ir
      let (_, _, _, op3) ← ir.ternary s
      let t3 ← ir.ret_type op3
      let ir ← cast_before_if (ret_type ≠ t3.data_type) s op3 ret_type StmtKind.set_op3 ir
      let (_, op1, _, _) ← ir.ternary s
      let t1 ← ir.ret_type op1
      pure (ir.set_ret_type s { width := t1.width, data_type := ret_type })
  else
    fatal ir

/-! ## Loads, stores and address computations -/

/-- The rule `visit(AtomicOpStmt *)`, lines 46-55. -/
def visit_AtomicOpStmt (s : StmtId) (ir : IR) : Except Abort IR := do
  let stmt ← ir.deref s
  match stmt.kind with
  | .AtomicOpStmt dest val =>
    if stmt.ret_type.width ≠ 1 then fatal ir
    else
      let vt ← ir.ret_type val
      let dt ← ir.ret_type dest
      if vt.data_type ≠ dt.data_type then
        let ir := ir.warn (.atomic_precision vt.data_type dt.data_type)
        cast_before s val dt.data_type StmtKind.set_val ir
      else
        pure ir
  | _ => invalid

/-- The rule `visit(LocalLoadStmt *)`, lines 57-61. -/
def visit_LocalLoadStmt (s : StmtId) (ir : IR) : Except Abort IR := do
  let stmt ← ir.deref s
  match stmt.kind with
  | .LocalLoadStmt ptr =>
    if stmt.ret_type.width ≠ 1 then fatal ir
    else
      match ptr with
      | [] => invalid
      | var :: _ =>
        let lookup ← ir.ret_type var
        pure (ir.set_ret_type s lookup)
  | _ => invalid

/-- The rule `visit(LocalStoreStmt *)`, lines 63-83. -/
def visit_LocalStoreStmt (cfg : Config) (s : StmtId) (ir : IR) : Except Abort IR := do
  let stmt ← ir.deref s
  match stmt.kind with
  | .LocalStoreStmt ptr data =>
    let pt ← ir.ret_type ptr
    let dt ← ir.ret_type data
    let ir := if pt.data_type = .unknown then ir.set_ret_type ptr dt else ir
    let pt ← ir.ret_type ptr
    let dt ← ir.ret_type data
    let ret_type := cfg.promoted_type pt.data_type dt.data_type
    let ir ← cast_before_if (ret_type ≠ dt.data_type) s data pt.data_type StmtKind.set_data ir
    let pt ← ir.ret_type ptr
    let ir := if pt.data_type ≠ ret_type then ir.warn (.local_store_precision s) else ir
    let pt ← ir.ret_type ptr
    pure (ir.set_ret_type s pt)
  | _ => invalid

/-- The rule `visit(GlobalLoadStmt *)`, lines 85-87. -/
def visit_GlobalLoadStmt (s : StmtId) (ir : IR) : Except Abort IR := do
  let stmt ← ir.deref s
  match stmt.kind with
  | .GlobalLoadStmt ptr =>
    let pt ← ir.ret_type ptr
    pure (ir.set_ret_type s pt)
  | _ => invalid

/-- The rule `visit(SNodeOpStmt *)`, lines 89-91. -/
def visit_SNodeOpStmt (s : StmtId) (ir : IR) : Except Abort IR := do
  let stmt ← ir.deref s
  match stmt.kind with
  | .SNodeOpStmt => pure (ir.set_ret_type s { width := 1, data_type := .i32 })
  | _ => invalid

/-- Modelled from the spec: the conversion of `stmt->snodes` to a pointer in the condition
of line 94 (declared in `ir.h`): a fatal error if the node set is empty, the first node
pointer otherwise. -/
def snodes_to_pointer (ir : IR) : List (Option SNode) → Except Abort (Option SNode)
  | [] => fatal ir
  | p :: _ => pure p

/-- The loop of lines 98-106 over the addressed nodes. -/
def check_snodes (ir : IR) (num_indices : Nat) : List (Option SNode) → Except Abort Unit
  | [] => pure ()
  | none :: _ => invalid
  | some sn :: rest =>
    match sn.parent with
    | none => invalid
    | some p =>
      if p.num_active_indices ≠ 0 ∧ p.num_active_indices ≠ (num_indices : Int) then
        fatal ir
      else
        check_snodes ir num_indices rest

/-- The loop of lines 107-115 over the index operands. -/
def check_indices (ir : IR) (num_snodes : Nat) : List StmtId → Except Abort Unit
  | [] => pure ()
  | i :: rest => do
    let t ← ir.ret_type i
    if !is_integral t.data_type then fatal ir
    else if t.width ≠ (num_snodes : Int) then fatal ir
    else check_indices ir num_snodes rest

/-- The rule `visit(GlobalPtrStmt *)`, lines 93-116. -/
def visit_GlobalPtrStmt (s : StmtId) (ir : IR) : Except Abort IR := do
  let stmt ← ir.deref s
  match stmt.kind with
  | .GlobalPtrStmt snodes indices =>
    let p ← snodes_to_pointer ir snodes
    let ir ←
      match p with
      | some sn => pure (ir.set_data_type s sn.dt)
      | none => pure (ir.warn .snode_nullptr)
    check_snodes ir indices.length snodes
    check_indices ir snodes.length indices
    pure ir
  | _ => invalid

/-- The rule `visit(GlobalStoreStmt *)`, lines 118-131. -/
def visit_GlobalStoreStmt (cfg : Config) (s : StmtId) (ir : IR) : Except Abort IR := do
  let stmt ← ir.deref s
  match stmt.kind with
  | .GlobalStoreStmt ptr data =>
    let pt ← ir.ret_type ptr
    let dt ← ir.ret_type data
    let promoted := cfg.promoted_type pt.data_type dt.data_type
    let input_type := dt.data_type
    let ir ← cast_before_if (pt.data_type ≠ dt.data_type) s data pt.data_type StmtKind.set_data ir
    let pt ← ir.ret_type ptr
    let ir :=
      if pt.data_type ≠ promoted then ir.warn (.global_store_precision pt.data_type input_type)
      else ir
    let pt ← ir.ret_type ptr
    pure (ir.set_ret_type s pt)
  | _ => invalid

/-! ## The remaining rules -/

/-- The function `mark_as_if_const`, lines 16-20. -/
def mark_as_if_const (stmt : StmtId) (t : VectorType) (ir : IR) : Except Abort IR := do
  let x ← ir.deref stmt
  if x.kind = .ConstStmt then pure (ir.set_ret_type stmt t) else pure ir

/-- The rule `visit(ElementShuffleStmt *)`, lines 298-301. -/
def visit_ElementShuffleStmt (s : StmtId) (ir : IR) : Except Abort IR := do
  let stmt ← ir.deref s
  match stmt.kind with
  | .ElementShuffleStmt elements =>
    match elements with
    | [] => fatal ir
    | e :: _ =>
      let t ← ir.ret_type e
      pure (ir.set_data_type s t.data_type)
  | _ => invalid

/-- The rule `visit(RangeAssumptionStmt *)`, lines 303-306. -/
def visit_RangeAssumptionStmt (s : StmtId) (ir : IR) : Except Abort IR := do
  let stmt ← ir.deref s
  match stmt.kind with
  | .RangeAssumptionStmt input base =>
    let it ← ir.ret_type input
    let bt ← ir.ret_type base
    if it ≠ bt then fatal ir
    else pure (ir.set_ret_type s it)
  | _ => invalid

/-- The rule `visit(ArgLoadStmt *)`, lines 308-313. -/
def visit_ArgLoadStmt (cfg : Config) (s : StmtId) (ir : IR) : Except Abort IR := do
  let stmt ← ir.deref s
  match stmt.kind with
  | .ArgLoadStmt arg_id =>
    if ¬ (0 ≤ arg_id ∧ arg_id < (cfg.args.length : Int)) then fatal ir
    else
      match cfg.args[arg_id.toNat]? with
      | none => invalid
      | some arg =>
        if arg.is_return_value then fatal ir
        else pure (ir.set_ret_type s { width := 1, data_type := arg.dt })
  | _ => invalid

/-- The rule `visit(ArgStoreStmt *)`, lines 315-323. -/
def visit_ArgStoreStmt (cfg : Config) (s : StmtId) (ir : IR) : Except Abort IR := do
  let stmt ← ir.deref s
  match stmt.kind with
  | .ArgStoreStmt arg_id val =>
    if ¬ (0 ≤ arg_id ∧ arg_id < (cfg.args.length : Int)) then fatal ir
    else
      match cfg.args[arg_id.toNat]? with
      | none => invalid
      | some arg =>
        let arg_type := arg.dt
        if !arg.is_return_value then fatal ir
        else
          let vt ← ir.ret_type val
          if vt.data_type ≠ arg_type then fatal ir
          else pure (ir.set_ret_type s { width := 1, data_type := arg_type })
  | _ => invalid

/-- The rule `visit(ExternalPtrStmt *)`, lines 325-328. -/
def visit_ExternalPtrStmt (s : StmtId) (ir : IR) : Except Abort IR := do
  let stmt ← ir.deref s
  match stmt.kind with
  | .ExternalPtrStmt base_ptrs =>
    match base_ptrs with
    | [] => invalid
    | b :: _ =>
      let t ← ir.ret_type b
      pure (ir.set_ret_type s { width := (base_ptrs.length : Int), data_type := t.data_type })
  | _ => invalid

/-- The rule `visit(LoopIndexStmt *)`, lines 330-332. -/
def visit_LoopIndexStmt (s : StmtId) (ir : IR) : Except Abort IR := do
  let stmt ← ir.deref s
  match stmt.kind with
  | .LoopIndexStmt => pure (ir.set_ret_type s { width := 1, data_type := .i32 })
  | _ => invalid

/-- The rule `visit(GetChStmt *)`, lines 334-336. -/
def visit_GetChStmt (s : StmtId) (ir : IR) : Except Abort IR := do
  let stmt ← ir.deref s
  match stmt.kind with
  | .GetChStmt output_snode =>
    match output_snode with
    | none => invalid
    | some sn => pure (ir.set_ret_type s { width := 1, data_type := sn.dt })
  | _ => invalid

/-! ## Traversal (lines 27-44, 133-153, 338-346) -/

/-- The loop of lines 42-43 over the snapshot `stmts` of a block. -/
def visit_stmts (acc : StmtId → IR → Except Abort IR) : List StmtId → IR → Except Abort IR
  | [], ir => pure ir
  | stmt :: rest, ir => do
    let ir ← acc stmt ir
    visit_stmts acc rest ir

/-- The rule `visit(Block *)`, lines 35-44: copy the statement list, then visit the copy. -/
def visit_Block (acc : StmtId → IR → Except Abort IR) (stmt_list : BlockId) (ir : IR) :
    Except Abort IR :=
  match ir.blocks[stmt_list]? with
  | none => invalid
  | some stmts => visit_stmts acc stmts ir

/-- The statement `if (block) block->accept(this);` (lines 28-32 and 339-340). -/
def visit_opt_Block (acc : StmtId → IR → Except Abort IR) (block : Option BlockId) (ir : IR) :
    Except Abort IR :=
  match block with
  | some b => visit_Block acc b ir
  | none => pure ir

/-- The call `stmt->accept(this)`: log the call and dispatch on the variant. Nested blocks
are visited with one unit of fuel less. -/
def accept (cfg : Config) : Nat → StmtId → IR → Except Abort IR
  | 0, _, _ => .error .fuel
  | fuel + 1, s, ir => do
    let stmt ← ir.deref s
    let ir := ir.log_accept s
    match stmt.kind with
    | .AllocaStmt => pure ir
    | .ConstStmt => pure ir
    | .Other => pure ir
    | .IfStmt true_statements false_statements =>
      let ir ← visit_opt_Block (accept cfg fuel) true_statements ir
      visit_opt_Block (accept cfg fuel) false_statements ir
    | .AtomicOpStmt _ _ => visit_AtomicOpStmt s ir
    | .LocalLoadStmt _ => visit_LocalLoadStmt s ir
    | .LocalStoreStmt _ _ => visit_LocalStoreStmt cfg s ir
    | .GlobalLoadStmt _ => visit_GlobalLoadStmt s ir
    | .SNodeOpStmt => visit_SNodeOpStmt s ir
    | .GlobalPtrStmt _ _ => visit_GlobalPtrStmt s ir
    | .GlobalStoreStmt _ _ => visit_GlobalStoreStmt cfg s ir
    | .RangeForStmt begin_ end_ body =>
      let ir ← mark_as_if_const begin_ { width := 1, data_type := .i32 } ir
      let ir ← mark_as_if_const end_ { width := 1, data_type := .i32 } ir
      visit_Block (accept cfg fuel) body ir
    | .StructForStmt body => visit_Block (accept cfg fuel) body ir
    | .WhileStmt body => visit_Block (accept cfg fuel) body ir
    | .UnaryOpStmt _ _ _ _ => visit_UnaryOpStmt s ir
    | .BinaryOpStmt _ _ _ => visit_BinaryOpStmt cfg s ir
    | .TernaryOpStmt _ _ _ _ => visit_TernaryOpStmt cfg s ir
    | .ElementShuffleStmt _ => visit_ElementShuffleStmt s ir
    | .RangeAssumptionStmt _ _ => visit_RangeAssumptionStmt s ir
    | .ArgLoadStmt _ => visit_ArgLoadStmt cfg s ir
    | .ArgStoreStmt _ _ => visit_ArgStoreStmt cfg s ir
    | .ExternalPtrStmt _ => visit_ExternalPtrStmt s ir
    | .LoopIndexStmt => visit_LoopIndexStmt s ir
    | .GetChStmt _ => visit_GetChStmt s ir
    | .OffloadedStmt body => visit_opt_Block (accept cfg fuel) body ir

/-- The function `TypeCheck::run`, lines 343-346, on a root block. -/
def run (cfg : Config) (fuel : Nat) (root : BlockId) (ir : IR) : Except Abort IR :=
  visit_Block (accept cfg fuel) root ir

/-! ## Definitions used in the statements -/

/-- The width a cast of `input` gets: the width of its source. -/
def cast_width (ir : IR) (input : StmtId) : Int :=
  match ir.stmts[input]? with
  | some x => x.ret_type.width
  | none => 1

/-- A resolved by-value cast of `input` to `dt`, of width `w`, owned by the block `b`. -/
def by_value_cast (input : StmtId) (dt : DataType) (w : Int) (b : BlockId) : Stmt :=
  { kind := .UnaryOpStmt .cast input dt true
    ret_type := { width := w, data_type := dt }
    parent := some b }

/-- The state after a by-value cast of `i` to `dt` was created, accepted, and put into
block `b`, whose statement list becomes `l`. -/
def with_cast (ir : IR) (i : StmtId) (dt : DataType) (b : BlockId) (l : List StmtId) : IR :=
  { stmts := ir.stmts ++ [by_value_cast i dt (cast_width ir i) b]
    blocks := ir.blocks.set b l
    warnings := ir.warnings
    accepted := ir.accepted ++ [ir.stmts.length] }

/-- The operator a division operator is lowered to (lines 228 and 239); other operators are
kept. -/
def lowered : BinaryOpType → BinaryOpType
  | .floordiv => .div
  | .truediv => .div
  | op => op

/-- What the pass never changes of a statement's variant: everything except the operand
links it redirects to casts (`lhs`, `rhs`, `op2`, `op3`, `data`, `val`) and the lowering of
the division operators. -/
def StmtKind.skeleton : StmtKind → StmtKind
  | .BinaryOpStmt op _ _ => .BinaryOpStmt (lowered op) 0 0
  | .TernaryOpStmt op op1 _ _ => .TernaryOpStmt op op1 0 0
  | .LocalStoreStmt ptr _ => .LocalStoreStmt ptr 0
  | .GlobalStoreStmt ptr _ => .GlobalStoreStmt ptr 0
  | .AtomicOpStmt dest _ => .AtomicOpStmt dest 0
  | k => k

/-- The blocks a statement owns. -/
def StmtKind.bodies : StmtKind → List BlockId
  | .IfStmt t f => t.toList ++ f.toList
  | .RangeForStmt _ _ body => [body]
  | .StructForStmt body => [body]
  | .WhileStmt body => [body]
  | .OffloadedStmt body => body.toList
  | _ => []

/-- The variants whose rule always assigns a concrete element type: binary operators,
storage-tree operations and loop-index queries. -/
def StmtKind.typed : StmtKind → Bool
  | .BinaryOpStmt _ _ _ => true
  | .SNodeOpStmt => true
  | .LoopIndexStmt => true
  | _ => false

/-- The statement `s` is reachable from the block `root`: it is in `root`, or in a block
owned by a reachable statement. -/
inductive Reachable (ir : IR) (root : BlockId) : StmtId → Prop
  | top (l : List StmtId) (s : StmtId) :
      ir.blocks[root]? = some l → s ∈ l → Reachable ir root s
  | nested (p : StmtId) (x : Stmt) (b : BlockId) (l : List StmtId) (s : StmtId) :
      Reachable ir root p → ir.stmts[p]? = some x → b ∈ x.kind.bodies →
      ir.blocks[b]? = some l → s ∈ l → Reachable ir root s

/-- The frame of the pass, from a state `ir` to a later state `ir'`: statements keep their
skeleton, a concrete element type of a `typed` statement stays concrete, every new statement
is a by-value cast, and a block only gains new statements, the old ones keeping their order. -/
structure Ext (ir ir' : IR) : Prop where
  old : ∀ (t : StmtId) (x : Stmt), ir.stmts[t]? = some x → ∃ x' : Stmt, ir'.stmts[t]? = some x' ∧
    x'.kind.skeleton = x.kind.skeleton ∧
    (x.kind.typed = true → x.ret_type.data_type ≠ .unknown → x'.ret_type.data_type ≠ .unknown)
  fresh : ∀ (t : StmtId) (x' : Stmt), ir.stmts[t]? = none → ir'.stmts[t]? = some x' →
    ∃ i dt, x'.kind = .UnaryOpStmt .cast i dt true
  blocks : ∀ (b : BlockId) (l : List StmtId), ir.blocks[b]? = some l →
    ∃ l' : List StmtId, ir'.blocks[b]? = some l' ∧
    l.Sublist l' ∧ ∀ t ∈ l', t ∈ l ∨ ir.stmts[t]? = none
  blocks_none : ∀ b : BlockId, ir.blocks[b]? = none → ir'.blocks[b]? = none

/-! ## Concrete configurations and states -/

/-- A promotion table: equal types promote to themselves, a floating type wins over a
non-floating one, otherwise the first type is kept. -/
def cfgA : Config :=
  { promoted_type := fun a b =>
      if a = b then a else if is_real a then a else if is_real b then b else a
    default_ip := .i32
    default_fp := .f32
    args := [] }

/-- A statement without a rule of its own (a value of type `dt` and width `w` in block `b`). -/
def value (w : Int) (dt : DataType) (b : BlockId) : Stmt :=
  { kind := .Other, ret_type := ⟨w, dt⟩, parent := some b }

/-- Scenario A: `%2 = add %0 %1` with `%0 : i32` and `%1 : f32`. -/
def scenarioA : IR :=
  { stmts := [value 1 .i32 0, value 1 .f32 0, ⟨.BinaryOpStmt .add 0 1, ⟨1, .unknown⟩, some 0⟩]
    blocks := [[0, 1, 2]]
    warnings := []
    accepted := [] }

/-- Scenario A after the add was visited: the cast `%3` of `%0` stands before the add. -/
def scenarioA_after : IR :=
  { stmts := [value 1 .i32 0, value 1 .f32 0, ⟨.BinaryOpStmt .add 3 1, ⟨1, .f32⟩, some 0⟩,
      ⟨.UnaryOpStmt .cast 0 .f32 true, ⟨1, .f32⟩, some 0⟩]
    blocks := [[0, 1, 3, 2]]
    warnings := []
    accepted := [3] }

/-- A comparison `%2 = cmp_lt %0 %1` of two `f32` values of width 4. -/
def comparison : IR :=
  { stmts := [value 4 .f32 0, value 4 .f32 0, ⟨.BinaryOpStmt .cmp_lt 0 1, ⟨1, .unknown⟩, some 0⟩]
    blocks := [[0, 1, 2]]
    warnings := []
    accepted := [] }

/-- The comparison after it was visited. -/
def comparison_after : IR :=
  { stmts := [value 4 .f32 0, value 4 .f32 0, ⟨.BinaryOpStmt .cmp_lt 0 1, ⟨4, .i32⟩, some 0⟩]
    blocks := [[0, 1, 2]]
    warnings := []
    accepted := [] }

/-- From `ir` to `ir'`, every statement keeps its result type and its owning block, every
statement other than `s` is unchanged, and every block keeps its members. -/
def Keeps (s : StmtId) (ir ir' : IR) : Prop :=
  (∀ (t : StmtId) (y : Stmt), ir.stmts[t]? = some y →
    ∃ y' : Stmt, ir'.stmts[t]? = some y' ∧ y'.ret_type = y.ret_type ∧ y'.parent = y.parent ∧
      (t ≠ s → y' = y)) ∧
  (∀ (b : BlockId) (blk : List StmtId), ir.blocks[b]? = some blk →
    ∃ blk' : List StmtId, ir'.blocks[b]? = some blk' ∧ ∀ t ∈ blk, t ∈ blk')

/-- The statement `s` is in the block `b` that owns it. -/
def Anchored (ir : IR) (s : StmtId) (b : BlockId) : Prop :=
  ∃ (x : Stmt) (blk : List StmtId),
    ir.stmts[s]? = some x ∧ x.parent = some b ∧ ir.blocks[b]? = some blk ∧ s ∈ blk

/-- A select `%3 = select %0 %1 %2` with `%0 : i32`, `%1 : i32`, `%2 : f32`. -/
def scenarioSelect : IR :=
  { stmts := [value 1 .i32 0, value 1 .i32 0, value 1 .f32 0,
      ⟨.TernaryOpStmt .select 0 1 2, ⟨1, .unknown⟩, some 0⟩]
    blocks := [[0, 1, 2, 3]]
    warnings := []
    accepted := [] }

/-- Scenario D: a select `%3 = select %0 %1 %2` whose condition `%0` has type `f32`. -/
def scenarioD : IR :=
  { stmts := [value 1 .f32 0, value 1 .i32 0, value 1 .f32 0,
      ⟨.TernaryOpStmt .select 0 1 2, ⟨1, .unknown⟩, some 0⟩]
    blocks := [[0, 1, 2, 3]]
    warnings := []
    accepted := [] }

/-- Scenario E: `%2 = floordiv %0 %1` with `%0 : i32` and `%1 : i32`. -/
def scenarioE : IR :=
  { stmts := [value 1 .i32 0, value 1 .i32 0,
      ⟨.BinaryOpStmt .floordiv 0 1, ⟨1, .unknown⟩, some 0⟩]
    blocks := [[0, 1, 2]]
    warnings := []
    accepted := [] }

/-- Condition (i) of a global address computation: for every addressed node, the
`num_active_indices` of its parent is 0 or the number `n` of index operands. -/
def arity_matches (snodes : List (Option SNode)) (n : Nat) : Prop :=
  ∀ p ∈ snodes, ∀ (sn : SNode) (par : SNodeParent), p = some sn → sn.parent = some par →
    par.num_active_indices = 0 ∨ par.num_active_indices = (n : Int)

/-- Condition (ii) of a global address computation: every index operand has an integral
element type and a width equal to the number `n` of addressed nodes. -/
def indices_integral (ir : IR) (indices : List StmtId) (n : Nat) : Prop :=
  ∀ i ∈ indices, ∀ xi : Stmt, ir.stmts[i]? = some xi →
    is_integral xi.ret_type.data_type = true ∧ xi.ret_type.width = (n : Int)

/-- Scenario C: `%3 = global ptr [node](%0, %1, %2)` where the parent of the node declares
two indices. -/
def scenarioC : IR :=
  { stmts := [value 1 .i32 0, value 1 .i32 0, value 1 .i32 0,
      ⟨.GlobalPtrStmt [some ⟨.f32, some ⟨2⟩⟩] [0, 1, 2], ⟨1, .unknown⟩, some 0⟩]
    blocks := [[0, 1, 2, 3]]
    warnings := []
    accepted := [] }

/-- Scenario B: `%2 = local store %0 <- %1` with the slot `%0 : i32` and `%1 : f64`. -/
def scenarioB : IR :=
  { stmts := [⟨.AllocaStmt, ⟨1, .i32⟩, some 0⟩, value 1 .f64 0,
      ⟨.LocalStoreStmt 0 1, ⟨1, .unknown⟩, some 0⟩]
    blocks := [[0, 1, 2]]
    warnings := []
    accepted := [] }

/-- The statement `t`, if its variant is `typed`, has a concrete element type. -/
def Good (ir : IR) (t : StmtId) : Prop :=
  ∀ x : Stmt, ir.stmts[t]? = some x → x.kind.typed = true → x.ret_type.data_type ≠ .unknown

/-- The statement `t` is `s` or is reachable from a block that `s` owns. -/
def Under (ir : IR) (s t : StmtId) : Prop :=
  t = s ∨ ∃ (x : Stmt) (b : BlockId),
    ir.stmts[s]? = some x ∧ b ∈ x.kind.bodies ∧ Reachable ir b t

/-- A block with an allocation slot that is never stored to, and a load of it. -/
def unstored : IR :=
  { stmts := [⟨.AllocaStmt, ⟨1, .unknown⟩, some 0⟩, ⟨.LocalLoadStmt [0], ⟨1, .unknown⟩, some 0⟩]
    blocks := [[0, 1]]
    warnings := []
    accepted := [] }

/-- The state `unstored` after the pass: only the log of accepted statements grew. -/
def unstored_after : IR :=
  { unstored with accepted := [0, 1] }

/-- An add of an `i32` and an `f32` value inside the true branch of a conditional:
block 0 is `%0, %1, if { block 1 }` and block 1 is `%3 = add %0 %1`. -/
def nested_add : IR :=
  { stmts := [value 1 .i32 0, value 1 .f32 0, ⟨.IfStmt (some 1) none, ⟨1, .unknown⟩, some 0⟩,
      ⟨.BinaryOpStmt .add 0 1, ⟨1, .unknown⟩, some 1⟩]
    blocks := [[0, 1, 2], [3]]
    warnings := []
    accepted := [] }

/-- The state `nested_add` after the pass: the cast `%4` of `%0` stands before the add. -/
def nested_add_after : IR :=
  { stmts := [value 1 .i32 0, value 1 .f32 0, ⟨.IfStmt (some 1) none, ⟨1, .unknown⟩, some 0⟩,
      ⟨.BinaryOpStmt .add 4 1, ⟨1, .f32⟩, some 1⟩, by_value_cast 0 .f32 1 1]
    blocks := [[0, 1, 2], [4, 3]]
    warnings := []
    accepted := [0, 1, 2, 3, 4] }

/-! ## Definitions used in the statements of C11 to C20 -/

/-- A global store `%2 = global store %0 <- %1` with `%0 : f32` and `%1 : i32`. -/
def global_store_f32_i32 : IR :=
  { stmts := [value 1 .f32 0, value 1 .i32 0, ⟨.GlobalStoreStmt 0 1, ⟨1, .unknown⟩, some 0⟩]
    blocks := [[0, 1, 2]]
    warnings := []
    accepted := [] }

/-- A local store `%2 = store %0 <- %1` into a slot `%0` of unknown type of `%1 : f32`. -/
def local_store_unknown : IR :=
  { stmts := [⟨.AllocaStmt, ⟨1, .unknown⟩, some 0⟩, value 1 .f32 0,
      ⟨.LocalStoreStmt 0 1, ⟨1, .unknown⟩, some 0⟩]
    blocks := [[0, 1, 2]]
    warnings := []
    accepted := [] }

/-- The operators whose operand must have a real element type (lines 163-169). -/
def needs_real (op : UnaryOpType) : Bool :=
  is_trigonometric op || decide (op = .floor) || decide (op = .ceil)

/-- A sine `%1 = sin %0` of an `i32` value. -/
def sin_of_int : IR :=
  { stmts := [value 1 .i32 0, ⟨.UnaryOpStmt .sin 0 .unknown false, ⟨1, .unknown⟩, some 0⟩]
    blocks := [[0, 1]]
    warnings := []
    accepted := [] }

/-- A bitwise operator `%2 = bit_and %0 %1` on two `f32` values. -/
def bit_and_f32 : IR :=
  { stmts := [value 1 .f32 0, value 1 .f32 0, ⟨.BinaryOpStmt .bit_and 0 1, ⟨1, .unknown⟩, some 0⟩]
    blocks := [[0, 1, 2]]
    warnings := []
    accepted := [] }
/-- A true division `%2 = truediv %0 %1` of two values of unknown type. -/
def truediv_unknown : IR :=
  { stmts := [value 1 .unknown 0, value 1 .unknown 0,
      ⟨.BinaryOpStmt .truediv 0 1, ⟨1, .unknown⟩, some 0⟩]
    blocks := [[0, 1, 2]]
    warnings := []
    accepted := [] }

/-- A true division `%1 = truediv %0 %0` of an `i32` value by itself. -/
def truediv_self : IR :=
  { stmts := [value 1 .i32 0, ⟨.BinaryOpStmt .truediv 0 0, ⟨1, .unknown⟩, some 0⟩]
    blocks := [[0, 1]]
    warnings := []
    accepted := [] }

/-- A true division `%2 = truediv %0 %1` with `%0 : i32` and `%1 : i64`. -/
def truediv_ints : IR :=
  { stmts := [value 1 .i32 0, value 1 .i64 0,
      ⟨.BinaryOpStmt .truediv 0 1, ⟨1, .unknown⟩, some 0⟩]
    blocks := [[0, 1, 2]]
    warnings := []
    accepted := [] }
/-- The operands of a statement: the statements its variant refers to. -/
def StmtKind.operands : StmtKind → List StmtId
  | .AtomicOpStmt dest val => [dest, val]
  | .LocalLoadStmt ptr => ptr
  | .LocalStoreStmt ptr data => [ptr, data]
  | .GlobalLoadStmt ptr => [ptr]
  | .GlobalPtrStmt _ indices => indices
  | .GlobalStoreStmt ptr data => [ptr, data]
  | .RangeForStmt begin_ end_ _ => [begin_, end_]
  | .UnaryOpStmt _ operand _ _ => [operand]
  | .BinaryOpStmt _ lhs rhs => [lhs, rhs]
  | .TernaryOpStmt _ op1 op2 op3 => [op1, op2, op3]
  | .ElementShuffleStmt elements => elements
  | .RangeAssumptionStmt input base => [input, base]
  | .ArgStoreStmt _ val => [val]
  | .ExternalPtrStmt base_ptrs => base_ptrs
  | _ => []

/-- The state a computation ends in: the returned state, or the state at a fatal abort. -/
def outcome : Except Abort IR → Option IR
  | .ok st => some st
  | .error (.fatal st) => some st
  | .error _ => none

/-- One elementary change a rule makes while it processes the statement `s`:
* `retype`: a result type is assigned (the variant and the owner of the statement are kept);
* `warn`: a message is logged;
* `lower`: the operator of the division `s` becomes `div`;
* `cast`: a by-value cast of the operand `input` of `s` is created, accepted, and inserted
  into the block that owns the anchor, immediately before the anchor `s` or immediately
  after the anchor `input`, and an operand field of `s` is redirected to it. -/
inductive Step (s : StmtId) : IR → IR → Prop
  | retype (ir : IR) (t : StmtId) (f : Stmt → Stmt)
      (hf : ∀ x, (f x).kind = x.kind ∧ (f x).parent = x.parent) :
      Step s ir (ir.modify t f)
  | warn (ir : IR) (w : Warning) : Step s ir (ir.warn w)
  | lower (ir : IR) (x : Stmt) (op : BinaryOpType) (l r : StmtId)
      (hx : ir.stmts[s]? = some x) (hk : x.kind = .BinaryOpStmt op l r)
      (hop : lowered op = .div) :
      Step s ir (ir.set_op_type s .div)
  | cast (ir : IR) (x xi xa : Stmt) (anchor input : StmtId) (dt : DataType) (b : BlockId)
      (pre post blk : List StmtId) (field : StmtId → StmtKind → StmtKind)
      (hx : ir.stmts[s]? = some x) (hin : input ∈ x.kind.operands)
      (hi : ir.stmts[input]? = some xi)
      (ha : ir.stmts[anchor]? = some xa) (hp : xa.parent = some b)
      (hb : ir.blocks[b]? = some (pre ++ anchor :: post)) (hpre : anchor ∉ pre)
      (hwhere : (anchor = s ∧ blk = pre ++ ir.stmts.length :: anchor :: post) ∨
        (anchor = input ∧ blk = pre ++ anchor :: ir.stmts.length :: post))
      (hf1 : (field ir.stmts.length x.kind).skeleton = x.kind.skeleton)
      (hf2 : ∀ o ∈ (field ir.stmts.length x.kind).operands,
        o = ir.stmts.length ∨ o ∈ x.kind.operands) :
      Step s ir ((with_cast ir input dt b blk).assign s (field ir.stmts.length))

/-- A sequence of elementary changes made while processing `s`. -/
def Steps (s : StmtId) : IR → IR → Prop :=
  Relation.ReflTransGen (Step s)

/-- One move of the traversal: an elementary change made by the rule of some statement, or
the record of a call of `accept`. -/
inductive Move : IR → IR → Prop
  | step (s : StmtId) (ir ir' : IR) (h : Step s ir ir') : Move ir ir'
  | log (s : StmtId) (ir : IR) : Move ir (ir.log_accept s)

/-- A sequence of moves of the traversal. -/
def Trace : IR → IR → Prop :=
  Relation.ReflTransGen Move

/-- A computation that does not abort fatally and does not run out of fuel: when it does not
return, a null or dangling pointer was dereferenced. -/
def NoFatal {α : Type} (m : Except Abort α) : Prop :=
  ∀ e, m = .error e → e = .invalid

/-- Every state the computation `m` ends in is reached from `ir` by elementary changes made
while processing `s`. -/
def Reaches (s : StmtId) (ir : IR) (m : Except Abort IR) : Prop :=
  ∀ st, outcome m = some st → Steps s ir st
/-- Every state the computation `m` ends in is reached from `ir` by moves of the traversal. -/
def Traces (ir : IR) (m : Except Abort IR) : Prop :=
  ∀ st, outcome m = some st → Trace ir st
/-- The list `l'` is the list `l` with statements satisfying `P` inserted: every statement of
`l` is kept, in the same order, and every other statement of `l'` satisfies `P`. -/
inductive Inserted (P : StmtId → Prop) : List StmtId → List StmtId → Prop
  | nil : Inserted P [] []
  | keep (a : StmtId) (l l' : List StmtId) : Inserted P l l' → Inserted P (a :: l) (a :: l')
  | add (c : StmtId) (l l' : List StmtId) : P c → Inserted P l l' → Inserted P l (c :: l')

/-- The statement `c` of the state `ir` is a unary cast with `cast_by_value = true`. -/
def IsByValueCast (ir : IR) (c : StmtId) : Prop :=
  ∃ (x : Stmt) (i : StmtId) (dt : DataType),
    ir.stmts[c]? = some x ∧ x.kind = .UnaryOpStmt .cast i dt true

/-- From `ir` to `ir'` the program only grows: every statement is kept, with its skeleton
and its owner; every new statement is a by-value cast; no block is created or deleted, and
every block is the old one with new statements inserted. -/
structure Grows (ir ir' : IR) : Prop where
  len : ir.stmts.length ≤ ir'.stmts.length
  old : ∀ (t : StmtId) (x : Stmt), ir.stmts[t]? = some x →
    ∃ x' : Stmt, ir'.stmts[t]? = some x' ∧ x'.kind.skeleton = x.kind.skeleton ∧
      x'.parent = x.parent
  fresh : ∀ (t : StmtId) (x' : Stmt), ir.stmts.length ≤ t → ir'.stmts[t]? = some x' →
    ∃ i dt, x'.kind = .UnaryOpStmt .cast i dt true
  blocks : ∀ (b : BlockId) (l : List StmtId), ir.blocks[b]? = some l →
    ∃ l' : List StmtId, ir'.blocks[b]? = some l' ∧
      Inserted (fun c => ir.stmts.length ≤ c ∧ c < ir'.stmts.length) l l'
  blocks_none : ∀ b : BlockId, ir.blocks[b]? = none → ir'.blocks[b]? = none
/-- Scenario A after a run of the pass on its block. -/
def scenarioA_run : IR :=
  { stmts := [value 1 .i32 0, value 1 .f32 0, ⟨.BinaryOpStmt .add 3 1, ⟨1, .f32⟩, some 0⟩,
      ⟨.UnaryOpStmt .cast 0 .f32 true, ⟨1, .f32⟩, some 0⟩]
    blocks := [[0, 1, 3, 2]]
    warnings := []
    accepted := [0, 1, 2, 3] }
/-- The operands of the statement `t` in the state `ir`. -/
def operands_of (ir : IR) (t : StmtId) : List StmtId :=
  match ir.stmts[t]? with
  | some y => y.kind.operands
  | none => []

/-- In the list `L`, the statement `a` occurs strictly before every occurrence of `t`. -/
def Before (L : List StmtId) (a t : StmtId) : Prop :=
  ∀ i, i < L.length → L[i]? = some t → a ∈ L.take i

/-- Definition before use in the statement list `L`: the operands of every statement of `L`
occur strictly before it in `L`. -/
def DefBeforeUse (ir : IR) (L : List StmtId) : Prop :=
  ∀ t ∈ L, ∀ o ∈ operands_of ir t, Before L o t

/-- Every statement of the list `L` exists and is owned by the block `b`. -/
def Owns (ir : IR) (b : BlockId) (L : List StmtId) : Prop :=
  ∀ t ∈ L, ∃ y, ir.stmts[t]? = some y ∧ y.parent = some b

/-- What the visit of `s` keeps true of the block `b` that lists `s`: the block owns its
statements, operands are defined before their use, and every statement created since the
state had `n0` statements stands before `s`. -/
structure BlockInv (n0 : Nat) (s : StmtId) (b : BlockId) (ir : IR) (L : List StmtId) :
    Prop where
  blk : ir.blocks[b]? = some L
  own : Owns ir b L
  dbu : DefBeforeUse ir L
  mem : s ∈ L
  casts : ∀ c ∈ L, n0 ≤ c → Before L c s
/-- An event of the traversal: a block is entered (`visit(Block *)` takes its snapshot), or a
statement is dispatched (`accept` is called on it). -/
inductive Event
  | enter (b : BlockId)
  | visit (s : StmtId)
  deriving DecidableEq, Repr

/-- The blocks the statement `s` owns in the state `ir`. -/
def bodies_of (ir : IR) (s : StmtId) : List BlockId :=
  match ir.stmts[s]? with
  | some x => x.kind.bodies
  | none => []

/-- The statement list of the block `b` in the state `ir`. -/
def block_of (ir : IR) (b : BlockId) : List StmtId :=
  match ir.blocks[b]? with
  | some l => l
  | none => []

/-- The block that owns the statement `a` in the state `ir`. -/
def parent_of (ir : IR) (a : StmtId) : Option BlockId :=
  match ir.stmts[a]? with
  | some x => x.parent
  | none => none

/-- The events of the traversal of the tree under the statement `s` of the state `ir`, in
depth-first program order: `s` is dispatched, then each block it owns is entered and its
statements are traversed in list order. The fuel is that of `accept`. -/
def events : Nat → IR → StmtId → List Event
  | 0, _, _ => []
  | fuel + 1, ir, s =>
    .visit s :: (bodies_of ir s).flatMap
      (fun b => .enter b :: (block_of ir b).flatMap (events fuel ir))

/-- The events of the traversal of the block `b`: it is entered, then its statements are
traversed in list order. -/
def events_block (fuel : Nat) (ir : IR) (b : BlockId) : List Event :=
  .enter b :: (block_of ir b).flatMap (events fuel ir)

/-- The statements dispatched by a sequence of events, in order. -/
def visits : List Event → List StmtId
  | [] => []
  | .visit s :: es => s :: visits es
  | .enter _ :: es => visits es

/-- The statements of the tree under the block `root`, in depth-first program order. -/
def program_order (fuel : Nat) (ir : IR) (root : BlockId) : List StmtId :=
  visits (events_block fuel ir root)

/-- Ownership and definition before use along a sequence of events: when a statement is
dispatched, the block that owns it and the blocks that own its operands are not entered
later on (they were entered before, or they are not part of the traversal). -/
def owners_entered (ir : IR) : List Event → Prop
  | [] => True
  | .enter _ :: es => owners_entered ir es
  | .visit s :: es =>
    (∀ a ∈ s :: operands_of ir s, ∀ b, parent_of ir a = some b → Event.enter b ∉ es) ∧
      owners_entered ir es

/-- From `ir` to `ir'` the ghost log of accepted statements grows by exactly the statements
created in between, each logged once, in the order of their creation. -/
def LogFresh (ir ir' : IR) : Prop :=
  ir.stmts.length ≤ ir'.stmts.length ∧
    ir'.accepted = ir.accepted ++
      List.range' ir.stmts.length (ir'.stmts.length - ir.stmts.length)

/-- From `ir` to `ir'` the ghost log of accepted statements grows by a list whose statements
older than `n0` are the list `V`, in that order, and whose other statements are exactly the
statements created in between, each logged once, in the order of their creation. -/
def LogOK (n0 : Nat) (ir ir' : IR) (V : List StmtId) : Prop :=
  ir.stmts.length ≤ ir'.stmts.length ∧
    ∃ Lg, ir'.accepted = ir.accepted ++ Lg ∧
      Lg.filter (fun t => decide (t < n0)) = V ∧
      Lg.filter (fun t => decide (n0 ≤ t)) =
        List.range' ir.stmts.length (ir'.stmts.length - ir.stmts.length)

/-- The invariant of the traversal, between the initial state `ir0` and the current state
`ir`, with `fut` the events still to come: the program only grew; the blocks still to be
entered are unchanged; the owners of the statements still to be dispatched and of their
operands are not entered later; the statements still to be dispatched are initial ones. -/
structure TraversalInv (ir0 ir : IR) (fut : List Event) : Prop where
  g : Grows ir0 ir
  clean : ∀ b, Event.enter b ∈ fut → ir.blocks[b]? = ir0.blocks[b]?
  wf : owners_entered ir fut
  old : ∀ t, Event.visit t ∈ fut → t < ir0.stmts.length

/-! ## Lemmas on the state -/

theorem IR.modify_get (ir : IR) (s t : StmtId) (f : Stmt → Stmt) :
    (ir.modify s f).stmts[t]? = if t = s then (ir.stmts[t]?).map f else ir.stmts[t]? := by
  unfold IR.modify
  by_cases h : t = s
  · subst h
    cases hx : ir.stmts[t]? with
    | none => simp [hx]
    | some x =>
      have hlt : t < ir.stmts.length := by
        rcases List.getElem?_eq_some.1 hx with ⟨h, _⟩; exact h
      simp [hx, List.getElem?_set, hlt]
  · cases hx : ir.stmts[s]? with
    | none => simp [h]
    | some x => simp [h, List.getElem?_set, Ne.symm h]

@[simp] theorem IR.modify_blocks (ir : IR) (s : StmtId) (f : Stmt → Stmt) :
    (ir.modify s f).blocks = ir.blocks := by
  unfold IR.modify; split <;> rfl

@[simp] theorem IR.modify_warnings (ir : IR) (s : StmtId) (f : Stmt → Stmt) :
    (ir.modify s f).warnings = ir.warnings := by
  unfold IR.modify; split <;> rfl

@[simp] theorem IR.modify_accepted (ir : IR) (s : StmtId) (f : Stmt → Stmt) :
    (ir.modify s f).accepted = ir.accepted := by
  unfold IR.modify; split <;> rfl

@[simp] theorem IR.modify_length (ir : IR) (s : StmtId) (f : Stmt → Stmt) :
    (ir.modify s f).stmts.length = ir.stmts.length := by
  unfold IR.modify; split <;> simp

theorem lt_of_get {α : Type} {l : List α} {t : Nat} {x : α} (h : l[t]? = some x) :
    t < l.length := by
  rcases List.getElem?_eq_some.1 h with ⟨h, _⟩; exact h

/-! ## Lemmas on the cast synthesizer -/

theorem insert_before_spec (a n : StmtId) (l : List StmtId) (h : a ∈ l) :
    ∃ pre post, l = pre ++ a :: post ∧ a ∉ pre ∧
      insert_before a n l = some (pre ++ n :: a :: post) ∧
      insert_after a n l = some (pre ++ a :: n :: post) := by
  induction l with
  | nil => simp at h
  | cons x xs ih =>
    by_cases hx : x = a
    · exact ⟨[], xs, by simp [hx], by simp, by simp [insert_before, hx],
        by simp [insert_after, hx]⟩
    · have h' : a ∈ xs := by
        rcases List.mem_cons.1 h with h | h
        · exact absurd h.symm hx
        · exact h
      obtain ⟨pre, post, e, hn, hi, hj⟩ := ih h'
      refine ⟨x :: pre, post, by simp [e], ?_, ?_, ?_⟩
      · simp [hn, Ne.symm hx]
      · simp [insert_before, hx, hi]
      · simp [insert_after, hx, hj]

theorem visit_fresh_cast (ir : IR) (i : StmtId) (dt : DataType) (h : i ≤ ir.stmts.length) :
    visit_UnaryOpStmt ir.stmts.length
      (IR.log_accept { ir with stmts := ir.stmts ++ [make_cast i dt] } ir.stmts.length) =
    .ok { stmts := ir.stmts ++ [⟨.UnaryOpStmt .cast i dt true, ⟨cast_width ir i, dt⟩, none⟩]
          blocks := ir.blocks, warnings := ir.warnings
          accepted := ir.accepted ++ [ir.stmts.length] } := by
  rcases Nat.lt_or_eq_of_le h with hlt | heq
  · have hx : ir.stmts[i]? = some (ir.stmts[i]) := List.getElem?_eq_getElem hlt
    simp [visit_UnaryOpStmt, IR.deref, IR.log_accept, make_cast, IR.ret_type, IR.set_ret_type,
      IR.set_data_type, IR.modify, bind, Except.bind, pure, Except.pure,
      List.getElem?_append_left hlt, hx, cast_width, is_trigonometric, fatal, Nat.ne_of_lt hlt]
  · subst heq
    simp [visit_UnaryOpStmt, IR.deref, IR.log_accept, make_cast, IR.ret_type, IR.set_ret_type,
      IR.set_data_type, IR.modify, bind, Except.bind, pure, Except.pure,
      cast_width, is_trigonometric, fatal]

theorem visit_fresh_cast_invalid (ir : IR) (i : StmtId) (dt : DataType)
    (h : ¬ i ≤ ir.stmts.length) :
    visit_UnaryOpStmt ir.stmts.length
      (IR.log_accept { ir with stmts := ir.stmts ++ [make_cast i dt] } ir.stmts.length) =
    .error .invalid := by
  have h' : ir.stmts.length < i := Nat.lt_of_not_le h
  have h1 : (ir.stmts ++ [make_cast i dt])[i]? = none := by
    apply List.getElem?_eq_none
    simp only [List.length_append, List.length_singleton]
    exact h'
  simp only [visit_UnaryOpStmt, IR.deref, IR.log_accept, IR.ret_type, bind, Except.bind,
    List.getElem?_concat_length, make_cast]
  simp only [make_cast] at h1
  simp [h1]

theorem insert_type_cast_before_iff (ir ir' : IR) (a i c : StmtId) (dt : DataType) :
    insert_type_cast_before a i dt ir = .ok (ir', c) ↔
      ∃ sa b l l', c = ir.stmts.length ∧ i ≤ ir.stmts.length ∧ ir.stmts[a]? = some sa ∧
        sa.parent = some b ∧ ir.blocks[b]? = some l ∧
        insert_before a ir.stmts.length l = some l' ∧ ir' = with_cast ir i dt b l' := by
  unfold insert_type_cast_before
  by_cases hi : i ≤ ir.stmts.length
  · simp only [visit_fresh_cast ir i dt hi, bind, Except.bind, insert_before_me, IR.deref]
    by_cases ha : a < ir.stmts.length
    · have hx : ir.stmts[a]? = some (ir.stmts[a]) := List.getElem?_eq_getElem ha
      simp only [List.getElem?_append_left ha, hx]
      cases hp : (ir.stmts[a]).parent with
      | none => simp [hp, invalid]
      | some b =>
        cases hb : ir.blocks[b]? with
        | none => simp [hp, hb, invalid]
        | some l =>
          cases hl : insert_before a ir.stmts.length l with
          | none => simp [hp, hb, hl, invalid]
          | some l' =>
            simp [hp, hb, hl, pure, Except.pure, with_cast, by_value_cast, IR.modify, hi]
            constructor
            · rintro ⟨rfl, rfl⟩; simp
            · rintro ⟨rfl, rfl⟩; simp
    · have hx : ir.stmts[a]? = none := List.getElem?_eq_none (Nat.le_of_not_lt ha)
      rcases Nat.lt_or_eq_of_le (Nat.le_of_not_lt ha) with hlt | heq
      · have hy : (ir.stmts ++
            [(⟨.UnaryOpStmt .cast i dt true, ⟨cast_width ir i, dt⟩, none⟩ : Stmt)])[a]?
            = none :=
          List.getElem?_eq_none
            (by simp only [List.length_append, List.length_singleton]; exact hlt)
        simp [hx, hy]
      · subst heq
        simp [hx, invalid]
  · simp [visit_fresh_cast_invalid ir i dt hi, bind, Except.bind, hi]

theorem insert_type_cast_after_iff (ir ir' : IR) (a i c : StmtId) (dt : DataType) :
    insert_type_cast_after a i dt ir = .ok (ir', c) ↔
      ∃ sa b l l', c = ir.stmts.length ∧ i ≤ ir.stmts.length ∧ ir.stmts[a]? = some sa ∧
        sa.parent = some b ∧ ir.blocks[b]? = some l ∧
        insert_after a ir.stmts.length l = some l' ∧ ir' = with_cast ir i dt b l' := by
  unfold insert_type_cast_after
  by_cases hi : i ≤ ir.stmts.length
  · simp only [visit_fresh_cast ir i dt hi, bind, Except.bind, insert_after_me, IR.deref]
    by_cases ha : a < ir.stmts.length
    · have hx : ir.stmts[a]? = some (ir.stmts[a]) := List.getElem?_eq_getElem ha
      simp only [List.getElem?_append_left ha, hx]
      cases hp : (ir.stmts[a]).parent with
      | none => simp [hp, invalid]
      | some b =>
        cases hb : ir.blocks[b]? with
        | none => simp [hp, hb, invalid]
        | some l =>
          cases hl : insert_after a ir.stmts.length l with
          | none => simp [hp, hb, hl, invalid]
          | some l' =>
            simp [hp, hb, hl, pure, Except.pure, with_cast, by_value_cast, IR.modify, hi]
            constructor
            · rintro ⟨rfl, rfl⟩; simp
            · rintro ⟨rfl, rfl⟩; simp
    · have hx : ir.stmts[a]? = none := List.getElem?_eq_none (Nat.le_of_not_lt ha)
      rcases Nat.lt_or_eq_of_le (Nat.le_of_not_lt ha) with hlt | heq
      · have hy : (ir.stmts ++
            [(⟨.UnaryOpStmt .cast i dt true, ⟨cast_width ir i, dt⟩, none⟩ : Stmt)])[a]?
            = none :=
          List.getElem?_eq_none
            (by simp only [List.length_append, List.length_singleton]; exact hlt)
        simp [hx, hy]
      · subst heq
        simp [hx, invalid]
  · simp [visit_fresh_cast_invalid ir i dt hi, bind, Except.bind, hi]

theorem insert_before_me_error (ir : IR) (a c : StmtId) (e : Abort)
    (h : insert_before_me a c ir = .error e) : e = .invalid := by
  unfold insert_before_me at h
  simp only [bind, Except.bind, IR.deref] at h
  cases h1 : ir.stmts[a]? with
  | none => rw [h1] at h; simp at h; exact h.symm
  | some sa =>
    rw [h1] at h
    simp only at h
    cases h2 : sa.parent with
    | none => rw [h2] at h; simp [invalid] at h; exact h.symm
    | some b =>
      rw [h2] at h
      simp only at h
      cases h3 : ir.blocks[b]? with
      | none => rw [h3] at h; simp [invalid] at h; exact h.symm
      | some l =>
        rw [h3] at h
        simp only at h
        cases h4 : insert_before a c l with
        | none => rw [h4] at h; simp [invalid] at h; exact h.symm
        | some l' => rw [h4] at h; simp [pure, Except.pure] at h

theorem insert_after_me_error (ir : IR) (a c : StmtId) (e : Abort)
    (h : insert_after_me a c ir = .error e) : e = .invalid := by
  unfold insert_after_me at h
  simp only [bind, Except.bind, IR.deref] at h
  cases h1 : ir.stmts[a]? with
  | none => rw [h1] at h; simp at h; exact h.symm
  | some sa =>
    rw [h1] at h
    simp only at h
    cases h2 : sa.parent with
    | none => rw [h2] at h; simp [invalid] at h; exact h.symm
    | some b =>
      rw [h2] at h
      simp only at h
      cases h3 : ir.blocks[b]? with
      | none => rw [h3] at h; simp [invalid] at h; exact h.symm
      | some l =>
        rw [h3] at h
        simp only at h
        cases h4 : insert_after a c l with
        | none => rw [h4] at h; simp [invalid] at h; exact h.symm
        | some l' => rw [h4] at h; simp [pure, Except.pure] at h

/-- The cast synthesizer never aborts fatally or runs out of fuel. -/
theorem insert_type_cast_before_error (ir : IR) (a i : StmtId) (dt : DataType) (e : Abort)
    (h : insert_type_cast_before a i dt ir = .error e) : e = .invalid := by
  unfold insert_type_cast_before at h
  by_cases hi : i ≤ ir.stmts.length
  · simp only [visit_fresh_cast ir i dt hi, bind, Except.bind] at h
    revert h
    split
    · rename_i e' he
      intro h
      have := insert_before_me_error _ _ _ _ he
      simp at h; rw [← h]; exact this
    · intro h; simp [pure, Except.pure] at h
  · simp [visit_fresh_cast_invalid ir i dt hi, bind, Except.bind] at h
    exact h.symm

theorem insert_type_cast_after_error (ir : IR) (a i : StmtId) (dt : DataType) (e : Abort)
    (h : insert_type_cast_after a i dt ir = .error e) : e = .invalid := by
  unfold insert_type_cast_after at h
  by_cases hi : i ≤ ir.stmts.length
  · simp only [visit_fresh_cast ir i dt hi, bind, Except.bind] at h
    revert h
    split
    · rename_i e' he
      intro h
      have := insert_after_me_error _ _ _ _ he
      simp at h; rw [← h]; exact this
    · intro h; simp [pure, Except.pure] at h
  · simp [visit_fresh_cast_invalid ir i dt hi, bind, Except.bind] at h
    exact h.symm

/-! ## The frame of the pass -/

theorem Ext.refl (ir : IR) : Ext ir ir := by
  refine ⟨?_, ?_, ?_, ?_⟩
  · intro t x h
    exact ⟨x, h, rfl, fun _ h => h⟩
  · intro t x' h h'
    rw [h] at h'
    cases h'
  · intro b l h
    exact ⟨l, h, List.Sublist.refl l, fun _ h => Or.inl h⟩
  · intro b h
    exact h

theorem Ext.trans {a b c : IR} (h1 : Ext a b) (h2 : Ext b c) : Ext a c := by
  refine ⟨?_, ?_, ?_, ?_⟩
  · intro t x hx
    obtain ⟨x1, hx1, hs1, hk1⟩ := h1.old t x hx
    obtain ⟨x2, hx2, hs2, hk2⟩ := h2.old t x1 hx1
    refine ⟨x2, hx2, hs2.trans hs1, ?_⟩
    intro ht hn
    have ht1 : x1.kind.typed = true := by
      have : x1.kind.skeleton = x.kind.skeleton := hs1
      revert ht this
      cases x.kind <;> cases x1.kind <;> simp [StmtKind.skeleton, StmtKind.typed]
    exact hk2 ht1 (hk1 ht hn)
  · intro t x' hn hc
    cases hb : b.stmts[t]? with
    | none => exact h2.fresh t x' hb hc
    | some x1 =>
      obtain ⟨i, dt, hk⟩ := h1.fresh t x1 hn hb
      obtain ⟨x2, hx2, hs2, _⟩ := h2.old t x1 hb
      rw [hc] at hx2
      cases hx2
      rw [hk] at hs2
      revert hs2
      cases x'.kind <;> simp [StmtKind.skeleton]
      intro h1 _ _ h4
      exact ⟨h1, h4⟩
  · intro bl l hl
    obtain ⟨l1, hl1, hs1, hm1⟩ := h1.blocks bl l hl
    obtain ⟨l2, hl2, hs2, hm2⟩ := h2.blocks bl l1 hl1
    refine ⟨l2, hl2, hs1.trans hs2, ?_⟩
    intro t ht
    rcases hm2 t ht with h | h
    · exact hm1 t h
    · right
      cases ha : a.stmts[t]? with
      | none => rfl
      | some x =>
        obtain ⟨x1, hx1, _⟩ := h1.old t x ha
        rw [h] at hx1
        cases hx1
  · intro bl hn
    exact h2.blocks_none bl (h1.blocks_none bl hn)

theorem Ext_of_eq {ir ir' : IR} (h1 : ir'.stmts = ir.stmts) (h2 : ir'.blocks = ir.blocks) :
    Ext ir ir' := by
  refine ⟨?_, ?_, ?_, ?_⟩
  · intro t x h
    exact ⟨x, by rw [h1]; exact h, rfl, fun _ h => h⟩
  · intro t x' h h'
    rw [h1, h] at h'
    cases h'
  · intro b l h
    exact ⟨l, by rw [h2]; exact h, List.Sublist.refl l, fun _ h => Or.inl h⟩
  · intro b h
    rw [h2]; exact h

theorem Ext_warn (ir : IR) (w : Warning) : Ext ir (ir.warn w) :=
  Ext_of_eq rfl rfl

theorem Ext_log_accept (ir : IR) (s : StmtId) : Ext ir (ir.log_accept s) :=
  Ext_of_eq rfl rfl

theorem Ext_modify (ir : IR) (s : StmtId) (f : Stmt → Stmt)
    (hf : ∀ x, ir.stmts[s]? = some x → (f x).kind.skeleton = x.kind.skeleton ∧
      (x.kind.typed = true → x.ret_type.data_type ≠ .unknown →
        (f x).ret_type.data_type ≠ .unknown)) :
    Ext ir (ir.modify s f) := by
  refine ⟨?_, ?_, ?_, ?_⟩
  · intro t x hx
    rw [IR.modify_get]
    by_cases h : t = s
    · subst h
      simp only [if_true, hx, Option.map_some']
      exact ⟨f x, rfl, (hf x hx).1, (hf x hx).2⟩
    · simp only [h, if_false]
      exact ⟨x, hx, rfl, fun _ h => h⟩
  · intro t x' hn hc
    rw [IR.modify_get, hn] at hc
    simp at hc
  · intro b l h
    exact ⟨l, by rw [IR.modify_blocks]; exact h, List.Sublist.refl l, fun _ h => Or.inl h⟩
  · intro b h
    rw [IR.modify_blocks]; exact h

theorem insert_before_sublist (a n : StmtId) (l l' : List StmtId)
    (h : insert_before a n l = some l') : l.Sublist l' ∧ ∀ t ∈ l', t ∈ l ∨ t = n := by
  induction l generalizing l' with
  | nil => simp [insert_before] at h
  | cons x xs ih =>
    unfold insert_before at h
    by_cases hx : x = a
    · subst hx
      simp only [if_true, Option.some.injEq] at h
      subst h
      refine ⟨List.Sublist.cons _ (List.Sublist.refl _), ?_⟩
      intro t ht
      rcases List.mem_cons.1 ht with h | h
      · exact Or.inr h
      · left; exact h
    · simp only [hx, if_false] at h
      cases hr : insert_before a n xs with
      | none => rw [hr] at h; simp at h
      | some r =>
        rw [hr] at h
        simp only [Option.map_some', Option.some.injEq] at h
        subst h
        obtain ⟨h1, h2⟩ := ih r hr
        refine ⟨List.Sublist.cons₂ _ h1, ?_⟩
        intro t ht
        rcases List.mem_cons.1 ht with h | h
        · left; rw [h]; exact List.mem_cons_self _ _
        · rcases h2 t h with h | h
          · left; exact List.mem_cons_of_mem _ h
          · exact Or.inr h

theorem insert_after_sublist (a n : StmtId) (l l' : List StmtId)
    (h : insert_after a n l = some l') : l.Sublist l' ∧ ∀ t ∈ l', t ∈ l ∨ t = n := by
  induction l generalizing l' with
  | nil => simp [insert_after] at h
  | cons x xs ih =>
    unfold insert_after at h
    by_cases hx : x = a
    · subst hx
      simp only [if_true, Option.some.injEq] at h
      subst h
      refine ⟨List.Sublist.cons₂ _ (List.Sublist.cons _ (List.Sublist.refl _)), ?_⟩
      intro t ht
      rcases List.mem_cons.1 ht with h | h
      · left; rw [h]; exact List.mem_cons_self _ _
      · rcases List.mem_cons.1 h with h | h
        · exact Or.inr h
        · left; exact List.mem_cons_of_mem _ h
    · simp only [hx, if_false] at h
      cases hr : insert_after a n xs with
      | none => rw [hr] at h; simp at h
      | some r =>
        rw [hr] at h
        simp only [Option.map_some', Option.some.injEq] at h
        subst h
        obtain ⟨h1, h2⟩ := ih r hr
        refine ⟨List.Sublist.cons₂ _ h1, ?_⟩
        intro t ht
        rcases List.mem_cons.1 ht with h | h
        · left; rw [h]; exact List.mem_cons_self _ _
        · rcases h2 t h with h | h
          · left; exact List.mem_cons_of_mem _ h
          · exact Or.inr h

theorem with_cast_get_old (ir : IR) (i : StmtId) (dt : DataType) (b : BlockId)
    (l : List StmtId) (t : StmtId) (h : t < ir.stmts.length) :
    (with_cast ir i dt b l).stmts[t]? = ir.stmts[t]? := by
  simp [with_cast, List.getElem?_append_left h]

theorem with_cast_get_new (ir : IR) (i : StmtId) (dt : DataType) (b : BlockId)
    (l : List StmtId) :
    (with_cast ir i dt b l).stmts[ir.stmts.length]? =
      some (by_value_cast i dt (cast_width ir i) b) := by
  simp [with_cast]

theorem Ext_with_cast (ir : IR) (i : StmtId) (dt : DataType) (b : BlockId) (l l' : List StmtId)
    (hb : ir.blocks[b]? = some l) (hs : l.Sublist l')
    (hm : ∀ t ∈ l', t ∈ l ∨ t = ir.stmts.length) : Ext ir (with_cast ir i dt b l') := by
  refine ⟨?_, ?_, ?_, ?_⟩
  · intro t x hx
    rw [with_cast_get_old ir i dt b l' t (lt_of_get hx)]
    exact ⟨x, hx, rfl, fun _ h => h⟩
  · intro t x' hn hc
    have hge : ir.stmts.length ≤ t := by
      by_contra hlt
      have := List.getElem?_eq_getElem (Nat.lt_of_not_le hlt)
      rw [hn] at this
      cases this
    have hlt : t < (with_cast ir i dt b l').stmts.length := lt_of_get hc
    have : t = ir.stmts.length := by
      simp only [with_cast, List.length_append, List.length_singleton] at hlt
      exact Nat.le_antisymm (Nat.lt_succ_iff.mp hlt) hge
    subst this
    rw [with_cast_get_new] at hc
    cases hc
    exact ⟨_, _, rfl⟩
  · intro b' l0 h0
    simp only [with_cast]
    by_cases hbb : b = b'
    · subst hbb
      rw [hb] at h0
      cases h0
      refine ⟨l', ?_, hs, ?_⟩
      · rw [List.getElem?_set_self]
        simp [lt_of_get hb]
      · intro t ht
        rcases hm t ht with h | h
        · exact Or.inl h
        · right; rw [h]; exact List.getElem?_eq_none (Nat.le_refl _)
    · refine ⟨l0, ?_, List.Sublist.refl _, fun _ h => Or.inl h⟩
      rw [List.getElem?_set_ne hbb]
      exact h0
  · intro b' hn
    simp only [with_cast]
    by_cases hbb : b = b'
    · subst hbb
      rw [hb] at hn
      cases hn
    · rw [List.getElem?_set_ne hbb]
      exact hn

/-! ## Lemmas on binary operators -/

theorem Ext_insert_type_cast_before {ir ir' : IR} {a i c : StmtId} {dt : DataType}
    (h : insert_type_cast_before a i dt ir = .ok (ir', c)) : Ext ir ir' := by
  obtain ⟨sa, b, l, l', _, _, _, _, hb, hl, rfl⟩ := (insert_type_cast_before_iff _ _ _ _ _ _).1 h
  obtain ⟨h1, h2⟩ := insert_before_sublist _ _ _ _ hl
  exact Ext_with_cast ir i dt b l l' hb h1 h2

theorem Ext_insert_type_cast_after {ir ir' : IR} {a i c : StmtId} {dt : DataType}
    (h : insert_type_cast_after a i dt ir = .ok (ir', c)) : Ext ir ir' := by
  obtain ⟨sa, b, l, l', _, _, _, _, hb, hl, rfl⟩ := (insert_type_cast_after_iff _ _ _ _ _ _).1 h
  obtain ⟨h1, h2⟩ := insert_after_sublist _ _ _ _ hl
  exact Ext_with_cast ir i dt b l l' hb h1 h2

theorem Ext_assign (ir : IR) (s : StmtId) (g : StmtKind → StmtKind)
    (hg : ∀ x, ir.stmts[s]? = some x → (g x.kind).skeleton = x.kind.skeleton) :
    Ext ir (ir.assign s g) := by
  apply Ext_modify
  intro x hx
  exact ⟨hg x hx, fun _ h => h⟩

theorem skeleton_set_lhs (v : StmtId) (k : StmtKind) :
    (StmtKind.set_lhs v k).skeleton = k.skeleton := by
  cases k <;> rfl

theorem skeleton_set_rhs (v : StmtId) (k : StmtKind) :
    (StmtKind.set_rhs v k).skeleton = k.skeleton := by
  cases k <;> rfl

theorem skeleton_set_op2 (v : StmtId) (k : StmtKind) :
    (StmtKind.set_op2 v k).skeleton = k.skeleton := by
  cases k <;> rfl

theorem skeleton_set_op3 (v : StmtId) (k : StmtKind) :
    (StmtKind.set_op3 v k).skeleton = k.skeleton := by
  cases k <;> rfl

theorem skeleton_set_data (v : StmtId) (k : StmtKind) :
    (StmtKind.set_data v k).skeleton = k.skeleton := by
  cases k <;> rfl

theorem skeleton_set_val (v : StmtId) (k : StmtKind) :
    (StmtKind.set_val v k).skeleton = k.skeleton := by
  cases k <;> rfl

theorem Ext_set_lhs (ir : IR) (s v : StmtId) : Ext ir (ir.set_lhs s v) :=
  Ext_assign ir s _ (fun _ _ => skeleton_set_lhs _ _)

theorem Ext_set_ret_type (ir : IR) (s : StmtId) (t : VectorType)
    (h : ∀ x, ir.stmts[s]? = some x → x.kind.typed = true → t.data_type ≠ .unknown) :
    Ext ir (ir.set_ret_type s t) := by
  apply Ext_modify
  intro x hx
  exact ⟨rfl, fun ht _ => h x hx ht⟩

theorem coerce_lhs_ext {pred : DataType → Bool} {dt : DataType} {s : StmtId} {ir ir' : IR}
    (h : coerce_lhs pred dt s ir = .ok ir') : Ext ir ir' := by
  unfold coerce_lhs at h
  simp only [bind, Except.bind] at h
  split at h
  · cases h
  · split at h
    · cases h
    · split at h
      · simp only [pure, Except.pure, Except.ok.injEq] at h
        subst h
        exact Ext.refl _
      · split at h
        · cases h
        · rename_i v hv
          simp only [pure, Except.pure, Except.ok.injEq] at h
          subst h
          exact (Ext_insert_type_cast_after hv).trans (Ext_set_lhs _ _ _)


theorem IR.binary_ok {ir : IR} {s : StmtId} {v : BinaryOpType × StmtId × StmtId}
    (h : ir.binary s = .ok v) :
    ∃ x, ir.stmts[s]? = some x ∧ x.kind = .BinaryOpStmt v.1 v.2.1 v.2.2 := by
  unfold IR.binary at h
  split at h
  · rename_i x hx
    split at h
    · rename_i op l r hk
      cases h
      exact ⟨x, hx, hk⟩
    · cases h
  · cases h

theorem IR.ret_type_ok {ir : IR} {s : StmtId} {v : VectorType}
    (h : ir.ret_type s = .ok v) : ∃ x, ir.stmts[s]? = some x ∧ x.ret_type = v := by
  unfold IR.ret_type at h
  split at h
  · rename_i x hx
    cases h
    exact ⟨x, hx, rfl⟩
  · cases h

theorem check_and_assign_ok {s : StmtId} {ir ir' : IR} (h : check_and_assign s ir = .ok ir') :
    ∃ x op l r xl xr, ir.stmts[s]? = some x ∧ x.kind = .BinaryOpStmt op l r ∧
      ir.stmts[l]? = some xl ∧ ir.stmts[r]? = some xr ∧ xl.ret_type = xr.ret_type ∧
      xl.ret_type.data_type ≠ .unknown ∧
      (binary_is_bitwise op = true → is_integral xl.ret_type.data_type = true) ∧
      ir' = ir.set_ret_type s
        (if is_comparison op = true then ⟨xl.ret_type.width, .i32⟩ else xl.ret_type) := by
  unfold check_and_assign at h
  simp only [bind, Except.bind] at h
  split at h
  · cases h
  · rename_i v hv
    obtain ⟨x, hx, hk⟩ := IR.binary_ok hv
    split at h
    · cases h
    · rename_i lt hlt
      obtain ⟨xl, hxl, rfl⟩ := IR.ret_type_ok hlt
      split at h
      · cases h
      · rename_i rt hrt
        obtain ⟨xr, hxr, rfl⟩ := IR.ret_type_ok hrt
        split at h
        · simp [error, fatal] at h
        · rename_i hm
          split at h
          · simp [error_bitwise, fatal] at h
          · rename_i hb
            simp only [Bool.not_eq_true, Bool.and_eq_true, Bool.not_eq_true', decide_eq_true_eq,
              Bool.not_eq_true, not_and, Bool.not_eq_false, Bool.and_eq_false_imp] at hm hb
            refine ⟨x, v.1, v.2.1, v.2.2, xl, xr, hx, hk, hxl, hxr, ?_, ?_, ?_, ?_⟩
            · by_contra hne
              exact hm (fun _ => by simp [hne])
            · intro hu
              exact hm (fun hh => absurd hu hh.1.2)
            · exact hb
            · split at h
              · rename_i hc
                simp only [pure, Except.pure, Except.ok.injEq] at h
                simp [hc, ← h]
              · rename_i hc
                simp only [pure, Except.pure, Except.ok.injEq] at h
                simp [hc, ← h]


theorem skeleton_binary {k k' : StmtKind} {op : BinaryOpType} {l r : StmtId}
    (h : k'.skeleton = k.skeleton) (hk : k = .BinaryOpStmt op l r) :
    ∃ op' l' r', k' = .BinaryOpStmt op' l' r' ∧ lowered op' = lowered op := by
  subst hk
  cases k' <;> simp [StmtKind.skeleton] at h
  exact ⟨_, _, _, rfl, h⟩

theorem is_comparison_lowered (op : BinaryOpType) :
    is_comparison (lowered op) = is_comparison op := by
  cases op <;> rfl

theorem lowered_lowered (op : BinaryOpType) : lowered (lowered op) = lowered op := by
  cases op <;> rfl

theorem Ext_set_rhs (ir : IR) (s v : StmtId) : Ext ir (ir.set_rhs s v) :=
  Ext_assign ir s _ (fun _ _ => skeleton_set_rhs _ _)

theorem Ext_set_op_type (ir : IR) (s : StmtId) (op : BinaryOpType)
    (h : ∀ x op' l r, ir.stmts[s]? = some x → x.kind = .BinaryOpStmt op' l r →
      lowered op = lowered op') :
    Ext ir (ir.set_op_type s op) := by
  apply Ext_assign
  intro x hx
  cases hk : x.kind <;> simp [hk, StmtKind.skeleton, StmtKind.set_op_type]
  exact h x _ _ _ hx hk

theorem coerce_rhs_ext {pred : DataType → Bool} {dt : DataType} {s : StmtId} {ir ir' : IR}
    (h : coerce_rhs pred dt s ir = .ok ir') : Ext ir ir' := by
  unfold coerce_rhs at h
  simp only [bind, Except.bind] at h
  split at h
  · cases h
  · split at h
    · cases h
    · split at h
      · simp only [pure, Except.pure, Except.ok.injEq] at h
        subst h
        exact Ext.refl _
      · split at h
        · cases h
        · rename_i v hv
          simp only [pure, Except.pure, Except.ok.injEq] at h
          subst h
          exact (Ext_insert_type_cast_after hv).trans (Ext_set_rhs _ _ _)

theorem lower_ext {pred : DataType → Bool} {dt : DataType} {s : StmtId} {ir ir1 ir2 : IR}
    {v : BinaryOpType × StmtId × StmtId}
    (hv : ir.binary s = .ok v) (hop : lowered v.1 = .div)
    (h1 : coerce_lhs pred dt s ir = .ok ir1) (h2 : coerce_rhs pred dt s ir1 = .ok ir2) :
    Ext ir (ir2.set_op_type s .div) := by
  have e12 := (coerce_lhs_ext h1).trans (coerce_rhs_ext h2)
  refine e12.trans (Ext_set_op_type _ _ _ ?_)
  intro x op' l r hx hk
  obtain ⟨x0, hx0, hk0⟩ := IR.binary_ok hv
  obtain ⟨x', hx', hs, _⟩ := e12.old s x0 hx0
  rw [hx] at hx'
  cases hx'
  obtain ⟨op2, l2, r2, hk2, hl⟩ := skeleton_binary hs hk0
  rw [hk] at hk2
  cases hk2
  rw [hl, hop]
  rfl

theorem lower_floordiv_ext {cfg : Config} {s : StmtId} {ir ir' : IR}
    (h : lower_floordiv cfg s ir = .ok ir') : Ext ir ir' := by
  unfold lower_floordiv at h
  simp only [bind, Except.bind] at h
  split at h
  · cases h
  · rename_i v hv
    split at h
    · rename_i hop
      split at h
      · cases h
      · rename_i ir1 h1
        split at h
        · cases h
        · rename_i ir2 h2
          simp only [pure, Except.pure, Except.ok.injEq] at h
          subst h
          exact lower_ext hv (by rw [hop]; rfl) h1 h2
    · simp only [pure, Except.pure, Except.ok.injEq] at h
      subst h
      exact Ext.refl _

theorem lower_truediv_ext {cfg : Config} {s : StmtId} {ir ir' : IR}
    (h : lower_truediv cfg s ir = .ok ir') : Ext ir ir' := by
  unfold lower_truediv at h
  simp only [bind, Except.bind] at h
  split at h
  · cases h
  · rename_i v hv
    split at h
    · rename_i hop
      split at h
      · cases h
      · rename_i ir1 h1
        split at h
        · cases h
        · rename_i ir2 h2
          simp only [pure, Except.pure, Except.ok.injEq] at h
          subst h
          exact lower_ext hv (by rw [hop]; rfl) h1 h2
    · simp only [pure, Except.pure, Except.ok.injEq] at h
      subst h
      exact Ext.refl _

theorem cast_before_ext {stmt input : StmtId} {dt : DataType}
    {field : StmtId → StmtKind → StmtKind}
    (hset : ∀ v k, (field v k).skeleton = k.skeleton) {ir ir' : IR}
    (h : cast_before stmt input dt field ir = .ok ir') : Ext ir ir' := by
  unfold cast_before at h
  simp only [bind, Except.bind] at h
  split at h
  · cases h
  · rename_i v hv
    simp only [pure, Except.pure, Except.ok.injEq] at h
    subst h
    exact (Ext_insert_type_cast_before hv).trans (Ext_assign _ _ _ (fun _ _ => hset _ _))

theorem cast_before_if_ext {c : Prop} [Decidable c] {stmt input : StmtId} {dt : DataType}
    {field : StmtId → StmtKind → StmtKind}
    (hset : ∀ v k, (field v k).skeleton = k.skeleton) {ir ir' : IR}
    (h : cast_before_if c stmt input dt field ir = .ok ir') : Ext ir ir' := by
  unfold cast_before_if at h
  split at h
  · exact cast_before_ext hset h
  · simp only [pure, Except.pure, Except.ok.injEq] at h
    subst h
    exact Ext.refl _

theorem promote_ext {cfg : Config} {s : StmtId} {ir ir' : IR}
    (h : promote cfg s ir = .ok ir') : Ext ir ir' := by
  unfold promote at h
  simp only [bind, Except.bind] at h
  split at h
  · cases h
  · split at h
    · cases h
    · split at h
      · cases h
      · split at h
        · split at h
          · cases h
          · rename_i ir1 h1
            split at h
            · cases h
            · split at h
              · cases h
              · exact (cast_before_if_ext skeleton_set_lhs h1).trans
                  (cast_before_if_ext skeleton_set_rhs h)
        · simp only [pure, Except.pure, Except.ok.injEq] at h
          subst h
          exact Ext.refl _

theorem check_and_assign_ext {s : StmtId} {ir ir' : IR}
    (h : check_and_assign s ir = .ok ir') : Ext ir ir' := by
  obtain ⟨x, op, l, r, xl, xr, _, _, _, _, _, hn, _, rfl⟩ := check_and_assign_ok h
  apply Ext_set_ret_type
  intro _ _ _
  split
  · simp
  · exact hn

theorem visit_BinaryOpStmt_ok {cfg : Config} {s : StmtId} {ir ir' : IR}
    (h : visit_BinaryOpStmt cfg s ir = .ok ir') :
    ∃ ir3, Ext ir ir3 ∧ check_and_assign s ir3 = .ok ir' := by
  unfold visit_BinaryOpStmt at h
  simp only [bind, Except.bind] at h
  split at h
  · cases h
  · split at h
    · cases h
    · split at h
      · cases h
      · split at h
        · simp [error, fatal] at h
        · split at h
          · cases h
          · rename_i ir1 h1
            split at h
            · cases h
            · rename_i ir2 h2
              split at h
              · cases h
              · rename_i ir3 h3
                exact ⟨ir3, ((lower_floordiv_ext h1).trans (lower_truediv_ext h2)).trans
                  (promote_ext h3), h⟩

theorem visit_BinaryOpStmt_ext {cfg : Config} {s : StmtId} {ir ir' : IR}
    (h : visit_BinaryOpStmt cfg s ir = .ok ir') : Ext ir ir' := by
  obtain ⟨ir3, e, h3⟩ := visit_BinaryOpStmt_ok h
  exact e.trans (check_and_assign_ext h3)


theorem IR.set_ret_type_get (ir : IR) (s t : StmtId) (T : VectorType) :
    (ir.set_ret_type s T).stmts[t]? =
      if t = s then (ir.stmts[t]?).map (fun x => { x with ret_type := T })
      else ir.stmts[t]? := by
  unfold IR.set_ret_type
  exact IR.modify_get ir s t _

/-- Assigning `T` to `s` leaves every statement whose type has the property `P` with a type
that has it, as soon as `T` has it. -/
theorem IR.set_ret_type_keeps (P : VectorType → Prop) (ir : IR) (s t : StmtId) (T : VectorType)
    (y : Stmt) (hy : ir.stmts[t]? = some y) (hP : P y.ret_type) (hT : P T) :
    ∃ y', (ir.set_ret_type s T).stmts[t]? = some y' ∧ P y'.ret_type ∧ y'.kind = y.kind := by
  rw [IR.set_ret_type_get]
  by_cases h : t = s
  · simp only [h, if_true]
    rw [h] at hy
    rw [hy]
    exact ⟨_, rfl, hT, rfl⟩
  · simp only [h, if_false]
    exact ⟨y, hy, hP, rfl⟩

/-! ## Forward evaluation of the binary rule -/

theorem cast_before_iff (stmt input : StmtId) (dt : DataType)
    (field : StmtId → StmtKind → StmtKind) (ir ir' : IR) :
    cast_before stmt input dt field ir = .ok ir' ↔
      ∃ sa b l l', input ≤ ir.stmts.length ∧ ir.stmts[stmt]? = some sa ∧
        sa.parent = some b ∧ ir.blocks[b]? = some l ∧
        insert_before stmt ir.stmts.length l = some l' ∧
        ir' = (with_cast ir input dt b l').assign stmt (field ir.stmts.length) := by
  unfold cast_before
  simp only [bind, Except.bind]
  constructor
  · intro h
    split at h
    · cases h
    · rename_i v hv
      obtain ⟨sa, b, l, l', hc, hi, hs, hp, hb, hl, hir⟩ :=
        (insert_type_cast_before_iff _ _ _ _ _ _).1 hv
      simp only [pure, Except.pure, Except.ok.injEq] at h
      exact ⟨sa, b, l, l', hi, hs, hp, hb, hl, by rw [← h, hir, hc]⟩
  · rintro ⟨sa, b, l, l', hi, hs, hp, hb, hl, rfl⟩
    have := (insert_type_cast_before_iff ir (with_cast ir input dt b l') stmt input
      ir.stmts.length dt).2 ⟨sa, b, l, l', rfl, hi, hs, hp, hb, hl, rfl⟩
    rw [this]
    rfl

theorem IR.binary_of {ir : IR} {s : StmtId} {x : Stmt} {op : BinaryOpType} {l r : StmtId}
    (hs : ir.stmts[s]? = some x) (hk : x.kind = .BinaryOpStmt op l r) :
    ir.binary s = .ok (op, l, r) := by
  simp [IR.binary, hs, hk]

theorem IR.ret_type_of {ir : IR} {t : StmtId} {y : Stmt} (h : ir.stmts[t]? = some y) :
    ir.ret_type t = .ok y.ret_type := by
  simp [IR.ret_type, h]

/-- The state after the lhs of `s` was promoted by a cast. -/
theorem promote_lhs_only (cfg : Config) (s : StmtId) (ir : IR) (x xl xr : Stmt)
    (op : BinaryOpType) (l r : StmtId) (b : BlockId) (blk blk' : List StmtId)
    (hs : ir.stmts[s]? = some x) (hk : x.kind = .BinaryOpStmt op l r)
    (hp : x.parent = some b) (hb : ir.blocks[b]? = some blk)
    (hblk : insert_before s ir.stmts.length blk = some blk')
    (hl : ir.stmts[l]? = some xl) (hr : ir.stmts[r]? = some xr)
    (hne : xl.ret_type.data_type ≠ xr.ret_type.data_type)
    (hpr : cfg.promoted_type xl.ret_type.data_type xr.ret_type.data_type
      = xr.ret_type.data_type) :
    promote cfg s ir =
      .ok ((with_cast ir l xr.ret_type.data_type b blk').set_lhs s ir.stmts.length) := by
  have h1 : cast_before_if (cfg.promoted_type xl.ret_type.data_type xr.ret_type.data_type
      ≠ xl.ret_type.data_type) s l
      (cfg.promoted_type xl.ret_type.data_type xr.ret_type.data_type) StmtKind.set_lhs ir =
      .ok ((with_cast ir l xr.ret_type.data_type b blk').set_lhs s ir.stmts.length) := by
    unfold cast_before_if
    rw [hpr, if_pos (Ne.symm hne), cast_before_iff]
    exact ⟨x, b, blk, blk', Nat.le_of_lt (lt_of_get hl), hs, hp, hb, hblk, rfl⟩
  have hs1 : ((with_cast ir l xr.ret_type.data_type b blk').set_lhs s ir.stmts.length).stmts[s]?
      = some { x with kind := .BinaryOpStmt op ir.stmts.length r } := by
    unfold IR.set_lhs IR.assign
    rw [IR.modify_get, with_cast_get_old _ _ _ _ _ _ (lt_of_get hs)]
    simp [hs, hk, StmtKind.set_lhs]
  have hr1 : ∃ xr', ((with_cast ir l xr.ret_type.data_type b blk').set_lhs s
      ir.stmts.length).stmts[r]? = some xr' ∧ xr'.ret_type = xr.ret_type := by
    unfold IR.set_lhs IR.assign
    rw [IR.modify_get, with_cast_get_old _ _ _ _ _ _ (lt_of_get hr)]
    by_cases hrs : r = s
    · subst hrs
      simp only [if_true, hr, Option.map_some']
      exact ⟨_, rfl, rfl⟩
    · simp only [hrs, if_false]
      exact ⟨xr, hr, rfl⟩
  obtain ⟨xr', hxr', hxrt⟩ := hr1
  unfold promote
  simp only [bind, Except.bind, IR.binary_of hs hk, IR.ret_type_of hl, IR.ret_type_of hr,
    if_pos hne, h1, IR.binary_of hs1 rfl, IR.ret_type_of hxr', hxrt]
  simp [cast_before_if, hpr, pure, Except.pure]


theorem lower_floordiv_skip (cfg : Config) {s : StmtId} {ir : IR} {x : Stmt}
    {op : BinaryOpType} {l r : StmtId}
    (hs : ir.stmts[s]? = some x) (hk : x.kind = .BinaryOpStmt op l r) (hop : op ≠ .floordiv) :
    lower_floordiv cfg s ir = .ok ir := by
  simp [lower_floordiv, bind, Except.bind, IR.binary_of hs hk, hop, pure, Except.pure]

theorem lower_truediv_skip (cfg : Config) {s : StmtId} {ir : IR} {x : Stmt}
    {op : BinaryOpType} {l r : StmtId}
    (hs : ir.stmts[s]? = some x) (hk : x.kind = .BinaryOpStmt op l r) (hop : op ≠ .truediv) :
    lower_truediv cfg s ir = .ok ir := by
  simp [lower_truediv, bind, Except.bind, IR.binary_of hs hk, hop, pure, Except.pure]

/-- A binary operator other than the divisions to lower, with operands of different types
of which the rhs has the promoted type: the visit is the final check on the state with the
one cast of the lhs. -/
theorem visit_binary_lhs_cast (cfg : Config) (s : StmtId) (ir : IR) (x xl xr : Stmt)
    (op : BinaryOpType) (l r : StmtId) (b : BlockId) (blk blk' : List StmtId)
    (hs : ir.stmts[s]? = some x) (hk : x.kind = .BinaryOpStmt op l r)
    (hp : x.parent = some b) (hb : ir.blocks[b]? = some blk)
    (hblk : insert_before s ir.stmts.length blk = some blk')
    (hl : ir.stmts[l]? = some xl) (hr : ir.stmts[r]? = some xr)
    (hf : op ≠ .floordiv) (ht : op ≠ .truediv)
    (hne : xl.ret_type.data_type ≠ xr.ret_type.data_type)
    (hpr : cfg.promoted_type xl.ret_type.data_type xr.ret_type.data_type
      = xr.ret_type.data_type) :
    visit_BinaryOpStmt cfg s ir =
      check_and_assign s
        ((with_cast ir l xr.ret_type.data_type b blk').set_lhs s ir.stmts.length) := by
  unfold visit_BinaryOpStmt
  have hnu : ¬ (xl.ret_type.data_type = .unknown ∧ xr.ret_type.data_type = .unknown) := by
    rintro ⟨h1, h2⟩
    exact hne (h1.trans h2.symm)
  simp only [bind, Except.bind, IR.binary_of hs hk, IR.ret_type_of hl, IR.ret_type_of hr,
    if_neg hnu, lower_floordiv_skip cfg hs hk hf, lower_truediv_skip cfg hs hk ht,
    promote_lhs_only cfg s ir x xl xr op l r b blk blk' hs hk hp hb hblk hl hr hne hpr]


theorem IR.modify_eq (ir : IR) (s : StmtId) (f : Stmt → Stmt) (x : Stmt)
    (h : ir.stmts[s]? = some x) :
    ir.modify s f = { ir with stmts := ir.stmts.set s (f x) } := by
  simp [IR.modify, h]

theorem check_and_assign_eval {s : StmtId} {ir : IR} {x xl xr : Stmt} {op : BinaryOpType}
    {l r : StmtId} (hs : ir.stmts[s]? = some x) (hk : x.kind = .BinaryOpStmt op l r)
    (hl : ir.stmts[l]? = some xl) (hr : ir.stmts[r]? = some xr) :
    check_and_assign s ir =
      if xl.ret_type.data_type ≠ .unknown ∧ xl.ret_type = xr.ret_type then
        if binary_is_bitwise op = true ∧ is_integral xl.ret_type.data_type = false then
          error_bitwise ir
        else
          .ok { ir with stmts := (ir.stmts.set s
            { x with ret_type :=
                if is_comparison op = true then ⟨xl.ret_type.width, .i32⟩ else xl.ret_type }) }
      else error s ir := by
  unfold check_and_assign
  simp only [bind, Except.bind, IR.binary_of hs hk, IR.ret_type_of hl, IR.ret_type_of hr]
  generalize xr.ret_type = T
  by_cases h1 : xl.ret_type = T
  · subst h1
    by_cases h2 : xl.ret_type.data_type = .unknown
    · simp [h2]
    · by_cases h4 : binary_is_bitwise op = true ∧ is_integral xl.ret_type.data_type = false
      · simp [h2, h4.1, h4.2]
      · have h5 : (binary_is_bitwise op && !is_integral xl.ret_type.data_type) = false := by
          cases hb : binary_is_bitwise op <;> cases hi : is_integral xl.ret_type.data_type <;>
            simp [hb, hi] at h4 ⊢
        by_cases h6 : is_comparison op = true
        · simp [h2, h4, h5, h6, pure, Except.pure, IR.set_ret_type, IR.modify_eq _ _ _ _ hs]
        · simp [h2, h4, h5, h6, pure, Except.pure, IR.set_ret_type, IR.modify_eq _ _ _ _ hs]
  · simp [h1]


/-! ## Forward reasoning: promotion steps -/


theorem Keeps_refl (s : StmtId) (ir : IR) : Keeps s ir ir :=
  ⟨fun _ y h => ⟨y, h, rfl, rfl, fun _ => rfl⟩, fun _ blk h => ⟨blk, h, fun _ h => h⟩⟩

theorem Keeps_trans {s : StmtId} {a b c : IR} (h1 : Keeps s a b) (h2 : Keeps s b c) :
    Keeps s a c := by
  constructor
  · intro t y hy
    obtain ⟨y1, hy1, e1, p1, q1⟩ := h1.1 t y hy
    obtain ⟨y2, hy2, e2, p2, q2⟩ := h2.1 t y1 hy1
    exact ⟨y2, hy2, e2.trans e1, p2.trans p1, fun h => (q2 h).trans (q1 h)⟩
  · intro bl blk hb
    obtain ⟨blk1, hb1, m1⟩ := h1.2 bl blk hb
    obtain ⟨blk2, hb2, m2⟩ := h2.2 bl blk1 hb1
    exact ⟨blk2, hb2, fun t ht => m2 t (m1 t ht)⟩

theorem Keeps_modify (ir : IR) (s : StmtId) (f : Stmt → Stmt)
    (hf : ∀ x, (f x).ret_type = x.ret_type ∧ (f x).parent = x.parent) :
    Keeps s ir (ir.modify s f) := by
  constructor
  · intro t y hy
    rw [IR.modify_get]
    by_cases h : t = s
    · simp only [h, if_true]
      rw [h] at hy
      rw [hy]
      exact ⟨f y, rfl, (hf y).1, (hf y).2, fun h => absurd rfl h⟩
    · simp only [h, if_false]
      exact ⟨y, hy, rfl, rfl, fun _ => rfl⟩
  · intro b blk hb
    exact ⟨blk, by rw [IR.modify_blocks]; exact hb, fun _ h => h⟩

theorem Keeps_assign (ir : IR) (s : StmtId) (g : StmtKind → StmtKind) :
    Keeps s ir (ir.assign s g) :=
  Keeps_modify ir s _ (fun _ => ⟨rfl, rfl⟩)

theorem Keeps_with_cast (s : StmtId) (ir : IR) (i : StmtId) (dt : DataType) (b : BlockId)
    (l l' : List StmtId) (hb : ir.blocks[b]? = some l) (hs : ∀ t ∈ l, t ∈ l') :
    Keeps s ir (with_cast ir i dt b l') := by
  constructor
  · intro t y hy
    rw [with_cast_get_old ir i dt b l' t (lt_of_get hy)]
    exact ⟨y, hy, rfl, rfl, fun _ => rfl⟩
  · intro b' l0 h0
    simp only [with_cast]
    by_cases hbb : b = b'
    · subst hbb
      rw [hb] at h0
      cases h0
      refine ⟨l', ?_, hs⟩
      rw [List.getElem?_set_self]
      exact lt_of_get hb
    · refine ⟨l0, ?_, fun _ h => h⟩
      rw [List.getElem?_set_ne hbb]
      exact h0

theorem Anchored_keeps {ir ir' : IR} {s t : StmtId} {b : BlockId} (h : Keeps t ir ir')
    (ha : Anchored ir s b) : Anchored ir' s b := by
  obtain ⟨x, blk, hx, hp, hb, hm⟩ := ha
  obtain ⟨x', hx', _, hp', _⟩ := h.1 s x hx
  obtain ⟨blk', hb', hm'⟩ := h.2 b blk hb
  exact ⟨x', blk', hx', hp'.trans hp, hb', hm' s hm⟩

/-- An anchored statement can always get a cast of a valid source before it. -/
theorem cast_before_ok (field : StmtId → StmtKind → StmtKind) {ir : IR} {s input : StmtId}
    {b : BlockId} (dt : DataType) {xi : Stmt}
    (ha : Anchored ir s b) (hi : ir.stmts[input]? = some xi) :
    ∃ blk', cast_before s input dt field ir =
        .ok ((with_cast ir input dt b blk').assign s (field ir.stmts.length)) ∧
      Keeps s ir (with_cast ir input dt b blk') ∧ Ext ir (with_cast ir input dt b blk') ∧
      (with_cast ir input dt b blk').stmts[ir.stmts.length]? =
        some (by_value_cast input dt xi.ret_type.width b) := by
  obtain ⟨x, blk, hx, hp, hb, hm⟩ := ha
  obtain ⟨pre, post, _, _, hins, _⟩ := insert_before_spec s ir.stmts.length blk hm
  obtain ⟨h1, h2⟩ := insert_before_sublist _ _ _ _ hins
  refine ⟨_, ?_, Keeps_with_cast s ir input dt b blk _ hb (fun t ht => h1.subset ht),
    Ext_with_cast ir input dt b blk _ hb h1 h2, ?_⟩
  · rw [cast_before_iff]
    exact ⟨x, b, blk, _, Nat.le_of_lt (lt_of_get hi), hx, hp, hb, hins, rfl⟩
  · rw [with_cast_get_new]
    simp [cast_width, hi]


theorem IR.assign_get (ir : IR) (s t : StmtId) (g : StmtKind → StmtKind) :
    (ir.assign s g).stmts[t]? =
      if t = s then (ir.stmts[t]?).map (fun x => { x with kind := g x.kind })
      else ir.stmts[t]? := by
  unfold IR.assign
  exact IR.modify_get ir s t _

/-- One conditional promotion of an operand of an anchored statement `s`: the step returns;
result types, owners and block members are kept; the operand field of `s` holds `o`, which
is the old operand when no cast was needed and the new by-value cast otherwise. -/
theorem cast_before_if_step (field : StmtId → StmtKind → StmtKind)
    (hf : ∀ v k, (field v k).skeleton = k.skeleton)
    {ir : IR} {s input : StmtId} {b : BlockId} {x xi : Stmt} (dt : DataType)
    (c : Prop) [Decidable c]
    (ha : Anchored ir s b) (hx : ir.stmts[s]? = some x) (hi : ir.stmts[input]? = some xi)
    (hg : field input x.kind = x.kind) :
    ∃ ir1 o y, cast_before_if c s input dt field ir = .ok ir1 ∧ Keeps s ir ir1 ∧
      Ext ir ir1 ∧
      ir1.stmts[s]? = some { x with kind := field o x.kind } ∧
      ir1.stmts[o]? = some y ∧
      ((¬ c ∧ o = input ∧ ir1 = ir ∧ y = xi) ∨
       (c ∧ o = ir.stmts.length ∧ y = by_value_cast input dt xi.ret_type.width b)) := by
  unfold cast_before_if
  by_cases hc : c
  · rw [if_pos hc]
    obtain ⟨blk', hok, hkeep, hext, hnew⟩ := cast_before_ok field dt ha hi
    refine ⟨_, ir.stmts.length, _, hok, Keeps_trans hkeep (Keeps_assign _ _ _),
      hext.trans (Ext_assign _ _ _ (fun _ _ => hf _ _)), ?_, ?_, Or.inr ⟨hc, rfl, rfl⟩⟩
    · rw [IR.assign_get, with_cast_get_old _ _ _ _ _ _ (lt_of_get hx)]
      simp [hx]
    · rw [IR.assign_get, if_neg (Nat.ne_of_gt (lt_of_get hx))]
      exact hnew
  · rw [if_neg hc]
    refine ⟨ir, input, xi, rfl, Keeps_refl _ _, Ext.refl _, ?_, hi, Or.inl ⟨hc, rfl, rfl, rfl⟩⟩
    rw [hg]
    exact hx


theorem IR.ternary_of {ir : IR} {s : StmtId} {x : Stmt} {op : TernaryOpType}
    {a b c : StmtId} (hs : ir.stmts[s]? = some x) (hk : x.kind = .TernaryOpStmt op a b c) :
    ir.ternary s = .ok (op, a, b, c) := by
  simp [IR.ternary, hs, hk]


theorem coerce_lhs_skip {pred : DataType → Bool} (dt : DataType) {s : StmtId} {ir : IR}
    {x xl : Stmt} {op : BinaryOpType} {l r : StmtId}
    (hs : ir.stmts[s]? = some x) (hk : x.kind = .BinaryOpStmt op l r)
    (hl : ir.stmts[l]? = some xl) (hp : pred xl.ret_type.data_type = true) :
    coerce_lhs pred dt s ir = .ok ir := by
  simp [coerce_lhs, bind, Except.bind, IR.binary_of hs hk, IR.ret_type_of hl, hp, pure,
    Except.pure]

theorem coerce_rhs_skip {pred : DataType → Bool} (dt : DataType) {s : StmtId} {ir : IR}
    {x xr : Stmt} {op : BinaryOpType} {l r : StmtId}
    (hs : ir.stmts[s]? = some x) (hk : x.kind = .BinaryOpStmt op l r)
    (hr : ir.stmts[r]? = some xr) (hp : pred xr.ret_type.data_type = true) :
    coerce_rhs pred dt s ir = .ok ir := by
  simp [coerce_rhs, bind, Except.bind, IR.binary_of hs hk, IR.ret_type_of hr, hp, pure,
    Except.pure]

theorem promote_skip (cfg : Config) {s : StmtId} {ir : IR}
    {x xl xr : Stmt} {op : BinaryOpType} {l r : StmtId}
    (hs : ir.stmts[s]? = some x) (hk : x.kind = .BinaryOpStmt op l r)
    (hl : ir.stmts[l]? = some xl) (hr : ir.stmts[r]? = some xr)
    (he : xl.ret_type.data_type = xr.ret_type.data_type) :
    promote cfg s ir = .ok ir := by
  simp [promote, bind, Except.bind, IR.binary_of hs hk, IR.ret_type_of hl, IR.ret_type_of hr,
    he, pure, Except.pure]

theorem is_integral_known {T : DataType} (h : is_integral T = true) : T ≠ .unknown := by
  intro hT
  rw [hT] at h
  cases h


/-! ## Global address computations -/

theorem check_snodes_eval (ir : IR) (n : Nat) (l : List (Option SNode))
    (hv : ∀ p ∈ l, ∃ sn par, p = some sn ∧ sn.parent = some par) :
    (arity_matches l n → check_snodes ir n l = .ok ()) ∧
    (¬ arity_matches l n → check_snodes ir n l = .error (.fatal ir)) := by
  unfold arity_matches
  induction l with
  | nil =>
    constructor
    · intro _; rfl
    · intro h; exact absurd (fun p hp => by cases hp) h
  | cons p rest ih =>
    obtain ⟨sn, par, rfl, hpar⟩ := hv p (List.mem_cons_self _ _)
    have ih' := ih (fun q hq => hv q (List.mem_cons_of_mem _ hq))
    by_cases hhead : par.num_active_indices = 0 ∨ par.num_active_indices = (n : Int)
    · have hc : ¬ (par.num_active_indices ≠ 0 ∧ par.num_active_indices ≠ (n : Int)) := by
        rintro ⟨h1, h2⟩
        rcases hhead with h | h
        · exact h1 h
        · exact h2 h
      have hstep : check_snodes ir n (some sn :: rest) = check_snodes ir n rest := by
        simp only [check_snodes, hpar]
        rw [if_neg hc]
      rw [hstep]
      constructor
      · intro h
        exact ih'.1 (fun q hq => h q (List.mem_cons_of_mem _ hq))
      · intro h
        apply ih'.2
        intro h'
        apply h
        intro q hq sn' par' hq1 hq2
        rcases List.mem_cons.1 hq with rfl | hq
        · cases hq1
          rw [hpar] at hq2
          cases hq2
          exact hhead
        · exact h' q hq sn' par' hq1 hq2
    · have hc : par.num_active_indices ≠ 0 ∧ par.num_active_indices ≠ (n : Int) :=
        ⟨fun h => hhead (Or.inl h), fun h => hhead (Or.inr h)⟩
      constructor
      · intro h
        exact absurd (h _ (List.mem_cons_self _ _) sn par rfl hpar) hhead
      · intro _
        simp only [check_snodes, hpar]
        rw [if_pos hc]
        rfl

theorem check_indices_eval (ir : IR) (n : Nat) (l : List StmtId)
    (hv : ∀ i ∈ l, ∃ xi, ir.stmts[i]? = some xi) :
    (indices_integral ir l n → check_indices ir n l = .ok ()) ∧
    (¬ indices_integral ir l n → check_indices ir n l = .error (.fatal ir)) := by
  unfold indices_integral
  induction l with
  | nil =>
    constructor
    · intro _; rfl
    · intro h; exact absurd (fun p hp => by cases hp) h
  | cons i rest ih =>
    obtain ⟨xi, hxi⟩ := hv i (List.mem_cons_self _ _)
    have ih' := ih (fun q hq => hv q (List.mem_cons_of_mem _ hq))
    by_cases hhead : is_integral xi.ret_type.data_type = true ∧ xi.ret_type.width = (n : Int)
    · have hstep : check_indices ir n (i :: rest) = check_indices ir n rest := by
        simp [check_indices, bind, Except.bind, IR.ret_type_of hxi, hhead.1, hhead.2]
      rw [hstep]
      constructor
      · intro h
        exact ih'.1 (fun q hq => h q (List.mem_cons_of_mem _ hq))
      · intro h
        apply ih'.2
        intro h'
        apply h
        intro q hq xq hxq
        rcases List.mem_cons.1 hq with rfl | hq
        · rw [hxi] at hxq
          cases hxq
          exact hhead
        · exact h' q hq xq hxq
    · constructor
      · intro h
        exact absurd (h _ (List.mem_cons_self _ _) xi hxi) hhead
      · intro _
        by_cases h1 : is_integral xi.ret_type.data_type = true
        · have h2 : xi.ret_type.width ≠ (n : Int) := fun h => hhead ⟨h1, h⟩
          simp [check_indices, bind, Except.bind, IR.ret_type_of hxi, h1, h2, fatal]
        · simp [check_indices, bind, Except.bind, IR.ret_type_of hxi, h1, fatal]

theorem IR.deref_of {ir : IR} {s : StmtId} {x : Stmt} (h : ir.stmts[s]? = some x) :
    ir.deref s = .ok x := by
  simp [IR.deref, h]

theorem IR.set_data_type_get (ir : IR) (s t : StmtId) (dt : DataType) :
    (ir.set_data_type s dt).stmts[t]? =
      if t = s then (ir.stmts[t]?).map
        (fun x => { x with ret_type := { x.ret_type with data_type := dt } })
      else ir.stmts[t]? := by
  unfold IR.set_data_type
  exact IR.modify_get ir s t _


/-! ## The frame of every rule -/

theorem IR.deref_ok {ir : IR} {s : StmtId} {x : Stmt} (h : ir.deref s = .ok x) :
    ir.stmts[s]? = some x := by
  unfold IR.deref at h
  split at h
  · rename_i y hy
    cases h
    exact hy
  · cases h

theorem Ext_set_data_type (ir : IR) (s : StmtId) (dt : DataType)
    (h : ∀ x, ir.stmts[s]? = some x → x.kind.typed = true → dt ≠ .unknown) :
    Ext ir (ir.set_data_type s dt) := by
  apply Ext_modify
  intro x hx
  exact ⟨rfl, fun ht _ => h x hx ht⟩

/-- Assigning the result type of a statement whose variant is not `typed`. -/
theorem Ext_set_ret_type_untyped {ir : IR} {s : StmtId} {x : Stmt} (T : VectorType)
    (hx : ir.stmts[s]? = some x) (hk : x.kind.typed = false) :
    Ext ir (ir.set_ret_type s T) := by
  apply Ext_set_ret_type
  intro y hy ht
  rw [hx] at hy
  cases hy
  rw [hk] at ht
  cases ht

theorem Ext_set_data_type_untyped {ir : IR} {s : StmtId} {x : Stmt} (dt : DataType)
    (hx : ir.stmts[s]? = some x) (hk : x.kind.typed = false) :
    Ext ir (ir.set_data_type s dt) := by
  apply Ext_set_data_type
  intro y hy ht
  rw [hx] at hy
  cases hy
  rw [hk] at ht
  cases ht

theorem visit_UnaryOpStmt_ext {s : StmtId} {ir ir' : IR}
    (h : visit_UnaryOpStmt s ir = .ok ir') : Ext ir ir' := by
  unfold visit_UnaryOpStmt at h
  simp only [bind, Except.bind] at h
  split at h
  · cases h
  · rename_i x hx
    have hx := IR.deref_ok hx
    split at h
    · rename_i op operand cast_type cbv hk
      have hut : x.kind.typed = false := by rw [hk]; rfl
      split at h
      · cases h
      · rename_i t ht
        have e1 : Ext ir (ir.set_ret_type s t) := Ext_set_ret_type_untyped t hx hut
        have e2 : Ext ir (if op = .cast then (ir.set_ret_type s t).set_data_type s cast_type
            else ir.set_ret_type s t) := by
          split
          · refine e1.trans (Ext_set_data_type _ _ _ ?_)
            intro y hy hty
            obtain ⟨x', hx', hsk, -⟩ := e1.old s x hx
            rw [hx'] at hy
            cases hy
            have : x.kind.typed = true := by
              revert hsk hty
              cases x.kind <;> cases y.kind <;> simp [StmtKind.skeleton, StmtKind.typed]
            rw [hut] at this
            cases this
          · exact e1
        split at h
        · cases h
        · split at h
          · simp [fatal] at h
          · split at h
            · cases h
            · split at h
              · simp [fatal] at h
              · simp only [pure, Except.pure, Except.ok.injEq] at h
                rw [← h]
                exact e2
    · cases h

theorem typed_of_skeleton {k k' : StmtKind} (h : k'.skeleton = k.skeleton) :
    k'.typed = k.typed := by
  revert h
  cases k <;> cases k' <;> simp [StmtKind.skeleton, StmtKind.typed]

theorem Ext.untyped {ir ir' : IR} (e : Ext ir ir') {s : StmtId} {x y : Stmt}
    (hx : ir.stmts[s]? = some x) (hk : x.kind.typed = false) (hy : ir'.stmts[s]? = some y) :
    y.kind.typed = false := by
  obtain ⟨x', hx', hsk, -⟩ := e.old s x hx
  rw [hx'] at hy
  cases hy
  rw [typed_of_skeleton hsk]
  exact hk

theorem visit_TernaryOpStmt_ext {cfg : Config} {s : StmtId} {ir ir' : IR}
    (h : visit_TernaryOpStmt cfg s ir = .ok ir') : Ext ir ir' := by
  unfold visit_TernaryOpStmt at h
  simp only [bind, Except.bind] at h
  split at h
  · cases h
  · rename_i v hv
    have hx : ∃ x, ir.stmts[s]? = some x ∧ x.kind.typed = false := by
      unfold IR.ternary at hv
      split at hv
      · rename_i x hx
        split at hv
        · rename_i hk
          exact ⟨x, hx, by rw [hk]; rfl⟩
        · cases hv
      · cases hv
    obtain ⟨x, hx, hut⟩ := hx
    split at h
    · split at h
      · cases h
      · split at h
        · cases h
        · split at h
          · cases h
          · split at h
            · simp [fatal] at h
            · split at h
              · simp [fatal] at h
              · split at h
                · simp [fatal] at h
                · split at h
                  · cases h
                  · rename_i ir1 h1
                    split at h
                    · cases h
                    · split at h
                      · cases h
                      · split at h
                        · cases h
                        · rename_i ir2 h2
                          split at h
                          · cases h
                          · split at h
                            · cases h
                            · simp only [pure, Except.pure, Except.ok.injEq] at h
                              have e12 := (cast_before_if_ext skeleton_set_op2 h1).trans
                                (cast_before_if_ext skeleton_set_op3 h2)
                              rw [← h]
                              obtain ⟨x2, hx2, -, -⟩ := e12.old s x hx
                              exact e12.trans (Ext_set_ret_type_untyped _ hx2
                                (e12.untyped hx hut hx2))
    · simp [fatal] at h

theorem visit_AtomicOpStmt_ext {s : StmtId} {ir ir' : IR}
    (h : visit_AtomicOpStmt s ir = .ok ir') : Ext ir ir' := by
  unfold visit_AtomicOpStmt at h
  simp only [bind, Except.bind] at h
  split at h
  · cases h
  · split at h
    · split at h
      · simp [fatal] at h
      · split at h
        · cases h
        · split at h
          · cases h
          · split at h
            · exact (Ext_warn _ _).trans (cast_before_ext skeleton_set_val h)
            · simp only [pure, Except.pure, Except.ok.injEq] at h
              rw [← h]
              exact Ext.refl _
    · cases h

theorem visit_LocalLoadStmt_ext {s : StmtId} {ir ir' : IR}
    (h : visit_LocalLoadStmt s ir = .ok ir') : Ext ir ir' := by
  unfold visit_LocalLoadStmt at h
  simp only [bind, Except.bind] at h
  split at h
  · cases h
  · rename_i x hx
    have hx := IR.deref_ok hx
    split at h
    · rename_i ptr hk
      split at h
      · simp [fatal] at h
      · split at h
        · cases h
        · split at h
          · cases h
          · simp only [pure, Except.pure, Except.ok.injEq] at h
            rw [← h]
            exact Ext_set_ret_type_untyped _ hx (by rw [hk]; rfl)
    · cases h

theorem visit_GlobalLoadStmt_ext {s : StmtId} {ir ir' : IR}
    (h : visit_GlobalLoadStmt s ir = .ok ir') : Ext ir ir' := by
  unfold visit_GlobalLoadStmt at h
  simp only [bind, Except.bind] at h
  split at h
  · cases h
  · rename_i x hx
    have hx := IR.deref_ok hx
    split at h
    · rename_i ptr hk
      split at h
      · cases h
      · simp only [pure, Except.pure, Except.ok.injEq] at h
        rw [← h]
        exact Ext_set_ret_type_untyped _ hx (by rw [hk]; rfl)
    · cases h

theorem visit_SNodeOpStmt_ext {s : StmtId} {ir ir' : IR}
    (h : visit_SNodeOpStmt s ir = .ok ir') : Ext ir ir' := by
  unfold visit_SNodeOpStmt at h
  simp only [bind, Except.bind] at h
  split at h
  · cases h
  · split at h
    · simp only [pure, Except.pure, Except.ok.injEq] at h
      rw [← h]
      exact Ext_set_ret_type _ _ _ (fun _ _ _ => by simp)
    · cases h

theorem visit_LoopIndexStmt_ext {s : StmtId} {ir ir' : IR}
    (h : visit_LoopIndexStmt s ir = .ok ir') : Ext ir ir' := by
  unfold visit_LoopIndexStmt at h
  simp only [bind, Except.bind] at h
  split at h
  · cases h
  · split at h
    · simp only [pure, Except.pure, Except.ok.injEq] at h
      rw [← h]
      exact Ext_set_ret_type _ _ _ (fun _ _ _ => by simp)
    · cases h

theorem mark_as_if_const_ext {s : StmtId} {t : VectorType} {ir ir' : IR}
    (h : mark_as_if_const s t ir = .ok ir') : Ext ir ir' := by
  unfold mark_as_if_const at h
  simp only [bind, Except.bind] at h
  split at h
  · cases h
  · rename_i x hx
    have hx := IR.deref_ok hx
    split at h
    · rename_i hk
      simp only [pure, Except.pure, Except.ok.injEq] at h
      rw [← h]
      exact Ext_set_ret_type_untyped _ hx (by rw [hk]; rfl)
    · simp only [pure, Except.pure, Except.ok.injEq] at h
      rw [← h]
      exact Ext.refl _

theorem Ext_set_ret_type_unknown {ir : IR} {s : StmtId} {x : Stmt} (T : VectorType)
    (hx : ir.stmts[s]? = some x) (hu : x.ret_type.data_type = .unknown) :
    Ext ir (ir.set_ret_type s T) := by
  apply Ext_modify
  intro y hy
  rw [hx] at hy
  cases hy
  exact ⟨rfl, fun _ hn => absurd hu hn⟩

theorem Ext.then_set_ret_type {ir ir3 : IR} (e : Ext ir ir3) {s : StmtId} {x : Stmt}
    (hx : ir.stmts[s]? = some x) (hk : x.kind.typed = false) (T : VectorType) :
    Ext ir (ir3.set_ret_type s T) := by
  obtain ⟨x3, hx3, -, -⟩ := e.old s x hx
  exact e.trans (Ext_set_ret_type_untyped _ hx3 (e.untyped hx hk hx3))

theorem visit_LocalStoreStmt_ext {cfg : Config} {s : StmtId} {ir ir' : IR}
    (h : visit_LocalStoreStmt cfg s ir = .ok ir') : Ext ir ir' := by
  unfold visit_LocalStoreStmt at h
  simp only [bind, Except.bind] at h
  split at h
  · cases h
  · rename_i x hx
    have hx := IR.deref_ok hx
    split at h
    · rename_i ptr data hk
      have hut : x.kind.typed = false := by rw [hk]; rfl
      split at h
      · cases h
      · rename_i pt hpt
        obtain ⟨xp, hxp, rfl⟩ := IR.ret_type_ok hpt
        split at h
        · cases h
        · rename_i dt hdt
          have e1 : Ext ir (if xp.ret_type.data_type = .unknown then ir.set_ret_type ptr dt
              else ir) := by
            split
            · rename_i hu
              exact Ext_set_ret_type_unknown dt hxp hu
            · exact Ext.refl _
          split at h
          · cases h
          · split at h
            · cases h
            · split at h
              · cases h
              · rename_i ir2 h2
                have e2 := e1.trans (cast_before_if_ext skeleton_set_data h2)
                split at h
                · cases h
                · rename_i pt2 hpt2
                  split at h
                  · cases h
                  · simp only [pure, Except.pure, Except.ok.injEq] at h
                    rw [← h]
                    split
                    · exact (e2.trans (Ext_warn _ _)).then_set_ret_type hx hut _
                    · exact e2.then_set_ret_type hx hut _
    · cases h

theorem visit_GlobalStoreStmt_ext {cfg : Config} {s : StmtId} {ir ir' : IR}
    (h : visit_GlobalStoreStmt cfg s ir = .ok ir') : Ext ir ir' := by
  unfold visit_GlobalStoreStmt at h
  simp only [bind, Except.bind] at h
  split at h
  · cases h
  · rename_i x hx
    have hx := IR.deref_ok hx
    split at h
    · rename_i ptr data hk
      have hut : x.kind.typed = false := by rw [hk]; rfl
      split at h
      · cases h
      · split at h
        · cases h
        · split at h
          · cases h
          · rename_i ir2 h2
            have e2 := cast_before_if_ext skeleton_set_data h2
            split at h
            · cases h
            · rename_i pt2 hpt2
              split at h
              · cases h
              · simp only [pure, Except.pure, Except.ok.injEq] at h
                rw [← h]
                split
                · exact (e2.trans (Ext_warn _ _)).then_set_ret_type hx hut _
                · exact e2.then_set_ret_type hx hut _
    · cases h

theorem visit_GlobalPtrStmt_tail {ir ir' : IR} (ir1 : IR) {snodes : List (Option SNode)}
    {indices : List StmtId}
    (h : (do
      check_snodes ir1 indices.length snodes
      check_indices ir1 snodes.length indices
      pure ir1 : Except Abort IR) = .ok ir') (e : Ext ir ir1) : Ext ir ir' := by
  simp only [bind, Except.bind] at h
  split at h
  · cases h
  · split at h
    · cases h
    · simp only [pure, Except.pure, Except.ok.injEq] at h
      rw [← h]
      exact e

theorem visit_GlobalPtrStmt_ext {s : StmtId} {ir ir' : IR}
    (h : visit_GlobalPtrStmt s ir = .ok ir') : Ext ir ir' := by
  unfold visit_GlobalPtrStmt at h
  simp only [bind, Except.bind] at h
  split at h
  · cases h
  · rename_i x hx
    have hx := IR.deref_ok hx
    split at h
    · rename_i snodes indices hk
      have hut : x.kind.typed = false := by rw [hk]; rfl
      split at h
      · cases h
      · rename_i p hp
        cases p with
        | none =>
          exact visit_GlobalPtrStmt_tail (ir.warn .snode_nullptr) h (Ext_warn _ _)
        | some sn =>
          exact visit_GlobalPtrStmt_tail (ir.set_data_type s sn.dt) h
            (Ext_set_data_type_untyped _ hx hut)
    · cases h

theorem visit_ElementShuffleStmt_ext {s : StmtId} {ir ir' : IR}
    (h : visit_ElementShuffleStmt s ir = .ok ir') : Ext ir ir' := by
  unfold visit_ElementShuffleStmt at h
  simp only [bind, Except.bind] at h
  split at h
  · cases h
  · rename_i x hx
    have hx := IR.deref_ok hx
    split at h
    · rename_i elements hk
      split at h
      · simp [fatal] at h
      · split at h
        · cases h
        · simp only [pure, Except.pure, Except.ok.injEq] at h
          rw [← h]
          exact Ext_set_data_type_untyped _ hx (by rw [hk]; rfl)
    · cases h

theorem visit_RangeAssumptionStmt_ext {s : StmtId} {ir ir' : IR}
    (h : visit_RangeAssumptionStmt s ir = .ok ir') : Ext ir ir' := by
  unfold visit_RangeAssumptionStmt at h
  simp only [bind, Except.bind] at h
  split at h
  · cases h
  · rename_i x hx
    have hx := IR.deref_ok hx
    split at h
    · rename_i input base hk
      split at h
      · cases h
      · split at h
        · cases h
        · split at h
          · simp [fatal] at h
          · simp only [pure, Except.pure, Except.ok.injEq] at h
            rw [← h]
            exact Ext_set_ret_type_untyped _ hx (by rw [hk]; rfl)
    · cases h

theorem visit_ArgLoadStmt_ext {cfg : Config} {s : StmtId} {ir ir' : IR}
    (h : visit_ArgLoadStmt cfg s ir = .ok ir') : Ext ir ir' := by
  unfold visit_ArgLoadStmt at h
  simp only [bind, Except.bind] at h
  split at h
  · cases h
  · rename_i x hx
    have hx := IR.deref_ok hx
    split at h
    · rename_i arg_id hk
      split at h
      · simp [fatal] at h
      · split at h
        · cases h
        · split at h
          · simp [fatal] at h
          · simp only [pure, Except.pure, Except.ok.injEq] at h
            rw [← h]
            exact Ext_set_ret_type_untyped _ hx (by rw [hk]; rfl)
    · cases h

theorem visit_ArgStoreStmt_ext {cfg : Config} {s : StmtId} {ir ir' : IR}
    (h : visit_ArgStoreStmt cfg s ir = .ok ir') : Ext ir ir' := by
  unfold visit_ArgStoreStmt at h
  simp only [bind, Except.bind] at h
  split at h
  · cases h
  · rename_i x hx
    have hx := IR.deref_ok hx
    split at h
    · rename_i arg_id val hk
      split at h
      · simp [fatal] at h
      · split at h
        · cases h
        · split at h
          · simp [fatal] at h
          · split at h
            · cases h
            · split at h
              · simp [fatal] at h
              · simp only [pure, Except.pure, Except.ok.injEq] at h
                rw [← h]
                exact Ext_set_ret_type_untyped _ hx (by rw [hk]; rfl)
    · cases h

theorem visit_ExternalPtrStmt_ext {s : StmtId} {ir ir' : IR}
    (h : visit_ExternalPtrStmt s ir = .ok ir') : Ext ir ir' := by
  unfold visit_ExternalPtrStmt at h
  simp only [bind, Except.bind] at h
  split at h
  · cases h
  · rename_i x hx
    have hx := IR.deref_ok hx
    split at h
    · rename_i base_ptrs hk
      split at h
      · cases h
      · split at h
        · cases h
        · simp only [pure, Except.pure, Except.ok.injEq] at h
          rw [← h]
          exact Ext_set_ret_type_untyped _ hx (by rw [hk]; rfl)
    · cases h

theorem visit_GetChStmt_ext {s : StmtId} {ir ir' : IR}
    (h : visit_GetChStmt s ir = .ok ir') : Ext ir ir' := by
  unfold visit_GetChStmt at h
  simp only [bind, Except.bind] at h
  split at h
  · cases h
  · rename_i x hx
    have hx := IR.deref_ok hx
    split at h
    · rename_i output_snode hk
      split at h
      · cases h
      · simp only [pure, Except.pure, Except.ok.injEq] at h
        rw [← h]
        exact Ext_set_ret_type_untyped _ hx (by rw [hk]; rfl)
    · cases h

/-! ## Traversal -/

theorem bodies_of_skeleton {k k' : StmtKind} (h : k'.skeleton = k.skeleton) :
    k'.bodies = k.bodies := by
  revert h
  cases k <;> cases k' <;> simp [StmtKind.skeleton, StmtKind.bodies] <;>
    (intros; subst_vars; simp)

theorem Good_ext {ir ir' : IR} (e : Ext ir ir') {t : StmtId} (h : Good ir t) : Good ir' t := by
  intro x' hx' ht
  cases hx : ir.stmts[t]? with
  | none =>
    obtain ⟨i, dt, hk⟩ := e.fresh t x' hx hx'
    rw [hk] at ht
    cases ht
  | some x =>
    obtain ⟨y, hy, hsk, hkeep⟩ := e.old t x hx
    rw [hx'] at hy
    cases hy
    have htx : x.kind.typed = true := by rw [← typed_of_skeleton hsk]; exact ht
    exact hkeep htx (h x hx htx)

theorem Reachable_mono {ir ir' : IR} (e : Ext ir ir') {b : BlockId} {t : StmtId}
    (h : Reachable ir b t) : Reachable ir' b t := by
  induction h with
  | top l s hl hs =>
    obtain ⟨l', hl', hsub, -⟩ := e.blocks b l hl
    exact Reachable.top l' s hl' (hsub.subset hs)
  | nested p x b1 l s _ hx hb hl hs ih =>
    obtain ⟨x', hx', hsk, -⟩ := e.old p x hx
    obtain ⟨l', hl', hsub, -⟩ := e.blocks b1 l hl
    exact Reachable.nested p x' b1 l' s ih hx' (by rw [bodies_of_skeleton hsk]; exact hb) hl'
      (hsub.subset hs)

theorem Reachable_back {ir ir' : IR} (e : Ext ir ir') {b : BlockId} {t : StmtId}
    (h : Reachable ir' b t) : Reachable ir b t ∨ ir.stmts[t]? = none := by
  induction h with
  | top l' s hl' hs =>
    cases hl : ir.blocks[b]? with
    | none =>
      rw [e.blocks_none b hl] at hl'
      cases hl'
    | some l =>
      obtain ⟨l2, hl2, -, hmem⟩ := e.blocks b l hl
      rw [hl'] at hl2
      cases hl2
      rcases hmem s hs with h | h
      · exact Or.inl (Reachable.top l s hl h)
      · exact Or.inr h
  | nested p x' b1 l' s _ hx' hb hl' hs ih =>
    cases hx : ir.stmts[p]? with
    | none =>
      obtain ⟨i, dt, hk⟩ := e.fresh p x' hx hx'
      rw [hk] at hb
      simp [StmtKind.bodies] at hb
    | some x =>
      have hp : Reachable ir b p := by
        rcases ih with h | h
        · exact h
        · rw [hx] at h
          cases h
      obtain ⟨x2, hx2, hsk, -⟩ := e.old p x hx
      rw [hx'] at hx2
      cases hx2
      cases hl : ir.blocks[b1]? with
      | none =>
        rw [e.blocks_none b1 hl] at hl'
        cases hl'
      | some l =>
        obtain ⟨l2, hl2, -, hmem⟩ := e.blocks b1 l hl
        rw [hl'] at hl2
        cases hl2
        rcases hmem s hs with h | h
        · exact Or.inl (Reachable.nested p x b1 l s hp hx
            (by rw [← bodies_of_skeleton hsk]; exact hb) hl h)
        · exact Or.inr h

theorem Reachable_under {ir : IR} {b : BlockId} {t : StmtId} (h : Reachable ir b t) :
    ∃ l s, ir.blocks[b]? = some l ∧ s ∈ l ∧ Under ir s t := by
  induction h with
  | top l s hl hs => exact ⟨l, s, hl, hs, Or.inl rfl⟩
  | nested p x b1 l1 s _ hx hb hl1 hs ih =>
    obtain ⟨l, s0, hl, hs0, hu⟩ := ih
    refine ⟨l, s0, hl, hs0, Or.inr ?_⟩
    rcases hu with rfl | ⟨x0, b0, hx0, hb0, hr⟩
    · exact ⟨x, b1, hx, hb, Reachable.top l1 s hl1 hs⟩
    · exact ⟨x0, b0, hx0, hb0, Reachable.nested p x b1 l1 s hr hx hb hl1 hs⟩

theorem Under_mono {ir ir' : IR} (e : Ext ir ir') {s t : StmtId} (h : Under ir s t) :
    Under ir' s t := by
  rcases h with rfl | ⟨x, b, hx, hb, hr⟩
  · exact Or.inl rfl
  · obtain ⟨x', hx', hsk, -⟩ := e.old s x hx
    exact Or.inr ⟨x', b, hx', by rw [bodies_of_skeleton hsk]; exact hb, Reachable_mono e hr⟩

theorem visit_stmts_ok {acc : StmtId → IR → Except Abort IR}
    (hacc : ∀ s ir ir', acc s ir = .ok ir' → Ext ir ir' ∧ ∀ t, Under ir s t → Good ir' t)
    (l : List StmtId) (ir ir' : IR) (h : visit_stmts acc l ir = .ok ir') :
    Ext ir ir' ∧ ∀ s ∈ l, ∀ t, Under ir s t → Good ir' t := by
  induction l generalizing ir with
  | nil =>
    simp only [visit_stmts, pure, Except.pure, Except.ok.injEq] at h
    subst h
    exact ⟨Ext.refl _, fun s hs => by cases hs⟩
  | cons s rest ih =>
    simp only [visit_stmts, bind, Except.bind] at h
    split at h
    · cases h
    · rename_i ir1 h1
      obtain ⟨e1, g1⟩ := hacc s ir ir1 h1
      obtain ⟨e2, g2⟩ := ih ir1 h
      refine ⟨e1.trans e2, ?_⟩
      intro s' hs' t ht
      rcases List.mem_cons.1 hs' with rfl | hs'
      · exact Good_ext e2 (g1 t ht)
      · exact g2 s' hs' t (Under_mono e1 ht)

theorem visit_Block_ok {acc : StmtId → IR → Except Abort IR}
    (hacc : ∀ s ir ir', acc s ir = .ok ir' → Ext ir ir' ∧ ∀ t, Under ir s t → Good ir' t)
    (b : BlockId) (ir ir' : IR) (h : visit_Block acc b ir = .ok ir') :
    Ext ir ir' ∧ ∀ t, Reachable ir b t → Good ir' t := by
  unfold visit_Block at h
  split at h
  · cases h
  · rename_i l hl
    obtain ⟨e, g⟩ := visit_stmts_ok hacc l ir ir' h
    refine ⟨e, ?_⟩
    intro t ht
    obtain ⟨l', s, hl', hs, hu⟩ := Reachable_under ht
    rw [hl] at hl'
    cases hl'
    exact g s hs t hu

theorem Good_untyped {ir ir' : IR} (e : Ext ir ir') {s : StmtId} {x : Stmt}
    (hx : ir.stmts[s]? = some x) (hk : x.kind.typed = false) : Good ir' s := by
  intro y hy ht
  rw [e.untyped hx hk hy] at ht
  cases ht

theorem leaf_ok {ir ir' : IR} {s : StmtId} {x : Stmt} (hx : ir.stmts[s]? = some x)
    (hb : x.kind.bodies = []) (e : Ext ir ir') (hg : Good ir' s) :
    Ext ir ir' ∧ ∀ t, Under ir s t → Good ir' t := by
  refine ⟨e, ?_⟩
  intro t ht
  rcases ht with rfl | ⟨x', b, hx', hb', -⟩
  · exact hg
  · rw [hx] at hx'
    cases hx'
    rw [hb] at hb'
    cases hb'

theorem visit_BinaryOpStmt_good {cfg : Config} {s : StmtId} {ir ir' : IR}
    (h : visit_BinaryOpStmt cfg s ir = .ok ir') : Good ir' s := by
  obtain ⟨ir3, -, h3⟩ := visit_BinaryOpStmt_ok h
  obtain ⟨x, op, l, r, xl, xr, hx, -, -, -, -, hn, -, rfl⟩ := check_and_assign_ok h3
  intro y hy _
  rw [IR.set_ret_type_get, if_pos rfl, hx] at hy
  cases hy
  show (if is_comparison op = true then _ else _ : VectorType).data_type ≠ _
  split
  · simp
  · exact hn

theorem visit_SNodeOpStmt_good {s : StmtId} {ir ir' : IR}
    (h : visit_SNodeOpStmt s ir = .ok ir') : Good ir' s := by
  unfold visit_SNodeOpStmt at h
  simp only [bind, Except.bind] at h
  split at h
  · cases h
  · rename_i x hx
    split at h
    · simp only [pure, Except.pure, Except.ok.injEq] at h
      rw [← h]
      intro y hy _
      rw [IR.set_ret_type_get, if_pos rfl, IR.deref_ok hx] at hy
      cases hy
      simp
    · cases h

theorem visit_LoopIndexStmt_good {s : StmtId} {ir ir' : IR}
    (h : visit_LoopIndexStmt s ir = .ok ir') : Good ir' s := by
  unfold visit_LoopIndexStmt at h
  simp only [bind, Except.bind] at h
  split at h
  · cases h
  · rename_i x hx
    split at h
    · simp only [pure, Except.pure, Except.ok.injEq] at h
      rw [← h]
      intro y hy _
      rw [IR.set_ret_type_get, if_pos rfl, IR.deref_ok hx] at hy
      cases hy
      simp
    · cases h

theorem visit_opt_Block_ok {acc : StmtId → IR → Except Abort IR}
    (hacc : ∀ s ir ir', acc s ir = .ok ir' → Ext ir ir' ∧ ∀ t, Under ir s t → Good ir' t)
    (ob : Option BlockId) (ir ir' : IR)
    (h : visit_opt_Block acc ob ir = .ok ir') :
    Ext ir ir' ∧ ∀ b ∈ ob.toList, ∀ t, Reachable ir b t → Good ir' t := by
  unfold visit_opt_Block at h
  cases ob with
  | none =>
    simp only [pure, Except.pure, Except.ok.injEq] at h
    subst h
    exact ⟨Ext.refl _, fun b hb => by simp at hb⟩
  | some b0 =>
    obtain ⟨e, g⟩ := visit_Block_ok hacc b0 ir ir' h
    refine ⟨e, ?_⟩
    intro b hb
    simp at hb
    subst hb
    exact g

theorem compound_ok {ir ir' : IR} {s : StmtId} {x : Stmt} (hx : ir.stmts[s]? = some x)
    (e : Ext ir ir') (hut : x.kind.typed = false)
    (hbody : ∀ b ∈ x.kind.bodies, ∀ t, Reachable ir b t → Good ir' t) :
    Ext ir ir' ∧ ∀ t, Under ir s t → Good ir' t := by
  refine ⟨e, ?_⟩
  intro t ht
  rcases ht with rfl | ⟨x', b, hx', hb', hr⟩
  · exact Good_untyped e hx hut
  · rw [hx] at hx'
    cases hx'
    exact hbody b hb' t hr

theorem lift_log {ir ir' : IR} {s : StmtId}
    (h : Ext (ir.log_accept s) ir' ∧ ∀ t, Under (ir.log_accept s) s t → Good ir' t) :
    Ext ir ir' ∧ ∀ t, Under ir s t → Good ir' t :=
  ⟨(Ext_log_accept ir s).trans h.1, fun t ht => h.2 t (Under_mono (Ext_log_accept ir s) ht)⟩

theorem untyped_leaf_ok {ir ir' : IR} {s : StmtId} {x : Stmt} (hx : ir.stmts[s]? = some x)
    (hb : x.kind.bodies = []) (hut : x.kind.typed = false) (e : Ext ir ir') :
    Ext ir ir' ∧ ∀ t, Under ir s t → Good ir' t :=
  leaf_ok hx hb e (Good_untyped e hx hut)

theorem accept_ok (cfg : Config) (fuel : Nat) :
    ∀ s ir ir', accept cfg fuel s ir = .ok ir' →
      Ext ir ir' ∧ ∀ t, Under ir s t → Good ir' t := by
  induction fuel with
  | zero =>
    intro s ir ir' h
    simp [accept] at h
  | succ fuel ih =>
    intro s ir ir' h
    simp only [accept, bind, Except.bind] at h
    split at h
    · cases h
    · rename_i x hx
      have hx := IR.deref_ok hx
      have hx0 : (ir.log_accept s).stmts[s]? = some x := hx
      apply lift_log
      cases hk : x.kind with
      | AllocaStmt =>
        simp only [hk, pure, Except.pure, Except.ok.injEq] at h
        subst h
        exact untyped_leaf_ok hx0 (by rw [hk]; rfl) (by rw [hk]; rfl) (Ext.refl _)
      | ConstStmt =>
        simp only [hk, pure, Except.pure, Except.ok.injEq] at h
        subst h
        exact untyped_leaf_ok hx0 (by rw [hk]; rfl) (by rw [hk]; rfl) (Ext.refl _)
      | Other =>
        simp only [hk, pure, Except.pure, Except.ok.injEq] at h
        subst h
        exact untyped_leaf_ok hx0 (by rw [hk]; rfl) (by rw [hk]; rfl) (Ext.refl _)
      | IfStmt tb fb =>
        simp only [hk] at h
        split at h
        · cases h
        · rename_i ir1 h1
          obtain ⟨e1, g1⟩ := visit_opt_Block_ok ih tb _ ir1 h1
          obtain ⟨e2, g2⟩ := visit_opt_Block_ok ih fb ir1 ir' h
          refine compound_ok hx0 (e1.trans e2) (by rw [hk]; rfl) ?_
          intro b hb t ht
          rw [hk] at hb
          simp only [StmtKind.bodies, List.mem_append] at hb
          rcases hb with hb | hb
          · exact Good_ext e2 (g1 b hb t ht)
          · exact g2 b hb t (Reachable_mono e1 ht)
      | AtomicOpStmt dest val =>
        simp only [hk] at h
        exact untyped_leaf_ok hx0 (by rw [hk]; rfl) (by rw [hk]; rfl) (visit_AtomicOpStmt_ext h)
      | LocalLoadStmt ptr =>
        simp only [hk] at h
        exact untyped_leaf_ok hx0 (by rw [hk]; rfl) (by rw [hk]; rfl) (visit_LocalLoadStmt_ext h)
      | LocalStoreStmt ptr data =>
        simp only [hk] at h
        exact untyped_leaf_ok hx0 (by rw [hk]; rfl) (by rw [hk]; rfl)
          (visit_LocalStoreStmt_ext h)
      | GlobalLoadStmt ptr =>
        simp only [hk] at h
        exact untyped_leaf_ok hx0 (by rw [hk]; rfl) (by rw [hk]; rfl)
          (visit_GlobalLoadStmt_ext h)
      | SNodeOpStmt =>
        simp only [hk] at h
        exact leaf_ok hx0 (by rw [hk]; rfl) (visit_SNodeOpStmt_ext h) (visit_SNodeOpStmt_good h)
      | GlobalPtrStmt snodes indices =>
        simp only [hk] at h
        exact untyped_leaf_ok hx0 (by rw [hk]; rfl) (by rw [hk]; rfl)
          (visit_GlobalPtrStmt_ext h)
      | GlobalStoreStmt ptr data =>
        simp only [hk] at h
        exact untyped_leaf_ok hx0 (by rw [hk]; rfl) (by rw [hk]; rfl)
          (visit_GlobalStoreStmt_ext h)
      | RangeForStmt begin_ end_ body =>
        simp only [hk] at h
        split at h
        · cases h
        · rename_i ir1 h1
          split at h
          · cases h
          · rename_i ir2 h2
            have e12 := (mark_as_if_const_ext h1).trans (mark_as_if_const_ext h2)
            obtain ⟨e3, g3⟩ := visit_Block_ok ih body ir2 ir' h
            refine compound_ok hx0 (e12.trans e3) (by rw [hk]; rfl) ?_
            intro b hb t ht
            rw [hk] at hb
            simp only [StmtKind.bodies, List.mem_singleton] at hb
            subst hb
            exact g3 t (Reachable_mono e12 ht)
      | StructForStmt body =>
        simp only [hk] at h
        obtain ⟨e3, g3⟩ := visit_Block_ok ih body _ ir' h
        refine compound_ok hx0 e3 (by rw [hk]; rfl) ?_
        intro b hb t ht
        rw [hk] at hb
        simp only [StmtKind.bodies, List.mem_singleton] at hb
        subst hb
        exact g3 t ht
      | WhileStmt body =>
        simp only [hk] at h
        obtain ⟨e3, g3⟩ := visit_Block_ok ih body _ ir' h
        refine compound_ok hx0 e3 (by rw [hk]; rfl) ?_
        intro b hb t ht
        rw [hk] at hb
        simp only [StmtKind.bodies, List.mem_singleton] at hb
        subst hb
        exact g3 t ht
      | UnaryOpStmt op operand ct cbv =>
        simp only [hk] at h
        exact untyped_leaf_ok hx0 (by rw [hk]; rfl) (by rw [hk]; rfl) (visit_UnaryOpStmt_ext h)
      | BinaryOpStmt op l r =>
        simp only [hk] at h
        exact leaf_ok hx0 (by rw [hk]; rfl) (visit_BinaryOpStmt_ext h)
          (visit_BinaryOpStmt_good h)
      | TernaryOpStmt op a b c =>
        simp only [hk] at h
        exact untyped_leaf_ok hx0 (by rw [hk]; rfl) (by rw [hk]; rfl)
          (visit_TernaryOpStmt_ext h)
      | ElementShuffleStmt elements =>
        simp only [hk] at h
        exact untyped_leaf_ok hx0 (by rw [hk]; rfl) (by rw [hk]; rfl)
          (visit_ElementShuffleStmt_ext h)
      | RangeAssumptionStmt input base =>
        simp only [hk] at h
        exact untyped_leaf_ok hx0 (by rw [hk]; rfl) (by rw [hk]; rfl)
          (visit_RangeAssumptionStmt_ext h)
      | ArgLoadStmt arg_id =>
        simp only [hk] at h
        exact untyped_leaf_ok hx0 (by rw [hk]; rfl) (by rw [hk]; rfl) (visit_ArgLoadStmt_ext h)
      | ArgStoreStmt arg_id val =>
        simp only [hk] at h
        exact untyped_leaf_ok hx0 (by rw [hk]; rfl) (by rw [hk]; rfl) (visit_ArgStoreStmt_ext h)
      | ExternalPtrStmt base_ptrs =>
        simp only [hk] at h
        exact untyped_leaf_ok hx0 (by rw [hk]; rfl) (by rw [hk]; rfl)
          (visit_ExternalPtrStmt_ext h)
      | LoopIndexStmt =>
        simp only [hk] at h
        exact leaf_ok hx0 (by rw [hk]; rfl) (visit_LoopIndexStmt_ext h)
          (visit_LoopIndexStmt_good h)
      | GetChStmt output_snode =>
        simp only [hk] at h
        exact untyped_leaf_ok hx0 (by rw [hk]; rfl) (by rw [hk]; rfl) (visit_GetChStmt_ext h)
      | OffloadedStmt body =>
        simp only [hk] at h
        obtain ⟨e1, g1⟩ := visit_opt_Block_ok ih body _ ir' h
        refine compound_ok hx0 e1 (by rw [hk]; rfl) ?_
        intro b hb t ht
        rw [hk] at hb
        exact g1 b hb t ht

/-! ## Inversion of the promotion steps -/

/-- What a returning conditional promotion step did. -/
theorem cast_before_if_inv (field : StmtId → StmtKind → StmtKind)
    (hf : ∀ v k, (field v k).skeleton = k.skeleton)
    {ir ir1 : IR} {s input : StmtId} {x xi : Stmt} {dt : DataType}
    {c : Prop} [Decidable c]
    (h : cast_before_if c s input dt field ir = .ok ir1)
    (hx : ir.stmts[s]? = some x) (hi : ir.stmts[input]? = some xi)
    (hg : field input x.kind = x.kind) :
    ∃ o y, Keeps s ir ir1 ∧ Ext ir ir1 ∧
      ir1.stmts[s]? = some { x with kind := field o x.kind } ∧
      ir1.stmts[o]? = some y ∧ y.ret_type.width = xi.ret_type.width ∧
      ((¬ c ∧ o = input ∧ ir1 = ir ∧ y = xi) ∨
       (c ∧ o = ir.stmts.length ∧ y.ret_type.data_type = dt)) := by
  by_cases hc : c
  · have h' := h
    unfold cast_before_if at h'
    rw [if_pos hc, cast_before_iff] at h'
    obtain ⟨sa, b, l, l', -, hsa, hp, hb, hins, -⟩ := h'
    have hm : s ∈ l := by
      by_contra hn
      have : insert_before s ir.stmts.length l = none := by
        clear hb hins
        induction l with
        | nil => rfl
        | cons a rest ih =>
          have ha : a ≠ s := fun h => hn (h ▸ List.mem_cons_self _ _)
          have hr : s ∉ rest := fun h => hn (List.mem_cons_of_mem _ h)
          simp [insert_before, ha, ih hr]
      rw [this] at hins
      cases hins
    obtain ⟨ir1', o, y, hok, hkeep, hext, hs1, ho, hcase⟩ :=
      cast_before_if_step field hf dt c ⟨sa, l, hsa, hp, hb, hm⟩ hx hi hg
    rw [h] at hok
    cases hok
    rcases hcase with ⟨hn, -⟩ | ⟨-, ho', hy⟩
    · exact absurd hc hn
    · exact ⟨o, y, hkeep, hext, hs1, ho, by rw [hy]; rfl, Or.inr ⟨hc, ho', by rw [hy]; rfl⟩⟩
  · unfold cast_before_if at h
    rw [if_neg hc] at h
    simp only [pure, Except.pure, Except.ok.injEq] at h
    subst h
    exact ⟨input, xi, Keeps_refl _ _, Ext.refl _, by rw [hg]; exact hx, hi, rfl,
      Or.inl ⟨hc, rfl, rfl, rfl⟩⟩

/-- Promotion keeps the widths of both operands. -/
theorem promote_widths {cfg : Config} {s : StmtId} {ir ir3 : IR} {x xl xr : Stmt}
    {op : BinaryOpType} {l r : StmtId}
    (h : promote cfg s ir = .ok ir3)
    (hs : ir.stmts[s]? = some x) (hk : x.kind = .BinaryOpStmt op l r)
    (hl : ir.stmts[l]? = some xl) (hr : ir.stmts[r]? = some xr) :
    ∃ x3 l3 r3 yl yr, ir3.stmts[s]? = some x3 ∧ x3.kind = .BinaryOpStmt op l3 r3 ∧
      ir3.stmts[l3]? = some yl ∧ ir3.stmts[r3]? = some yr ∧
      yl.ret_type.width = xl.ret_type.width ∧ yr.ret_type.width = xr.ret_type.width := by
  unfold promote at h
  simp only [bind, Except.bind, IR.binary_of hs hk, IR.ret_type_of hl, IR.ret_type_of hr] at h
  split at h
  · split at h
    · cases h
    · rename_i ir1 h1
      obtain ⟨o1, y1, keep1, -, hs1, ho1, hw1, -⟩ :=
        cast_before_if_inv StmtKind.set_lhs skeleton_set_lhs h1 hs hl (by rw [hk]; rfl)
      have hk1 : ({ x with kind := StmtKind.set_lhs o1 x.kind } : Stmt).kind =
          .BinaryOpStmt op o1 r := by simp [hk, StmtKind.set_lhs]
      obtain ⟨xr1, hr1, htr1, -, -⟩ := keep1.1 r xr hr
      simp only [IR.binary_of hs1 hk1, IR.ret_type_of hr1] at h
      obtain ⟨o2, y2, keep2, -, hs2, ho2, hw2, -⟩ :=
        cast_before_if_inv StmtKind.set_rhs skeleton_set_rhs h hs1 hr1 (by rw [hk1]; rfl)
      obtain ⟨y1', ho1', hty1, -, -⟩ := keep2.1 o1 y1 ho1
      refine ⟨_, o1, o2, y1', y2, hs2, by simp [hk, StmtKind.set_lhs, StmtKind.set_rhs],
        ho1', ho2, by rw [hty1]; exact hw1, by rw [hw2, htr1]⟩
  · simp only [pure, Except.pure, Except.ok.injEq] at h
    subst h
    exact ⟨x, l, r, xl, xr, hs, hk, hl, hr, rfl, rfl⟩

/-! ## Closed forms of the casting steps -/

theorem insert_before_at (a n : StmtId) (pre post : List StmtId) (h : a ∉ pre) :
    insert_before a n (pre ++ a :: post) = some (pre ++ n :: a :: post) := by
  induction pre with
  | nil => simp [insert_before]
  | cons x xs ih =>
    have hx : x ≠ a := fun e => h (by simp [e])
    have h' : a ∉ xs := fun e => h (by simp [e])
    simp [insert_before, hx, ih h']

theorem insert_after_at (a n : StmtId) (pre post : List StmtId) (h : a ∉ pre) :
    insert_after a n (pre ++ a :: post) = some (pre ++ a :: n :: post) := by
  induction pre with
  | nil => simp [insert_after]
  | cons x xs ih =>
    have hx : x ≠ a := fun e => h (by simp [e])
    have h' : a ∉ xs := fun e => h (by simp [e])
    simp [insert_after, hx, ih h']

/-- The state after `field = insert_type_cast_before(s, input, dt)` on a statement `s` that is
in the block that owns it, in closed form. -/
theorem cast_before_at (field : StmtId → StmtKind → StmtKind) {ir : IR} {s input : StmtId}
    {b : BlockId} {x xi : Stmt} {pre post : List StmtId} (dt : DataType)
    (hs : ir.stmts[s]? = some x) (hp : x.parent = some b)
    (hb : ir.blocks[b]? = some (pre ++ s :: post)) (hpre : s ∉ pre)
    (hi : ir.stmts[input]? = some xi) :
    cast_before s input dt field ir = .ok
      { stmts := (ir.stmts ++ [by_value_cast input dt xi.ret_type.width b]).set s
          { x with kind := field ir.stmts.length x.kind }
        blocks := ir.blocks.set b (pre ++ ir.stmts.length :: s :: post)
        warnings := ir.warnings
        accepted := ir.accepted ++ [ir.stmts.length] } := by
  have h := (cast_before_iff s input dt field ir _).2
    ⟨x, b, _, _, Nat.le_of_lt (lt_of_get hi), hs, hp, hb,
      insert_before_at s ir.stmts.length pre post hpre, rfl⟩
  rw [h]
  unfold IR.assign
  rw [IR.modify_eq _ _ _ x (by rw [with_cast_get_old _ _ _ _ _ _ (lt_of_get hs)]; exact hs)]
  simp [with_cast, cast_width, hi]

theorem get_snoc_set_self {L : List Stmt} {s : StmtId} (c y : Stmt) (h : s < L.length) :
    ((L ++ [c]).set s y)[s]? = some y := by
  rw [List.getElem?_set_self]
  simp
  exact Nat.lt_succ_of_lt h

theorem get_snoc_set_new {L : List Stmt} {s : StmtId} (c y : Stmt) (h : s < L.length) :
    ((L ++ [c]).set s y)[L.length]? = some c := by
  rw [List.getElem?_set_ne (Nat.ne_of_lt h)]
  simp

theorem get_snoc_set_old {L : List Stmt} {s t : StmtId} (c y : Stmt) (h : t < L.length)
    (hne : t ≠ s) : ((L ++ [c]).set s y)[t]? = L[t]? := by
  rw [List.getElem?_set_ne (Ne.symm hne), List.getElem?_append_left h]

theorem warn_if_ret_type (ir : IR) (c : Prop) [Decidable c] (w : Warning) (t : StmtId) :
    (if c then ir.warn w else ir).ret_type t = ir.ret_type t := by
  split <;> rfl

theorem warn_if_set_ret_type (ir : IR) (c : Prop) [Decidable c] (w : Warning) (s : StmtId)
    (x : Stmt) (T : VectorType) (hs : ir.stmts[s]? = some x) :
    (if c then ir.warn w else ir).set_ret_type s T =
      { ir with stmts := ir.stmts.set s { x with ret_type := T }
                warnings := ir.warnings ++ (if c then [w] else []) } := by
  unfold IR.set_ret_type
  split
  · rw [IR.modify_eq _ _ _ x (by simpa [IR.warn] using hs)]
    simp [IR.warn]
  · rw [IR.modify_eq _ _ _ x hs]
    simp
theorem binary_is_bitwise_lowered (op : BinaryOpType) :
    binary_is_bitwise (lowered op) = binary_is_bitwise op := by
  cases op <;> rfl

theorem with_cast_length (ir : IR) (i : StmtId) (dt : DataType) (b : BlockId)
    (l : List StmtId) : (with_cast ir i dt b l).stmts.length = ir.stmts.length + 1 := by
  simp [with_cast]

theorem IR.assign_length (ir : IR) (s : StmtId) (g : StmtKind → StmtKind) :
    (ir.assign s g).stmts.length = ir.stmts.length := by
  unfold IR.assign
  simp

theorem IR.set_ret_type_length (ir : IR) (s : StmtId) (T : VectorType) :
    (ir.set_ret_type s T).stmts.length = ir.stmts.length := by
  unfold IR.set_ret_type
  simp

/-- What a returning coercion of the lhs did to the instruction: the operator and the rhs
are kept, the lhs is kept or is the statement created by the step. -/
theorem coerce_lhs_inv {pred : DataType → Bool} {dt : DataType} {s : StmtId} {ir ir1 : IR}
    {x : Stmt} {op : BinaryOpType} {l r : StmtId}
    (h : coerce_lhs pred dt s ir = .ok ir1)
    (hs : ir.stmts[s]? = some x) (hk : x.kind = .BinaryOpStmt op l r) :
    ∃ l1, ir1.stmts[s]? = some { x with kind := .BinaryOpStmt op l1 r } ∧
      (l1 = l ∨ l1 = ir.stmts.length) ∧ ir.stmts.length ≤ ir1.stmts.length := by
  have hx : x = { x with kind := .BinaryOpStmt op l r } := by rw [← hk]
  unfold coerce_lhs at h
  simp only [bind, Except.bind, IR.binary_of hs hk] at h
  split at h
  · cases h
  · split at h
    · simp only [pure, Except.pure, Except.ok.injEq] at h
      subst h
      exact ⟨l, by rw [← hx]; exact hs, Or.inl rfl, Nat.le_refl _⟩
    · split at h
      · cases h
      · rename_i v hv
        obtain ⟨ir2, c⟩ := v
        simp only [pure, Except.pure, Except.ok.injEq] at h
        subst h
        unfold cast at hv
        obtain ⟨sa, b, bl, bl', hc, -, -, -, -, -, hir⟩ :=
          (insert_type_cast_after_iff _ _ _ _ _ _).1 hv
        subst hc hir
        refine ⟨ir.stmts.length, ?_, Or.inr rfl, ?_⟩
        · unfold IR.set_lhs
          rw [IR.assign_get, if_pos rfl, with_cast_get_old _ _ _ _ _ _ (lt_of_get hs), hs]
          simp [hk, StmtKind.set_lhs]
        · unfold IR.set_lhs
          rw [IR.assign_length, with_cast_length]
          exact Nat.le_succ _

theorem coerce_rhs_inv {pred : DataType → Bool} {dt : DataType} {s : StmtId} {ir ir1 : IR}
    {x : Stmt} {op : BinaryOpType} {l r : StmtId}
    (h : coerce_rhs pred dt s ir = .ok ir1)
    (hs : ir.stmts[s]? = some x) (hk : x.kind = .BinaryOpStmt op l r) :
    ∃ r1, ir1.stmts[s]? = some { x with kind := .BinaryOpStmt op l r1 } ∧
      (r1 = r ∨ r1 = ir.stmts.length) ∧ ir.stmts.length ≤ ir1.stmts.length := by
  have hx : x = { x with kind := .BinaryOpStmt op l r } := by rw [← hk]
  unfold coerce_rhs at h
  simp only [bind, Except.bind, IR.binary_of hs hk] at h
  split at h
  · cases h
  · split at h
    · simp only [pure, Except.pure, Except.ok.injEq] at h
      subst h
      exact ⟨r, by rw [← hx]; exact hs, Or.inl rfl, Nat.le_refl _⟩
    · split at h
      · cases h
      · rename_i v hv
        obtain ⟨ir2, c⟩ := v
        simp only [pure, Except.pure, Except.ok.injEq] at h
        subst h
        unfold cast at hv
        obtain ⟨sa, b, bl, bl', hc, -, -, -, -, -, hir⟩ :=
          (insert_type_cast_after_iff _ _ _ _ _ _).1 hv
        subst hc hir
        refine ⟨ir.stmts.length, ?_, Or.inr rfl, ?_⟩
        · unfold IR.set_rhs
          rw [IR.assign_get, if_pos rfl, with_cast_get_old _ _ _ _ _ _ (lt_of_get hs), hs]
          simp [hk, StmtKind.set_rhs]
        · unfold IR.set_rhs
          rw [IR.assign_length, with_cast_length]
          exact Nat.le_succ _

/-- What a returning lowering of a division did to the instruction: the operator is `div`,
each operand is kept or was created by the step. -/
theorem lower_inv {pred : DataType → Bool} {dt : DataType} {s : StmtId} {ir ir1 ir2 : IR}
    {x : Stmt} {op : BinaryOpType} {l r : StmtId}
    (h1 : coerce_lhs pred dt s ir = .ok ir1) (h2 : coerce_rhs pred dt s ir1 = .ok ir2)
    (hs : ir.stmts[s]? = some x) (hk : x.kind = .BinaryOpStmt op l r) :
    ∃ l1 r1, (ir2.set_op_type s .div).stmts[s]? =
        some { x with kind := .BinaryOpStmt .div l1 r1 } ∧
      (l1 = l ∨ ir.stmts.length ≤ l1) ∧ (r1 = r ∨ ir.stmts.length ≤ r1) ∧
      ir.stmts.length ≤ (ir2.set_op_type s .div).stmts.length := by
  obtain ⟨l1, hs1, hl1, hn1⟩ := coerce_lhs_inv h1 hs hk
  obtain ⟨r1, hs2, hr1, hn2⟩ := coerce_rhs_inv h2 hs1 rfl
  refine ⟨l1, r1, ?_, ?_, ?_, ?_⟩
  · unfold IR.set_op_type
    rw [IR.assign_get, if_pos rfl, hs2]
    rfl
  · rcases hl1 with h | h
    · exact Or.inl h
    · exact Or.inr (Nat.le_of_eq h.symm)
  · rcases hr1 with h | h
    · exact Or.inl h
    · exact Or.inr (h ▸ hn1)
  · unfold IR.set_op_type
    rw [IR.assign_length]
    exact Nat.le_trans hn1 hn2

theorem lower_floordiv_inv {cfg : Config} {s : StmtId} {ir ir1 : IR}
    {x : Stmt} {op : BinaryOpType} {l r : StmtId}
    (h : lower_floordiv cfg s ir = .ok ir1)
    (hs : ir.stmts[s]? = some x) (hk : x.kind = .BinaryOpStmt op l r) :
    ∃ l1 r1, ir1.stmts[s]? =
        some { x with kind := .BinaryOpStmt (if op = .floordiv then .div else op) l1 r1 } ∧
      (l1 = l ∨ ir.stmts.length ≤ l1) ∧ (r1 = r ∨ ir.stmts.length ≤ r1) ∧
      ir.stmts.length ≤ ir1.stmts.length := by
  unfold lower_floordiv at h
  simp only [bind, Except.bind, IR.binary_of hs hk] at h
  split at h
  · rename_i hop
    split at h
    · cases h
    · rename_i ira h1
      split at h
      · cases h
      · rename_i irb h2
        simp only [pure, Except.pure, Except.ok.injEq] at h
        subst h
        rw [if_pos hop]
        exact lower_inv h1 h2 hs hk
  · rename_i hop
    simp only [pure, Except.pure, Except.ok.injEq] at h
    subst h
    rw [if_neg hop]
    exact ⟨l, r, by rw [← hk]; exact hs, Or.inl rfl, Or.inl rfl, Nat.le_refl _⟩

theorem lower_truediv_inv {cfg : Config} {s : StmtId} {ir ir1 : IR}
    {x : Stmt} {op : BinaryOpType} {l r : StmtId}
    (h : lower_truediv cfg s ir = .ok ir1)
    (hs : ir.stmts[s]? = some x) (hk : x.kind = .BinaryOpStmt op l r) :
    ∃ l1 r1, ir1.stmts[s]? =
        some { x with kind := .BinaryOpStmt (if op = .truediv then .div else op) l1 r1 } ∧
      (l1 = l ∨ ir.stmts.length ≤ l1) ∧ (r1 = r ∨ ir.stmts.length ≤ r1) ∧
      ir.stmts.length ≤ ir1.stmts.length := by
  unfold lower_truediv at h
  simp only [bind, Except.bind, IR.binary_of hs hk] at h
  split at h
  · rename_i hop
    split at h
    · cases h
    · rename_i ira h1
      split at h
      · cases h
      · rename_i irb h2
        simp only [pure, Except.pure, Except.ok.injEq] at h
        subst h
        rw [if_pos hop]
        exact lower_inv h1 h2 hs hk
  · rename_i hop
    simp only [pure, Except.pure, Except.ok.injEq] at h
    subst h
    rw [if_neg hop]
    exact ⟨l, r, by rw [← hk]; exact hs, Or.inl rfl, Or.inl rfl, Nat.le_refl _⟩
theorem Ext.length_le {ir ir' : IR} (e : Ext ir ir') : ir.stmts.length ≤ ir'.stmts.length := by
  cases hn : ir.stmts.length with
  | zero => exact Nat.zero_le _
  | succ n =>
    have hlt : n < ir.stmts.length := by rw [hn]; exact Nat.lt_succ_self n
    obtain ⟨x', hx', -⟩ := e.old n _ (List.getElem?_eq_getElem hlt)
    exact lt_of_get hx'

/-- What a returning promotion did to the instruction: the operator is kept, each operand is
kept or was created by the step. -/
theorem promote_inv {cfg : Config} {s : StmtId} {ir ir3 : IR} {x : Stmt}
    {op : BinaryOpType} {l r : StmtId}
    (h : promote cfg s ir = .ok ir3)
    (hs : ir.stmts[s]? = some x) (hk : x.kind = .BinaryOpStmt op l r) :
    ∃ l3 r3, ir3.stmts[s]? = some { x with kind := .BinaryOpStmt op l3 r3 } ∧
      (l3 = l ∨ ir.stmts.length ≤ l3) ∧ (r3 = r ∨ ir.stmts.length ≤ r3) ∧
      ir.stmts.length ≤ ir3.stmts.length := by
  unfold promote at h
  simp only [bind, Except.bind, IR.binary_of hs hk] at h
  split at h
  · cases h
  · rename_i lt hlt
    obtain ⟨xl, hl, rfl⟩ := IR.ret_type_ok hlt
    split at h
    · cases h
    · rename_i rt hrt
      obtain ⟨xr, hr, rfl⟩ := IR.ret_type_ok hrt
      split at h
      · split at h
        · cases h
        · rename_i ir1 h1
          obtain ⟨o1, y1, keep1, e1, hs1, -, -, hc1⟩ :=
            cast_before_if_inv StmtKind.set_lhs skeleton_set_lhs h1 hs hl (by rw [hk]; rfl)
          have hk1 : ({ x with kind := StmtKind.set_lhs o1 x.kind } : Stmt).kind =
              .BinaryOpStmt op o1 r := by simp [hk, StmtKind.set_lhs]
          obtain ⟨xr1, hr1, -, -, -⟩ := keep1.1 r xr hr
          simp only [IR.binary_of hs1 hk1, IR.ret_type_of hr1] at h
          obtain ⟨o2, y2, -, e2, hs2, -, -, hc2⟩ :=
            cast_before_if_inv StmtKind.set_rhs skeleton_set_rhs h hs1 hr1 (by rw [hk1]; rfl)
          have hle1 := e1.length_le
          refine ⟨o1, o2, ?_, ?_, ?_, Nat.le_trans hle1 e2.length_le⟩
          · rw [hs2]
            simp [hk, StmtKind.set_lhs, StmtKind.set_rhs]
          · rcases hc1 with ⟨-, h, -⟩ | ⟨-, h, -⟩
            · exact Or.inl h
            · exact Or.inr (Nat.le_of_eq h.symm)
          · rcases hc2 with ⟨-, h, -⟩ | ⟨-, h, -⟩
            · exact Or.inl h
            · exact Or.inr (h ▸ hle1)
      · simp only [pure, Except.pure, Except.ok.injEq] at h
        subst h
        exact ⟨l, r, by rw [← hk]; exact hs, Or.inl rfl, Or.inl rfl, Nat.le_refl _⟩

/-- What a returning visit of a binary operator did before its final check: the operator was
lowered, each operand is the old one or a statement created by the visit, and the final
check returned. -/
theorem visit_BinaryOpStmt_track {cfg : Config} {s : StmtId} {ir ir' : IR} {x : Stmt}
    {op : BinaryOpType} {l r : StmtId}
    (h : visit_BinaryOpStmt cfg s ir = .ok ir')
    (hs : ir.stmts[s]? = some x) (hk : x.kind = .BinaryOpStmt op l r) :
    ∃ ir3 l3 r3, ir3.stmts[s]? = some { x with kind := .BinaryOpStmt (lowered op) l3 r3 } ∧
      (l3 = l ∨ ir.stmts.length ≤ l3) ∧ (r3 = r ∨ ir.stmts.length ≤ r3) ∧
      check_and_assign s ir3 = .ok ir' := by
  unfold visit_BinaryOpStmt at h
  simp only [bind, Except.bind, IR.binary_of hs hk] at h
  split at h
  · cases h
  · split at h
    · cases h
    · split at h
      · simp [error, fatal] at h
      · split at h
        · cases h
        · rename_i ir1 h1
          obtain ⟨l1, r1, hs1, hl1, hr1, hn1⟩ := lower_floordiv_inv h1 hs hk
          split at h
          · cases h
          · rename_i ir2 h2
            obtain ⟨l2, r2, hs2, hl2, hr2, hn2⟩ := lower_truediv_inv h2 hs1 rfl
            split at h
            · cases h
            · rename_i ir3 h3
              obtain ⟨l3, r3, hs3, hl3, hr3, hn3⟩ := promote_inv h3 hs2 rfl
              have hop : (if (if op = .floordiv then BinaryOpType.div else op) = .truediv
                  then BinaryOpType.div else (if op = .floordiv then .div else op))
                  = lowered op := by
                cases op <;> rfl
              refine ⟨ir3, l3, r3, ?_, ?_, ?_, h⟩
              · rw [hs3]
                simp only [hop]
              · rcases hl3 with h | h
                · rcases hl2 with h' | h'
                  · rcases hl1 with h'' | h''
                    · exact Or.inl (h.trans (h'.trans h''))
                    · exact Or.inr (by rw [h, h']; exact h'')
                  · exact Or.inr (by rw [h]; exact Nat.le_trans hn1 h')
                · exact Or.inr (Nat.le_trans (Nat.le_trans hn1 hn2) h)
              · rcases hr3 with h | h
                · rcases hr2 with h' | h'
                  · rcases hr1 with h'' | h''
                    · exact Or.inl (h.trans (h'.trans h''))
                    · exact Or.inr (by rw [h, h']; exact h'')
                  · exact Or.inr (by rw [h]; exact Nat.le_trans hn1 h')
                · exact Or.inr (Nat.le_trans (Nat.le_trans hn1 hn2) h)
theorem lowered_ne_floordiv (op : BinaryOpType) : lowered op ≠ .floordiv := by
  cases op <;> simp [lowered]

theorem lowered_ne_truediv (op : BinaryOpType) : lowered op ≠ .truediv := by
  cases op <;> simp [lowered]

theorem IR.set_self (ir : IR) (s : StmtId) (x : Stmt) (h : ir.stmts[s]? = some x) :
    ({ ir with stmts := ir.stmts.set s x } : IR) = ir := by
  have hlt := lt_of_get h
  have hx : ir.stmts[s] = x := by
    rw [List.getElem?_eq_getElem hlt] at h
    exact Option.some.inj h
  have : ir.stmts.set s x = ir.stmts := by
    rw [← hx]
    apply List.ext_getElem
    · simp
    · intro n h1 h2
      by_cases hn : s = n
      · subst hn; simp
      · simp [List.getElem_set_ne hn]
  rw [this]

/-- A state in which the visit of the binary operator `s` has nothing left to do: the
operator is not a division to lower, the operands have the same known type, the bitwise
check passes, and the result type is the one the visit assigns. -/
theorem visit_BinaryOpStmt_fixed (cfg : Config) {s : StmtId} {ir : IR} {x xl xr : Stmt}
    {op : BinaryOpType} {l r : StmtId}
    (hs : ir.stmts[s]? = some x) (hk : x.kind = .BinaryOpStmt op l r)
    (hl : ir.stmts[l]? = some xl) (hr : ir.stmts[r]? = some xr)
    (hf : op ≠ .floordiv) (ht : op ≠ .truediv)
    (heq : xl.ret_type = xr.ret_type) (hn : xl.ret_type.data_type ≠ .unknown)
    (hb : binary_is_bitwise op = true → is_integral xl.ret_type.data_type = true)
    (hT : x.ret_type =
      if is_comparison op = true then ⟨xl.ret_type.width, .i32⟩ else xl.ret_type) :
    visit_BinaryOpStmt cfg s ir = .ok ir := by
  have hnu : ¬ (xl.ret_type.data_type = .unknown ∧ xr.ret_type.data_type = .unknown) :=
    fun h => hn h.1
  unfold visit_BinaryOpStmt
  simp only [bind, Except.bind, IR.binary_of hs hk, IR.ret_type_of hl, IR.ret_type_of hr,
    if_neg hnu, lower_floordiv_skip cfg hs hk hf, lower_truediv_skip cfg hs hk ht,
    promote_skip cfg hs hk hl hr (by rw [heq]), check_and_assign_eval hs hk hl hr]
  rw [if_pos ⟨hn, heq⟩]
  have hb' : ¬ (binary_is_bitwise op = true ∧ is_integral xl.ret_type.data_type = false) := by
    rintro ⟨h1, h2⟩
    rw [hb h1] at h2
    cases h2
  rw [if_neg hb', ← hT]
  have hx : ({ x with ret_type := x.ret_type } : Stmt) = x := rfl
  rw [hx, IR.set_self ir s x hs]

theorem promote_reads {cfg : Config} {s : StmtId} {ir ir3 : IR} {x : Stmt}
    {op : BinaryOpType} {l r : StmtId}
    (h : promote cfg s ir = .ok ir3)
    (hs : ir.stmts[s]? = some x) (hk : x.kind = .BinaryOpStmt op l r) :
    ∃ xl xr, ir.stmts[l]? = some xl ∧ ir.stmts[r]? = some xr := by
  unfold promote at h
  simp only [bind, Except.bind, IR.binary_of hs hk] at h
  split at h
  · cases h
  · rename_i lt hlt
    obtain ⟨xl, hl, -⟩ := IR.ret_type_ok hlt
    split at h
    · cases h
    · rename_i rt hrt
      obtain ⟨xr, hr, -⟩ := IR.ret_type_ok hrt
      exact ⟨xl, xr, hl, hr⟩

/-- The state after `cast(val, dt)` on an operand `val` that is in the block that owns it,
in closed form. -/
theorem cast_at {ir : IR} {val : StmtId} {b : BlockId} {xv : Stmt} {pre post : List StmtId}
    (dt : DataType)
    (hv : ir.stmts[val]? = some xv) (hp : xv.parent = some b)
    (hb : ir.blocks[b]? = some (pre ++ val :: post)) (hpre : val ∉ pre) :
    cast val dt ir = .ok
      ({ stmts := ir.stmts ++ [by_value_cast val dt xv.ret_type.width b]
         blocks := ir.blocks.set b (pre ++ val :: ir.stmts.length :: post)
         warnings := ir.warnings
         accepted := ir.accepted ++ [ir.stmts.length] }, ir.stmts.length) := by
  unfold cast
  rw [(insert_type_cast_after_iff _ _ _ _ _ _).2
    ⟨xv, b, _, _, rfl, Nat.le_of_lt (lt_of_get hv), hv, hp, hb,
      insert_after_at val ir.stmts.length pre post hpre, rfl⟩]
  simp [with_cast, cast_width, hv]

theorem set_append_left {L M : List Stmt} {s : StmtId} (a : Stmt) (h : s < L.length) :
    L.set s a ++ M = (L ++ M).set s a := by
  rw [List.set_append, if_pos h]

/-! ## Elementary changes -/

theorem NoFatal_ok {α : Type} (a : α) : NoFatal (Except.ok a : Except Abort α) := by
  intro e h
  cases h

theorem NoFatal_pure {α : Type} (a : α) : NoFatal (pure a : Except Abort α) :=
  NoFatal_ok a

theorem NoFatal_invalid {α : Type} : NoFatal (invalid : Except Abort α) := by
  intro e h
  cases h
  rfl

theorem NoFatal_bind {α β : Type} {m : Except Abort α} {f : α → Except Abort β}
    (hm : NoFatal m) (hf : ∀ a, m = .ok a → NoFatal (f a)) : NoFatal (m >>= f) := by
  intro e h
  cases hma : m with
  | error e' =>
    rw [hma] at h
    simp only [bind, Except.bind] at h
    cases h
    exact hm _ hma
  | ok a =>
    rw [hma] at h
    exact hf a hma e h

theorem IR.deref_nofatal (ir : IR) (s : StmtId) : NoFatal (ir.deref s) := by
  intro e h
  unfold IR.deref at h
  split at h
  · cases h
  · cases h; rfl

theorem IR.ret_type_nofatal (ir : IR) (s : StmtId) : NoFatal (ir.ret_type s) := by
  intro e h
  unfold IR.ret_type at h
  split at h
  · cases h
  · cases h; rfl

theorem IR.binary_nofatal (ir : IR) (s : StmtId) : NoFatal (ir.binary s) := by
  intro e h
  unfold IR.binary at h
  split at h
  · split at h
    · cases h
    · cases h; rfl
  · cases h; rfl

theorem IR.ternary_nofatal (ir : IR) (s : StmtId) : NoFatal (ir.ternary s) := by
  intro e h
  unfold IR.ternary at h
  split at h
  · split at h
    · cases h
    · cases h; rfl
  · cases h; rfl

theorem insert_type_cast_before_nofatal (a i : StmtId) (dt : DataType) (ir : IR) :
    NoFatal (insert_type_cast_before a i dt ir) :=
  fun e h => insert_type_cast_before_error ir a i dt e h

theorem insert_type_cast_after_nofatal (a i : StmtId) (dt : DataType) (ir : IR) :
    NoFatal (insert_type_cast_after a i dt ir) :=
  fun e h => insert_type_cast_after_error ir a i dt e h

theorem cast_before_nofatal (s input : StmtId) (dt : DataType)
    (field : StmtId → StmtKind → StmtKind) (ir : IR) :
    NoFatal (cast_before s input dt field ir) := by
  unfold cast_before
  exact NoFatal_bind (insert_type_cast_before_nofatal _ _ _ _) (fun _ _ => NoFatal_pure _)

theorem cast_before_if_nofatal (c : Prop) [Decidable c] (s input : StmtId) (dt : DataType)
    (field : StmtId → StmtKind → StmtKind) (ir : IR) :
    NoFatal (cast_before_if c s input dt field ir) := by
  unfold cast_before_if
  split
  · exact cast_before_nofatal _ _ _ _ _
  · exact NoFatal_pure _

theorem coerce_lhs_nofatal (pred : DataType → Bool) (dt : DataType) (s : StmtId) (ir : IR) :
    NoFatal (coerce_lhs pred dt s ir) := by
  unfold coerce_lhs
  refine NoFatal_bind (IR.binary_nofatal _ _) (fun v _ => ?_)
  refine NoFatal_bind (IR.ret_type_nofatal _ _) (fun t _ => ?_)
  split
  · exact NoFatal_pure _
  · exact NoFatal_bind (insert_type_cast_after_nofatal _ _ _ _) (fun _ _ => NoFatal_pure _)

theorem coerce_rhs_nofatal (pred : DataType → Bool) (dt : DataType) (s : StmtId) (ir : IR) :
    NoFatal (coerce_rhs pred dt s ir) := by
  unfold coerce_rhs
  refine NoFatal_bind (IR.binary_nofatal _ _) (fun v _ => ?_)
  refine NoFatal_bind (IR.ret_type_nofatal _ _) (fun t _ => ?_)
  split
  · exact NoFatal_pure _
  · exact NoFatal_bind (insert_type_cast_after_nofatal _ _ _ _) (fun _ _ => NoFatal_pure _)

theorem lower_floordiv_nofatal (cfg : Config) (s : StmtId) (ir : IR) :
    NoFatal (lower_floordiv cfg s ir) := by
  unfold lower_floordiv
  refine NoFatal_bind (IR.binary_nofatal _ _) (fun v _ => ?_)
  obtain ⟨op, l, r⟩ := v
  dsimp only
  split
  · refine NoFatal_bind (coerce_lhs_nofatal _ _ _ _) (fun _ _ => ?_)
    exact NoFatal_bind (coerce_rhs_nofatal _ _ _ _) (fun _ _ => NoFatal_pure _)
  · exact NoFatal_pure _

theorem lower_truediv_nofatal (cfg : Config) (s : StmtId) (ir : IR) :
    NoFatal (lower_truediv cfg s ir) := by
  unfold lower_truediv
  refine NoFatal_bind (IR.binary_nofatal _ _) (fun v _ => ?_)
  obtain ⟨op, l, r⟩ := v
  dsimp only
  split
  · refine NoFatal_bind (coerce_lhs_nofatal _ _ _ _) (fun _ _ => ?_)
    exact NoFatal_bind (coerce_rhs_nofatal _ _ _ _) (fun _ _ => NoFatal_pure _)
  · exact NoFatal_pure _

theorem promote_nofatal (cfg : Config) (s : StmtId) (ir : IR) :
    NoFatal (promote cfg s ir) := by
  unfold promote
  refine NoFatal_bind (IR.binary_nofatal _ _) (fun v _ => ?_)
  refine NoFatal_bind (IR.ret_type_nofatal _ _) (fun lt _ => ?_)
  refine NoFatal_bind (IR.ret_type_nofatal _ _) (fun rt _ => ?_)
  split
  · refine NoFatal_bind (cast_before_if_nofatal _ _ _ _ _ _) (fun _ _ => ?_)
    refine NoFatal_bind (IR.binary_nofatal _ _) (fun v _ => ?_)
    refine NoFatal_bind (IR.ret_type_nofatal _ _) (fun rt _ => ?_)
    exact cast_before_if_nofatal _ _ _ _ _ _
  · exact NoFatal_pure _

theorem Steps_refl (s : StmtId) (ir : IR) : Steps s ir ir :=
  Relation.ReflTransGen.refl

theorem Steps_trans {s : StmtId} {a b c : IR} (h1 : Steps s a b) (h2 : Steps s b c) :
    Steps s a c :=
  Relation.ReflTransGen.trans h1 h2

theorem Steps_single {s : StmtId} {a b : IR} (h : Step s a b) : Steps s a b :=
  Relation.ReflTransGen.single h

theorem Steps_then {s : StmtId} {a b c : IR} (h1 : Steps s a b) (h2 : Step s b c) :
    Steps s a c :=
  Relation.ReflTransGen.tail h1 h2

theorem Steps_set_ret_type (s : StmtId) (ir : IR) (t : StmtId) (T : VectorType) :
    Steps s ir (ir.set_ret_type t T) :=
  Steps_single (Step.retype ir t _ (fun _ => ⟨rfl, rfl⟩))

theorem Steps_set_data_type (s : StmtId) (ir : IR) (t : StmtId) (dt : DataType) :
    Steps s ir (ir.set_data_type t dt) :=
  Steps_single (Step.retype ir t _ (fun _ => ⟨rfl, rfl⟩))

theorem Steps_warn (s : StmtId) (ir : IR) (w : Warning) : Steps s ir (ir.warn w) :=
  Steps_single (Step.warn ir w)

theorem Steps_warn_if (s : StmtId) (ir : IR) (c : Prop) [Decidable c] (w : Warning) :
    Steps s ir (if c then ir.warn w else ir) := by
  split
  · exact Steps_warn s ir w
  · exact Steps_refl s ir

theorem Reaches_ok {s : StmtId} {ir st : IR} (h : Steps s ir st) :
    Reaches s ir (.ok st) := by
  intro st' h'
  cases h'
  exact h

theorem Reaches_pure {s : StmtId} {ir st : IR} (h : Steps s ir st) :
    Reaches s ir (pure st) :=
  Reaches_ok h

theorem Reaches_fatal {s : StmtId} {ir st : IR} (h : Steps s ir st) :
    Reaches s ir (fatal st) := by
  intro st' h'
  cases h'
  exact h

theorem Reaches_invalid (s : StmtId) (ir : IR) : Reaches s ir invalid := by
  intro st' h'
  cases h'

theorem Reaches_from {s : StmtId} {ir ir1 : IR} {m : Except Abort IR}
    (h : Steps s ir ir1) (hm : Reaches s ir1 m) : Reaches s ir m :=
  fun st hst => Steps_trans h (hm st hst)

/-- A step that reads, or that cannot abort fatally, followed by the rest of the rule. -/
theorem Reaches_bind {α : Type} {s : StmtId} {ir : IR} {m : Except Abort α}
    {f : α → Except Abort IR} (hm : NoFatal m)
    (hf : ∀ a, m = .ok a → Reaches s ir (f a)) : Reaches s ir (m >>= f) := by
  intro st h
  cases hma : m with
  | error e =>
    rw [hma] at h
    simp only [bind, Except.bind] at h
    rw [hm e hma] at h
    cases h
  | ok a =>
    rw [hma] at h
    exact hf a hma st h

theorem Reaches_of_nofatal {s : StmtId} {ir : IR} {m : Except Abort IR} (hm : NoFatal m)
    (hf : ∀ st, m = .ok st → Steps s ir st) : Reaches s ir m := by
  intro st h
  cases hma : m with
  | error e =>
    rw [hma, hm e hma] at h
    cases h
  | ok a =>
    rw [hma] at h
    cases h
    exact hf _ hma
theorem insert_before_some {a n : StmtId} {l l' : List StmtId}
    (h : insert_before a n l = some l') :
    ∃ pre post, l = pre ++ a :: post ∧ a ∉ pre ∧ l' = pre ++ n :: a :: post := by
  induction l generalizing l' with
  | nil => cases h
  | cons x xs ih =>
    unfold insert_before at h
    split at h
    · rename_i hx
      cases h
      exact ⟨[], xs, by simp [hx], by simp, by simp [hx]⟩
    · rename_i hx
      cases hr : insert_before a n xs with
      | none => rw [hr] at h; cases h
      | some r =>
        rw [hr] at h
        cases h
        obtain ⟨pre, post, h1, h2, h3⟩ := ih hr
        refine ⟨x :: pre, post, by simp [h1], ?_, by simp [h3]⟩
        intro hm
        rcases List.mem_cons.1 hm with e | e
        · exact hx e.symm
        · exact h2 e

theorem insert_after_some {a n : StmtId} {l l' : List StmtId}
    (h : insert_after a n l = some l') :
    ∃ pre post, l = pre ++ a :: post ∧ a ∉ pre ∧ l' = pre ++ a :: n :: post := by
  induction l generalizing l' with
  | nil => cases h
  | cons x xs ih =>
    unfold insert_after at h
    split at h
    · rename_i hx
      cases h
      exact ⟨[], xs, by simp [hx], by simp, by simp [hx]⟩
    · rename_i hx
      cases hr : insert_after a n xs with
      | none => rw [hr] at h; cases h
      | some r =>
        rw [hr] at h
        cases h
        obtain ⟨pre, post, h1, h2, h3⟩ := ih hr
        refine ⟨x :: pre, post, by simp [h1], ?_, by simp [h3]⟩
        intro hm
        rcases List.mem_cons.1 hm with e | e
        · exact hx e.symm
        · exact h2 e

/-- A returning `field = insert_type_cast_before(s, input, dt)` is one `cast` step. -/
theorem cast_before_step (field : StmtId → StmtKind → StmtKind)
    (hf1 : ∀ v k, (field v k).skeleton = k.skeleton)
    {ir ir1 : IR} {s input : StmtId} {x xi : Stmt} {dt : DataType}
    (h : cast_before s input dt field ir = .ok ir1)
    (hx : ir.stmts[s]? = some x) (hi : ir.stmts[input]? = some xi)
    (hin : input ∈ x.kind.operands)
    (hf2 : ∀ v, ∀ o ∈ (field v x.kind).operands, o = v ∨ o ∈ x.kind.operands) :
    Step s ir ir1 := by
  obtain ⟨sa, b, l, l', -, hsa, hp, hb, hins, rfl⟩ := (cast_before_iff _ _ _ _ _ _).1 h
  obtain ⟨pre, post, rfl, hpre, rfl⟩ := insert_before_some hins
  exact Step.cast ir x xi sa s input dt b pre post _ field hx hin hi hsa hp hb hpre
    (Or.inl ⟨rfl, rfl⟩) (hf1 _ _) (hf2 _)

theorem cast_before_if_steps (field : StmtId → StmtKind → StmtKind)
    (hf1 : ∀ v k, (field v k).skeleton = k.skeleton)
    {ir ir1 : IR} {s input : StmtId} {x xi : Stmt} {dt : DataType} {c : Prop} [Decidable c]
    (h : cast_before_if c s input dt field ir = .ok ir1)
    (hx : ir.stmts[s]? = some x) (hi : ir.stmts[input]? = some xi)
    (hin : input ∈ x.kind.operands)
    (hf2 : ∀ v, ∀ o ∈ (field v x.kind).operands, o = v ∨ o ∈ x.kind.operands) :
    Steps s ir ir1 := by
  unfold cast_before_if at h
  split at h
  · exact Steps_single (cast_before_step field hf1 h hx hi hin hf2)
  · cases h
    exact Steps_refl _ _

theorem operands_set_lhs (v : StmtId) (k : StmtKind) :
    ∀ o ∈ (StmtKind.set_lhs v k).operands, o = v ∨ o ∈ k.operands := by
  intro o ho
  cases k <;> simp [StmtKind.set_lhs, StmtKind.operands] at ho ⊢ <;> tauto

theorem operands_set_rhs (v : StmtId) (k : StmtKind) :
    ∀ o ∈ (StmtKind.set_rhs v k).operands, o = v ∨ o ∈ k.operands := by
  intro o ho
  cases k <;> simp [StmtKind.set_rhs, StmtKind.operands] at ho ⊢ <;> tauto

theorem operands_set_op2 (v : StmtId) (k : StmtKind) :
    ∀ o ∈ (StmtKind.set_op2 v k).operands, o = v ∨ o ∈ k.operands := by
  intro o ho
  cases k <;> simp [StmtKind.set_op2, StmtKind.operands] at ho ⊢ <;> tauto

theorem operands_set_op3 (v : StmtId) (k : StmtKind) :
    ∀ o ∈ (StmtKind.set_op3 v k).operands, o = v ∨ o ∈ k.operands := by
  intro o ho
  cases k <;> simp [StmtKind.set_op3, StmtKind.operands] at ho ⊢ <;> tauto

theorem operands_set_data (v : StmtId) (k : StmtKind) :
    ∀ o ∈ (StmtKind.set_data v k).operands, o = v ∨ o ∈ k.operands := by
  intro o ho
  cases k <;> simp [StmtKind.set_data, StmtKind.operands] at ho ⊢ <;> tauto

theorem operands_set_val (v : StmtId) (k : StmtKind) :
    ∀ o ∈ (StmtKind.set_val v k).operands, o = v ∨ o ∈ k.operands := by
  intro o ho
  cases k <;> simp [StmtKind.set_val, StmtKind.operands] at ho ⊢ <;> tauto

/-- A returning coercion of the lhs is at most one `cast` step. -/
theorem coerce_lhs_steps {pred : DataType → Bool} {dt : DataType} {s : StmtId} {ir ir1 : IR}
    (h : coerce_lhs pred dt s ir = .ok ir1) : Steps s ir ir1 := by
  unfold coerce_lhs at h
  simp only [bind, Except.bind] at h
  split at h
  · cases h
  · rename_i v hv
    obtain ⟨x, hx, hk⟩ := IR.binary_ok hv
    split at h
    · cases h
    · rename_i t ht
      obtain ⟨xi, hi, -⟩ := IR.ret_type_ok ht
      split at h
      · cases h
        exact Steps_refl _ _
      · split at h
        · cases h
        · rename_i w hw
          obtain ⟨ir2, c⟩ := w
          simp only [pure, Except.pure, Except.ok.injEq] at h
          subst h
          unfold cast at hw
          obtain ⟨sa, b, bl, bl', hc, -, hsa, hp, hb, hins, hir⟩ :=
            (insert_type_cast_after_iff _ _ _ _ _ _).1 hw
          subst hc hir
          obtain ⟨pre, post, rfl, hpre, rfl⟩ := insert_after_some hins
          exact Steps_single (Step.cast ir x xi sa _ _ dt b pre post _ StmtKind.set_lhs hx
            (by rw [hk]; simp [StmtKind.operands]) hi hsa hp hb hpre (Or.inr ⟨rfl, rfl⟩)
            (skeleton_set_lhs _ _) (operands_set_lhs _ _))

/-- A returning coercion of the rhs is at most one `cast` step. -/
theorem coerce_rhs_steps {pred : DataType → Bool} {dt : DataType} {s : StmtId} {ir ir1 : IR}
    (h : coerce_rhs pred dt s ir = .ok ir1) : Steps s ir ir1 := by
  unfold coerce_rhs at h
  simp only [bind, Except.bind] at h
  split at h
  · cases h
  · rename_i v hv
    obtain ⟨x, hx, hk⟩ := IR.binary_ok hv
    split at h
    · cases h
    · rename_i t ht
      obtain ⟨xi, hi, -⟩ := IR.ret_type_ok ht
      split at h
      · cases h
        exact Steps_refl _ _
      · split at h
        · cases h
        · rename_i w hw
          obtain ⟨ir2, c⟩ := w
          simp only [pure, Except.pure, Except.ok.injEq] at h
          subst h
          unfold cast at hw
          obtain ⟨sa, b, bl, bl', hc, -, hsa, hp, hb, hins, hir⟩ :=
            (insert_type_cast_after_iff _ _ _ _ _ _).1 hw
          subst hc hir
          obtain ⟨pre, post, rfl, hpre, rfl⟩ := insert_after_some hins
          exact Steps_single (Step.cast ir x xi sa _ _ dt b pre post _ StmtKind.set_rhs hx
            (by rw [hk]; simp [StmtKind.operands]) hi hsa hp hb hpre (Or.inr ⟨rfl, rfl⟩)
            (skeleton_set_rhs _ _) (operands_set_rhs _ _))
theorem Reaches_bind_steps {s : StmtId} {ir : IR} {m : Except Abort IR}
    {f : IR → Except Abort IR} (hm : NoFatal m)
    (hf : ∀ ir1, m = .ok ir1 → Steps s ir ir1 ∧ Reaches s ir1 (f ir1)) :
    Reaches s ir (m >>= f) :=
  Reaches_bind hm (fun ir1 h1 => Reaches_from (hf ir1 h1).1 (hf ir1 h1).2)

theorem Steps_error (s : StmtId) (ir : IR) (w1 w2 : Warning) :
    Steps s ir ((ir.warn w1).warn w2) :=
  Steps_trans (Steps_warn s ir w1) (Steps_warn s _ w2)

theorem lower_steps {pred : DataType → Bool} {dt : DataType} {s : StmtId} {ir ir1 ir2 : IR}
    {x : Stmt} {op : BinaryOpType} {l r : StmtId}
    (h1 : coerce_lhs pred dt s ir = .ok ir1) (h2 : coerce_rhs pred dt s ir1 = .ok ir2)
    (hs : ir.stmts[s]? = some x) (hk : x.kind = .BinaryOpStmt op l r)
    (hop : lowered op = .div) :
    Steps s ir (ir2.set_op_type s .div) := by
  obtain ⟨l1, hs1, -, -⟩ := coerce_lhs_inv h1 hs hk
  obtain ⟨r1, hs2, -, -⟩ := coerce_rhs_inv h2 hs1 rfl
  exact Steps_then (Steps_trans (coerce_lhs_steps h1) (coerce_rhs_steps h2))
    (Step.lower ir2 _ op l1 r1 hs2 rfl hop)

theorem lower_floordiv_steps {cfg : Config} {s : StmtId} {ir ir1 : IR}
    (h : lower_floordiv cfg s ir = .ok ir1) : Steps s ir ir1 := by
  unfold lower_floordiv at h
  simp only [bind, Except.bind] at h
  split at h
  · cases h
  · rename_i v hv
    obtain ⟨x, hx, hk⟩ := IR.binary_ok hv
    split at h
    · rename_i hop
      split at h
      · cases h
      · rename_i ira h1
        split at h
        · cases h
        · rename_i irb h2
          simp only [pure, Except.pure, Except.ok.injEq] at h
          subst h
          exact lower_steps h1 h2 hx hk (by rw [hop]; rfl)
    · cases h
      exact Steps_refl _ _

theorem lower_truediv_steps {cfg : Config} {s : StmtId} {ir ir1 : IR}
    (h : lower_truediv cfg s ir = .ok ir1) : Steps s ir ir1 := by
  unfold lower_truediv at h
  simp only [bind, Except.bind] at h
  split at h
  · cases h
  · rename_i v hv
    obtain ⟨x, hx, hk⟩ := IR.binary_ok hv
    split at h
    · rename_i hop
      split at h
      · cases h
      · rename_i ira h1
        split at h
        · cases h
        · rename_i irb h2
          simp only [pure, Except.pure, Except.ok.injEq] at h
          subst h
          exact lower_steps h1 h2 hx hk (by rw [hop]; rfl)
    · cases h
      exact Steps_refl _ _

theorem promote_steps {cfg : Config} {s : StmtId} {ir ir3 : IR}
    (h : promote cfg s ir = .ok ir3) : Steps s ir ir3 := by
  unfold promote at h
  simp only [bind, Except.bind] at h
  split at h
  · cases h
  · rename_i v hv
    obtain ⟨x, hs, hk⟩ := IR.binary_ok hv
    split at h
    · cases h
    · rename_i lt hlt
      obtain ⟨xl, hl, rfl⟩ := IR.ret_type_ok hlt
      split at h
      · cases h
      · rename_i rt hrt
        obtain ⟨xr, hr, rfl⟩ := IR.ret_type_ok hrt
        split at h
        · split at h
          · cases h
          · rename_i ir1 h1
            have st1 := cast_before_if_steps StmtKind.set_lhs skeleton_set_lhs h1 hs hl
              (by rw [hk]; simp [StmtKind.operands]) (fun v => operands_set_lhs v _)
            split at h
            · cases h
            · rename_i v1 hv1
              obtain ⟨x1, hs1, hk1⟩ := IR.binary_ok hv1
              split at h
              · cases h
              · rename_i rt1 hrt1
                obtain ⟨xr1, hr1, -⟩ := IR.ret_type_ok hrt1
                exact Steps_trans st1 (cast_before_if_steps StmtKind.set_rhs skeleton_set_rhs h hs1
                  hr1 (by rw [hk1]; simp [StmtKind.operands]) (fun v => operands_set_rhs v _))
        · cases h
          exact Steps_refl _ _

theorem check_and_assign_reaches (s : StmtId) (ir : IR) :
    Reaches s ir (check_and_assign s ir) := by
  unfold check_and_assign
  refine Reaches_bind (IR.binary_nofatal _ _) (fun v _ => ?_)
  refine Reaches_bind (IR.ret_type_nofatal _ _) (fun lt _ => ?_)
  refine Reaches_bind (IR.ret_type_nofatal _ _) (fun rt _ => ?_)
  dsimp only
  split
  · exact Reaches_fatal (Steps_error _ _ _ _)
  · split
    · exact Reaches_fatal (Steps_error _ _ _ _)
    · split
      · exact Reaches_pure (Steps_set_ret_type _ _ _ _)
      · exact Reaches_pure (Steps_set_ret_type _ _ _ _)

theorem visit_BinaryOpStmt_reaches (cfg : Config) (s : StmtId) (ir : IR) :
    Reaches s ir (visit_BinaryOpStmt cfg s ir) := by
  unfold visit_BinaryOpStmt
  refine Reaches_bind (IR.binary_nofatal _ _) (fun v _ => ?_)
  refine Reaches_bind (IR.ret_type_nofatal _ _) (fun lt _ => ?_)
  refine Reaches_bind (IR.ret_type_nofatal _ _) (fun rt _ => ?_)
  split
  · exact Reaches_fatal (Steps_error _ _ _ _)
  · refine Reaches_bind_steps (lower_floordiv_nofatal _ _ _)
      (fun ir1 h1 => ⟨lower_floordiv_steps h1, ?_⟩)
    refine Reaches_bind_steps (lower_truediv_nofatal _ _ _)
      (fun ir2 h2 => ⟨lower_truediv_steps h2, ?_⟩)
    refine Reaches_bind_steps (promote_nofatal _ _ _)
      (fun ir3 h3 => ⟨promote_steps h3, ?_⟩)
    exact check_and_assign_reaches s ir3
theorem IR.ternary_ok {ir : IR} {s : StmtId} {v : TernaryOpType × StmtId × StmtId × StmtId}
    (h : ir.ternary s = .ok v) :
    ∃ x, ir.stmts[s]? = some x ∧ x.kind = .TernaryOpStmt v.1 v.2.1 v.2.2.1 v.2.2.2 := by
  unfold IR.ternary at h
  split at h
  · rename_i x hx
    split at h
    · rename_i op a b c hk
      cases h
      exact ⟨x, hx, hk⟩
    · cases h
  · cases h

theorem visit_TernaryOpStmt_reaches (cfg : Config) (s : StmtId) (ir : IR) :
    Reaches s ir (visit_TernaryOpStmt cfg s ir) := by
  unfold visit_TernaryOpStmt
  refine Reaches_bind (IR.ternary_nofatal _ _) (fun v hv => ?_)
  obtain ⟨x, hx, hk⟩ := IR.ternary_ok hv
  obtain ⟨op, op1, op2, op3⟩ := v
  dsimp only at hk ⊢
  split
  · refine Reaches_bind (IR.ret_type_nofatal _ _) (fun t2 ht2 => ?_)
    obtain ⟨x2, h2, -⟩ := IR.ret_type_ok ht2
    refine Reaches_bind (IR.ret_type_nofatal _ _) (fun t3 _ => ?_)
    dsimp only
    refine Reaches_bind (IR.ret_type_nofatal _ _) (fun t1 _ => ?_)
    split
    · exact Reaches_fatal (Steps_refl _ _)
    · split
      · exact Reaches_fatal (Steps_refl _ _)
      · split
        · exact Reaches_fatal (Steps_refl _ _)
        · refine Reaches_bind_steps (cast_before_if_nofatal _ _ _ _ _ _) (fun ir1 h1 =>
            ⟨cast_before_if_steps StmtKind.set_op2 skeleton_set_op2 h1 hx h2
              (by rw [hk]; simp [StmtKind.operands]) (fun v => operands_set_op2 v _), ?_⟩)
          refine Reaches_bind (IR.ternary_nofatal _ _) (fun v1 hv1 => ?_)
          obtain ⟨x1, hx1, hk1⟩ := IR.ternary_ok hv1
          obtain ⟨op', op1', op2', op3'⟩ := v1
          dsimp only at hk1 ⊢
          refine Reaches_bind (IR.ret_type_nofatal _ _) (fun t3' ht3' => ?_)
          obtain ⟨x3, h3, -⟩ := IR.ret_type_ok ht3'
          refine Reaches_bind_steps (cast_before_if_nofatal _ _ _ _ _ _) (fun ir2 h2' =>
            ⟨cast_before_if_steps StmtKind.set_op3 skeleton_set_op3 h2' hx1 h3
              (by rw [hk1]; simp [StmtKind.operands]) (fun v => operands_set_op3 v _), ?_⟩)
          refine Reaches_bind (IR.ternary_nofatal _ _) (fun v2 _ => ?_)
          refine Reaches_bind (IR.ret_type_nofatal _ _) (fun t1' _ => ?_)
          exact Reaches_pure (Steps_set_ret_type _ _ _ _)
  · exact Reaches_fatal (Steps_refl _ _)

theorem visit_AtomicOpStmt_reaches (s : StmtId) (ir : IR) :
    Reaches s ir (visit_AtomicOpStmt s ir) := by
  unfold visit_AtomicOpStmt
  refine Reaches_bind (IR.deref_nofatal _ _) (fun x hx => ?_)
  have hx := IR.deref_ok hx
  split
  · rename_i dest val hk
    split
    · exact Reaches_fatal (Steps_refl _ _)
    · refine Reaches_bind (IR.ret_type_nofatal _ _) (fun vt hvt => ?_)
      obtain ⟨xv, hv, -⟩ := IR.ret_type_ok hvt
      refine Reaches_bind (IR.ret_type_nofatal _ _) (fun dt _ => ?_)
      split
      · dsimp only
        refine Reaches_from (Steps_warn s ir (.atomic_precision vt.data_type dt.data_type)) ?_
        refine Reaches_of_nofatal (cast_before_nofatal _ _ _ _ _) (fun st h => ?_)
        exact Steps_single (cast_before_step StmtKind.set_val skeleton_set_val h
          (by simpa [IR.warn] using hx) (by simpa [IR.warn] using hv)
          (by rw [hk]; simp [StmtKind.operands]) (fun v => operands_set_val v _))
      · exact Reaches_pure (Steps_refl _ _)
  · exact Reaches_invalid _ _

theorem visit_LocalLoadStmt_reaches (s : StmtId) (ir : IR) :
    Reaches s ir (visit_LocalLoadStmt s ir) := by
  unfold visit_LocalLoadStmt
  refine Reaches_bind (IR.deref_nofatal _ _) (fun x _ => ?_)
  split
  · split
    · exact Reaches_fatal (Steps_refl _ _)
    · split
      · exact Reaches_invalid _ _
      · refine Reaches_bind (IR.ret_type_nofatal _ _) (fun t _ => ?_)
        exact Reaches_pure (Steps_set_ret_type _ _ _ _)
  · exact Reaches_invalid _ _

theorem Steps_set_ret_type_if (s : StmtId) (ir : IR) (c : Prop) [Decidable c] (t : StmtId)
    (T : VectorType) : Steps s ir (if c then ir.set_ret_type t T else ir) := by
  split
  · exact Steps_set_ret_type _ _ _ _
  · exact Steps_refl _ _

theorem if_set_ret_type_get (ir : IR) (c : Prop) [Decidable c] (t : StmtId) (T : VectorType)
    {u : StmtId} {y : Stmt} (h : ir.stmts[u]? = some y) :
    ∃ y', (if c then ir.set_ret_type t T else ir).stmts[u]? = some y' ∧ y'.kind = y.kind := by
  split
  · rw [IR.set_ret_type_get]
    split
    · rw [h]; exact ⟨_, rfl, rfl⟩
    · exact ⟨y, h, rfl⟩
  · exact ⟨y, h, rfl⟩

theorem visit_LocalStoreStmt_reaches (cfg : Config) (s : StmtId) (ir : IR) :
    Reaches s ir (visit_LocalStoreStmt cfg s ir) := by
  unfold visit_LocalStoreStmt
  refine Reaches_bind (IR.deref_nofatal _ _) (fun x hx => ?_)
  have hx := IR.deref_ok hx
  split
  · rename_i ptr data hk
    refine Reaches_bind (IR.ret_type_nofatal _ _) (fun pt _ => ?_)
    refine Reaches_bind (IR.ret_type_nofatal _ _) (fun dt hdt => ?_)
    obtain ⟨xd, hd, -⟩ := IR.ret_type_ok hdt
    dsimp only
    refine Reaches_from (Steps_set_ret_type_if s ir (pt.data_type = .unknown) ptr dt) ?_
    obtain ⟨x1, hx1, hk1⟩ := if_set_ret_type_get ir (pt.data_type = .unknown) ptr dt hx
    obtain ⟨xd1, hd1, -⟩ := if_set_ret_type_get ir (pt.data_type = .unknown) ptr dt hd
    refine Reaches_bind (IR.ret_type_nofatal _ _) (fun pt1 _ => ?_)
    refine Reaches_bind (IR.ret_type_nofatal _ _) (fun dt1 _ => ?_)
    refine Reaches_bind_steps (cast_before_if_nofatal _ _ _ _ _ _) (fun ir1 h1 =>
      ⟨cast_before_if_steps StmtKind.set_data skeleton_set_data h1 hx1 hd1
        (by rw [hk1, hk]; simp [StmtKind.operands]) (fun v => operands_set_data v _), ?_⟩)
    refine Reaches_bind (IR.ret_type_nofatal _ _) (fun pt2 _ => ?_)
    dsimp only
    refine Reaches_from (Steps_warn_if s ir1
      (pt2.data_type ≠ cfg.promoted_type pt1.data_type dt1.data_type)
      (.local_store_precision s)) ?_
    refine Reaches_bind (IR.ret_type_nofatal _ _) (fun pt3 _ => ?_)
    exact Reaches_pure (Steps_set_ret_type _ _ _ _)
  · exact Reaches_invalid _ _

theorem visit_GlobalLoadStmt_reaches (s : StmtId) (ir : IR) :
    Reaches s ir (visit_GlobalLoadStmt s ir) := by
  unfold visit_GlobalLoadStmt
  refine Reaches_bind (IR.deref_nofatal _ _) (fun x _ => ?_)
  split
  · refine Reaches_bind (IR.ret_type_nofatal _ _) (fun t _ => ?_)
    exact Reaches_pure (Steps_set_ret_type _ _ _ _)
  · exact Reaches_invalid _ _

theorem visit_SNodeOpStmt_reaches (s : StmtId) (ir : IR) :
    Reaches s ir (visit_SNodeOpStmt s ir) := by
  unfold visit_SNodeOpStmt
  refine Reaches_bind (IR.deref_nofatal _ _) (fun x _ => ?_)
  split
  · exact Reaches_pure (Steps_set_ret_type _ _ _ _)
  · exact Reaches_invalid _ _

theorem visit_LoopIndexStmt_reaches (s : StmtId) (ir : IR) :
    Reaches s ir (visit_LoopIndexStmt s ir) := by
  unfold visit_LoopIndexStmt
  refine Reaches_bind (IR.deref_nofatal _ _) (fun x _ => ?_)
  split
  · exact Reaches_pure (Steps_set_ret_type _ _ _ _)
  · exact Reaches_invalid _ _

theorem visit_GetChStmt_reaches (s : StmtId) (ir : IR) :
    Reaches s ir (visit_GetChStmt s ir) := by
  unfold visit_GetChStmt
  refine Reaches_bind (IR.deref_nofatal _ _) (fun x _ => ?_)
  split
  · split
    · exact Reaches_invalid _ _
    · exact Reaches_pure (Steps_set_ret_type _ _ _ _)
  · exact Reaches_invalid _ _

theorem visit_GlobalStoreStmt_reaches (cfg : Config) (s : StmtId) (ir : IR) :
    Reaches s ir (visit_GlobalStoreStmt cfg s ir) := by
  unfold visit_GlobalStoreStmt
  refine Reaches_bind (IR.deref_nofatal _ _) (fun x hx => ?_)
  have hx := IR.deref_ok hx
  split
  · rename_i ptr data hk
    refine Reaches_bind (IR.ret_type_nofatal _ _) (fun pt _ => ?_)
    refine Reaches_bind (IR.ret_type_nofatal _ _) (fun dt hdt => ?_)
    obtain ⟨xd, hd, -⟩ := IR.ret_type_ok hdt
    dsimp only
    refine Reaches_bind_steps (cast_before_if_nofatal _ _ _ _ _ _) (fun ir1 h1 =>
      ⟨cast_before_if_steps StmtKind.set_data skeleton_set_data h1 hx hd
        (by rw [hk]; simp [StmtKind.operands]) (fun v => operands_set_data v _), ?_⟩)
    refine Reaches_bind (IR.ret_type_nofatal _ _) (fun pt2 _ => ?_)
    dsimp only
    refine Reaches_from (Steps_warn_if s ir1
      (pt2.data_type ≠ cfg.promoted_type pt.data_type dt.data_type)
      (.global_store_precision pt2.data_type dt.data_type)) ?_
    refine Reaches_bind (IR.ret_type_nofatal _ _) (fun pt3 _ => ?_)
    exact Reaches_pure (Steps_set_ret_type _ _ _ _)
  · exact Reaches_invalid _ _

theorem unary_checks_reaches (s : StmtId) (ir : IR) (op : UnaryOpType) (operand : StmtId) :
    Reaches s ir (do
      let t ← ir.ret_type operand
      if is_trigonometric op && !is_real t.data_type then
        fatal ir
      else
        let t ← ir.ret_type operand
        if (op = .floor || op = .ceil) && !is_real t.data_type then
          fatal ir
        else
          pure ir) := by
  refine Reaches_bind (IR.ret_type_nofatal _ _) (fun t1 _ => ?_)
  split
  · exact Reaches_fatal (Steps_refl _ _)
  · refine Reaches_bind (IR.ret_type_nofatal _ _) (fun t2 _ => ?_)
    split
    · exact Reaches_fatal (Steps_refl _ _)
    · exact Reaches_pure (Steps_refl _ _)

theorem visit_UnaryOpStmt_reaches (s : StmtId) (ir : IR) :
    Reaches s ir (visit_UnaryOpStmt s ir) := by
  unfold visit_UnaryOpStmt
  refine Reaches_bind (IR.deref_nofatal _ _) (fun x _ => ?_)
  split
  · rename_i op operand ct bv hk
    refine Reaches_bind (IR.ret_type_nofatal _ _) (fun t _ => ?_)
    dsimp only
    by_cases hc : op = .cast
    · simp only [if_pos hc]
      exact Reaches_from
        (Steps_trans (Steps_set_ret_type s ir s t) (Steps_set_data_type s _ s ct))
        (unary_checks_reaches s _ _ operand)
    · simp only [if_neg hc]
      exact Reaches_from (Steps_set_ret_type s ir s t) (unary_checks_reaches s _ op operand)
  · exact Reaches_invalid _ _

theorem visit_ElementShuffleStmt_reaches (s : StmtId) (ir : IR) :
    Reaches s ir (visit_ElementShuffleStmt s ir) := by
  unfold visit_ElementShuffleStmt
  refine Reaches_bind (IR.deref_nofatal _ _) (fun x _ => ?_)
  split
  · split
    · exact Reaches_fatal (Steps_refl _ _)
    · refine Reaches_bind (IR.ret_type_nofatal _ _) (fun t _ => ?_)
      exact Reaches_pure (Steps_set_data_type _ _ _ _)
  · exact Reaches_invalid _ _

theorem visit_RangeAssumptionStmt_reaches (s : StmtId) (ir : IR) :
    Reaches s ir (visit_RangeAssumptionStmt s ir) := by
  unfold visit_RangeAssumptionStmt
  refine Reaches_bind (IR.deref_nofatal _ _) (fun x _ => ?_)
  split
  · refine Reaches_bind (IR.ret_type_nofatal _ _) (fun t _ => ?_)
    refine Reaches_bind (IR.ret_type_nofatal _ _) (fun t' _ => ?_)
    split
    · exact Reaches_fatal (Steps_refl _ _)
    · exact Reaches_pure (Steps_set_ret_type _ _ _ _)
  · exact Reaches_invalid _ _

theorem visit_ArgLoadStmt_reaches (cfg : Config) (s : StmtId) (ir : IR) :
    Reaches s ir (visit_ArgLoadStmt cfg s ir) := by
  unfold visit_ArgLoadStmt
  refine Reaches_bind (IR.deref_nofatal _ _) (fun x _ => ?_)
  split
  · split
    · exact Reaches_fatal (Steps_refl _ _)
    · split
      · exact Reaches_invalid _ _
      · split
        · exact Reaches_fatal (Steps_refl _ _)
        · exact Reaches_pure (Steps_set_ret_type _ _ _ _)
  · exact Reaches_invalid _ _

theorem visit_ArgStoreStmt_reaches (cfg : Config) (s : StmtId) (ir : IR) :
    Reaches s ir (visit_ArgStoreStmt cfg s ir) := by
  unfold visit_ArgStoreStmt
  refine Reaches_bind (IR.deref_nofatal _ _) (fun x _ => ?_)
  split
  · split
    · exact Reaches_fatal (Steps_refl _ _)
    · split
      · exact Reaches_invalid _ _
      · dsimp only
        split
        · exact Reaches_fatal (Steps_refl _ _)
        · refine Reaches_bind (IR.ret_type_nofatal _ _) (fun t _ => ?_)
          split
          · exact Reaches_fatal (Steps_refl _ _)
          · exact Reaches_pure (Steps_set_ret_type _ _ _ _)
  · exact Reaches_invalid _ _

theorem visit_ExternalPtrStmt_reaches (s : StmtId) (ir : IR) :
    Reaches s ir (visit_ExternalPtrStmt s ir) := by
  unfold visit_ExternalPtrStmt
  refine Reaches_bind (IR.deref_nofatal _ _) (fun x _ => ?_)
  split
  · split
    · exact Reaches_invalid _ _
    · refine Reaches_bind (IR.ret_type_nofatal _ _) (fun t _ => ?_)
      exact Reaches_pure (Steps_set_ret_type _ _ _ _)
  · exact Reaches_invalid _ _

theorem mark_as_if_const_nofatal (t : StmtId) (T : VectorType) (ir : IR) :
    NoFatal (mark_as_if_const t T ir) := by
  unfold mark_as_if_const
  refine NoFatal_bind (IR.deref_nofatal _ _) (fun x _ => ?_)
  split
  · exact NoFatal_pure _
  · exact NoFatal_pure _

theorem mark_as_if_const_steps {s t : StmtId} {T : VectorType} {ir ir1 : IR}
    (h : mark_as_if_const t T ir = .ok ir1) : Steps s ir ir1 := by
  unfold mark_as_if_const at h
  simp only [bind, Except.bind] at h
  split at h
  · cases h
  · split at h
    · cases h
      exact Steps_set_ret_type _ _ _ _
    · cases h
      exact Steps_refl _ _
/-- A check that reads only: it returns, dereferences an invalid pointer, or aborts fatally
in the state it was run in. -/
theorem Reaches_bind_check {α : Type} {s : StmtId} {ir : IR} {m : Except Abort α}
    {f : α → Except Abort IR} (hm : ∀ e, m = .error e → e = .invalid ∨ e = .fatal ir)
    (hf : ∀ a, m = .ok a → Reaches s ir (f a)) : Reaches s ir (m >>= f) := by
  intro st h
  cases hma : m with
  | error e =>
    rw [hma] at h
    simp only [bind, Except.bind] at h
    rcases hm e hma with rfl | rfl
    · cases h
    · cases h
      exact Steps_refl _ _
  | ok a =>
    rw [hma] at h
    exact hf a hma st h

theorem snodes_to_pointer_abort (ir : IR) (l : List (Option SNode)) :
    ∀ e, snodes_to_pointer ir l = .error e → e = .invalid ∨ e = .fatal ir := by
  intro e h
  cases l with
  | nil =>
    cases h
    exact Or.inr rfl
  | cons p rest => cases h

theorem check_snodes_abort (ir : IR) (n : Nat) (l : List (Option SNode)) :
    ∀ e, check_snodes ir n l = .error e → e = .invalid ∨ e = .fatal ir := by
  induction l with
  | nil =>
    intro e h
    cases h
  | cons p rest ih =>
    intro e h
    cases p with
    | none =>
      cases h
      exact Or.inl rfl
    | some sn =>
      unfold check_snodes at h
      split at h
      · cases h
        exact Or.inl rfl
      · split at h
        · cases h
          exact Or.inr rfl
        · exact ih e h

theorem check_indices_abort (ir : IR) (n : Nat) (l : List StmtId) :
    ∀ e, check_indices ir n l = .error e → e = .invalid ∨ e = .fatal ir := by
  induction l with
  | nil =>
    intro e h
    cases h
  | cons i rest ih =>
    intro e h
    unfold check_indices at h
    simp only [bind, Except.bind] at h
    split at h
    · rename_i e' he'
      cases h
      exact Or.inl (IR.ret_type_nofatal _ _ _ he')
    · split at h
      · cases h
        exact Or.inr rfl
      · split at h
        · cases h
          exact Or.inr rfl
        · exact ih e h

theorem global_ptr_tail_reaches (s : StmtId) (ir : IR) (snodes : List (Option SNode))
    (indices : List StmtId) :
    Reaches s ir (do
      check_snodes ir indices.length snodes
      check_indices ir snodes.length indices
      pure ir) := by
  refine Reaches_bind_check (check_snodes_abort _ _ _) (fun _ _ => ?_)
  refine Reaches_bind_check (check_indices_abort _ _ _) (fun _ _ => ?_)
  exact Reaches_pure (Steps_refl _ _)

theorem visit_GlobalPtrStmt_reaches (s : StmtId) (ir : IR) :
    Reaches s ir (visit_GlobalPtrStmt s ir) := by
  unfold visit_GlobalPtrStmt
  refine Reaches_bind (IR.deref_nofatal _ _) (fun x _ => ?_)
  split
  · rename_i snodes indices hk
    refine Reaches_bind_check (snodes_to_pointer_abort _ _) (fun p _ => ?_)
    cases p with
    | none =>
      exact Reaches_from (Steps_warn s ir .snode_nullptr)
        (global_ptr_tail_reaches s _ snodes indices)
    | some sn =>
      exact Reaches_from (Steps_set_data_type s ir s sn.dt)
        (global_ptr_tail_reaches s _ snodes indices)
  · exact Reaches_invalid _ _
/-! ## The traversal as a sequence of moves -/

theorem Steps_trace {s : StmtId} {a b : IR} (h : Steps s a b) : Trace a b := by
  induction h with
  | refl => exact Relation.ReflTransGen.refl
  | tail _ h2 ih => exact Relation.ReflTransGen.tail ih (Move.step s _ _ h2)

theorem Trace_log (ir : IR) (s : StmtId) : Trace ir (ir.log_accept s) :=
  Relation.ReflTransGen.single (Move.log s ir)

theorem Reaches_traces {s : StmtId} {ir : IR} {m : Except Abort IR} (h : Reaches s ir m) :
    Traces ir m :=
  fun st hst => Steps_trace (h st hst)

theorem Traces_pure (ir : IR) : Traces ir (pure ir) := by
  intro st h
  cases h
  exact Relation.ReflTransGen.refl

theorem Traces_invalid (ir : IR) : Traces ir invalid := by
  intro st h
  cases h

theorem Traces_from {ir ir1 : IR} {m : Except Abort IR} (h : Trace ir ir1)
    (hm : Traces ir1 m) : Traces ir m :=
  fun st hst => Relation.ReflTransGen.trans h (hm st hst)

theorem Traces_bind {ir : IR} {m : Except Abort IR} {f : IR → Except Abort IR}
    (hm : Traces ir m) (hf : ∀ ir1, m = .ok ir1 → Traces ir1 (f ir1)) :
    Traces ir (m >>= f) := by
  intro st h
  cases hma : m with
  | error e =>
    rw [hma] at h
    simp only [bind, Except.bind] at h
    exact hm st (by rw [hma]; exact h)
  | ok a =>
    rw [hma] at h
    exact Traces_from (hm a (by rw [hma]; rfl)) (hf a hma) st h

theorem Traces_read {α : Type} {ir : IR} {m : Except Abort α} {f : α → Except Abort IR}
    (hm : NoFatal m) (hf : ∀ a, m = .ok a → Traces ir (f a)) : Traces ir (m >>= f) := by
  intro st h
  cases hma : m with
  | error e =>
    rw [hma] at h
    simp only [bind, Except.bind] at h
    rw [hm e hma] at h
    cases h
  | ok a =>
    rw [hma] at h
    exact hf a hma st h

theorem visit_stmts_traces {acc : StmtId → IR → Except Abort IR}
    (hacc : ∀ s ir, Traces ir (acc s ir)) (l : List StmtId) :
    ∀ ir, Traces ir (visit_stmts acc l ir) := by
  induction l with
  | nil => exact fun ir => Traces_pure ir
  | cons s rest ih =>
    intro ir
    unfold visit_stmts
    exact Traces_bind (hacc s ir) (fun ir1 _ => ih ir1)

theorem visit_Block_traces {acc : StmtId → IR → Except Abort IR}
    (hacc : ∀ s ir, Traces ir (acc s ir)) (b : BlockId) (ir : IR) :
    Traces ir (visit_Block acc b ir) := by
  unfold visit_Block
  split
  · exact Traces_invalid ir
  · exact visit_stmts_traces hacc _ ir

theorem visit_opt_Block_traces {acc : StmtId → IR → Except Abort IR}
    (hacc : ∀ s ir, Traces ir (acc s ir)) (b : Option BlockId) (ir : IR) :
    Traces ir (visit_opt_Block acc b ir) := by
  unfold visit_opt_Block
  split
  · exact visit_Block_traces hacc _ ir
  · exact Traces_pure ir

theorem accept_traces (cfg : Config) (fuel : Nat) :
    ∀ s ir, Traces ir (accept cfg fuel s ir) := by
  induction fuel with
  | zero =>
    intro s ir st h
    cases h
  | succ fuel ih =>
    intro s ir
    unfold accept
    refine Traces_read (IR.deref_nofatal _ _) (fun x _ => ?_)
    dsimp only
    refine Traces_from (Trace_log ir s) ?_
    split
    · exact Traces_pure _
    · exact Traces_pure _
    · exact Traces_pure _
    · exact Traces_bind (visit_opt_Block_traces ih _ _)
        (fun ir1 _ => visit_opt_Block_traces ih _ ir1)
    · exact Reaches_traces (visit_AtomicOpStmt_reaches _ _)
    · exact Reaches_traces (visit_LocalLoadStmt_reaches _ _)
    · exact Reaches_traces (visit_LocalStoreStmt_reaches _ _ _)
    · exact Reaches_traces (visit_GlobalLoadStmt_reaches _ _)
    · exact Reaches_traces (visit_SNodeOpStmt_reaches _ _)
    · exact Reaches_traces (visit_GlobalPtrStmt_reaches _ _)
    · exact Reaches_traces (visit_GlobalStoreStmt_reaches _ _ _)
    · refine Traces_bind (Reaches_traces (s := s) (Reaches_of_nofatal
        (mark_as_if_const_nofatal _ _ _) (fun st h => mark_as_if_const_steps h))) (fun ir1 _ => ?_)
      refine Traces_bind (Reaches_traces (s := s) (Reaches_of_nofatal
        (mark_as_if_const_nofatal _ _ _) (fun st h => mark_as_if_const_steps h))) (fun ir2 _ => ?_)
      exact visit_Block_traces ih _ _
    · exact visit_Block_traces ih _ _
    · exact visit_Block_traces ih _ _
    · exact Reaches_traces (visit_UnaryOpStmt_reaches _ _)
    · exact Reaches_traces (visit_BinaryOpStmt_reaches _ _ _)
    · exact Reaches_traces (visit_TernaryOpStmt_reaches _ _ _)
    · exact Reaches_traces (visit_ElementShuffleStmt_reaches _ _)
    · exact Reaches_traces (visit_RangeAssumptionStmt_reaches _ _)
    · exact Reaches_traces (visit_ArgLoadStmt_reaches _ _ _)
    · exact Reaches_traces (visit_ArgStoreStmt_reaches _ _ _)
    · exact Reaches_traces (visit_ExternalPtrStmt_reaches _ _)
    · exact Reaches_traces (visit_LoopIndexStmt_reaches _ _)
    · exact Reaches_traces (visit_GetChStmt_reaches _ _)
    · exact visit_opt_Block_traces ih _ _

theorem run_traces (cfg : Config) (fuel : Nat) (root : BlockId) (ir : IR) :
    Traces ir (run cfg fuel root ir) :=
  visit_Block_traces (accept_traces cfg fuel) root ir
/-! ## The program only grows -/

theorem Inserted_refl (P : StmtId → Prop) (l : List StmtId) : Inserted P l l := by
  induction l with
  | nil => exact Inserted.nil
  | cons a l ih => exact Inserted.keep a l l ih

theorem Inserted_mono {P Q : StmtId → Prop} (h : ∀ c, P c → Q c) {l l' : List StmtId}
    (hi : Inserted P l l') : Inserted Q l l' := by
  induction hi with
  | nil => exact Inserted.nil
  | keep a l l' _ ih => exact Inserted.keep a l l' ih
  | add c l l' hc _ ih => exact Inserted.add c l l' (h c hc) ih

theorem Inserted_trans {P : StmtId → Prop} {l1 l2 l3 : List StmtId}
    (h12 : Inserted P l1 l2) (h23 : Inserted P l2 l3) : Inserted P l1 l3 := by
  induction h23 generalizing l1 with
  | nil => exact h12
  | keep a l l' _ ih =>
    cases h12 with
    | keep _ l0 _ h0 => exact Inserted.keep a l0 l' (ih h0)
    | add _ _ _ hc h0 => exact Inserted.add a l1 l' hc (ih h0)
  | add c l l' hc _ ih => exact Inserted.add c l1 l' hc (ih h12)

theorem Inserted_sublist {P : StmtId → Prop} {l l' : List StmtId} (h : Inserted P l l') :
    l.Sublist l' := by
  induction h with
  | nil => exact List.Sublist.slnil
  | keep a l l' _ ih => exact List.Sublist.cons₂ a ih
  | add c l l' _ _ ih => exact List.Sublist.cons c ih

theorem Inserted_mem {P : StmtId → Prop} {l l' : List StmtId} (h : Inserted P l l') :
    ∀ t ∈ l', t ∈ l ∨ P t := by
  induction h with
  | nil => intro t ht; cases ht
  | keep a l l' _ ih =>
    intro t ht
    rcases List.mem_cons.1 ht with rfl | h
    · exact Or.inl (List.mem_cons_self _ _)
    · rcases ih t h with h | h
      · exact Or.inl (List.mem_cons_of_mem _ h)
      · exact Or.inr h
  | add c l l' hc _ ih =>
    intro t ht
    rcases List.mem_cons.1 ht with rfl | h
    · exact Or.inr hc
    · exact ih t h

theorem Inserted_insert {P : StmtId → Prop} (pre post : List StmtId) {c : StmtId}
    (hc : P c) : Inserted P (pre ++ post) (pre ++ c :: post) := by
  induction pre with
  | nil => exact Inserted.add c post post hc (Inserted_refl P post)
  | cons a pre ih => exact Inserted.keep a _ _ ih

theorem Grows_refl (ir : IR) : Grows ir ir :=
  ⟨Nat.le_refl _, fun _ x hx => ⟨x, hx, rfl, rfl⟩,
    fun _ _ h1 h2 => absurd (lt_of_get h2) (Nat.not_lt.2 h1),
    fun _ l hl => ⟨l, hl, Inserted_refl _ l⟩, fun _ h => h⟩

theorem Grows_trans {a b c : IR} (h1 : Grows a b) (h2 : Grows b c) : Grows a c := by
  refine ⟨Nat.le_trans h1.len h2.len, ?_, ?_, ?_, ?_⟩
  · intro t x hx
    obtain ⟨x1, hx1, hs1, hp1⟩ := h1.old t x hx
    obtain ⟨x2, hx2, hs2, hp2⟩ := h2.old t x1 hx1
    exact ⟨x2, hx2, hs2.trans hs1, hp2.trans hp1⟩
  · intro t x' ht hx'
    by_cases hb : b.stmts.length ≤ t
    · exact h2.fresh t x' hb hx'
    · have hlt : t < b.stmts.length := Nat.lt_of_not_le hb
      obtain ⟨x1, hx1⟩ : ∃ x1, b.stmts[t]? = some x1 := ⟨_, List.getElem?_eq_getElem hlt⟩
      obtain ⟨i, dt, hk⟩ := h1.fresh t x1 ht hx1
      obtain ⟨x2, hx2, hs2, -⟩ := h2.old t x1 hx1
      rw [hx'] at hx2
      cases hx2
      rw [hk] at hs2
      refine ⟨i, dt, ?_⟩
      cases hk' : x'.kind <;> rw [hk'] at hs2 <;> simp [StmtKind.skeleton] at hs2
      rw [hs2.1, hs2.2.1, hs2.2.2.1, hs2.2.2.2]
  · intro bl l hl
    obtain ⟨l1, hl1, hi1⟩ := h1.blocks bl l hl
    obtain ⟨l2, hl2, hi2⟩ := h2.blocks bl l1 hl1
    refine ⟨l2, hl2, Inserted_trans (Inserted_mono ?_ hi1) (Inserted_mono ?_ hi2)⟩
    · intro t ht
      exact ⟨ht.1, Nat.lt_of_lt_of_le ht.2 h2.len⟩
    · intro t ht
      exact ⟨Nat.le_trans h1.len ht.1, ht.2⟩
  · intro bl hl
    exact h2.blocks_none bl (h1.blocks_none bl hl)

theorem Grows_of_eq {ir ir' : IR} (hs : ir'.stmts = ir.stmts) (hb : ir'.blocks = ir.blocks) :
    Grows ir ir' := by
  refine ⟨by rw [hs], fun t x hx => ⟨x, by rw [hs]; exact hx, rfl, rfl⟩, ?_, ?_, ?_⟩
  · intro t x' h1 h2
    rw [hs] at h2
    exact absurd (lt_of_get h2) (Nat.not_lt.2 h1)
  · intro b l hl
    exact ⟨l, by rw [hb]; exact hl, Inserted_refl _ l⟩
  · intro b hl
    rw [hb]; exact hl

theorem Grows_modify (ir : IR) (s : StmtId) (f : Stmt → Stmt)
    (hf : ∀ x, ir.stmts[s]? = some x →
      (f x).kind.skeleton = x.kind.skeleton ∧ (f x).parent = x.parent) :
    Grows ir (ir.modify s f) := by
  refine ⟨by simp, ?_, ?_, ?_, ?_⟩
  · intro t x hx
    rw [IR.modify_get]
    by_cases hts : t = s
    · subst hts
      rw [if_pos rfl, hx]
      exact ⟨f x, rfl, (hf x hx).1, (hf x hx).2⟩
    · rw [if_neg hts]
      exact ⟨x, hx, rfl, rfl⟩
  · intro t x' h1 h2
    have := lt_of_get h2
    rw [IR.modify_length] at this
    exact absurd this (Nat.not_lt.2 h1)
  · intro b l hl
    exact ⟨l, by simpa using hl, Inserted_refl _ l⟩
  · intro b hl
    simpa using hl

theorem Grows_with_cast (ir : IR) (i : StmtId) (dt : DataType) (b : BlockId)
    (pre post blk : List StmtId) (hb : ir.blocks[b]? = some (pre ++ post))
    (hblk : blk = pre ++ ir.stmts.length :: post) :
    Grows ir (with_cast ir i dt b blk) := by
  subst hblk
  refine ⟨by rw [with_cast_length]; exact Nat.le_succ _, ?_, ?_, ?_, ?_⟩
  · intro t x hx
    rw [with_cast_get_old ir i dt b _ t (lt_of_get hx)]
    exact ⟨x, hx, rfl, rfl⟩
  · intro t x' h1 h2
    have hlt := lt_of_get h2
    rw [with_cast_length] at hlt
    have : t = ir.stmts.length := Nat.le_antisymm (Nat.lt_succ_iff.mp hlt) h1
    subst this
    rw [with_cast_get_new] at h2
    cases h2
    exact ⟨i, dt, rfl⟩
  · intro b' l hl
    simp only [with_cast]
    by_cases hbb : b = b'
    · subst hbb
      rw [hb] at hl
      cases hl
      rw [List.getElem?_set_self (lt_of_get hb)]
      exact ⟨_, rfl, Inserted_insert pre post ⟨Nat.le_refl _, by simp⟩⟩
    · rw [List.getElem?_set_ne hbb]
      exact ⟨l, hl, Inserted_refl _ l⟩
  · intro b' hl
    simp only [with_cast]
    by_cases hbb : b = b'
    · subst hbb
      rw [hb] at hl
      cases hl
    · rw [List.getElem?_set_ne hbb]
      exact hl
theorem Step_grows {s : StmtId} {ir ir' : IR} (h : Step s ir ir') : Grows ir ir' := by
  cases h with
  | retype t f hf =>
    exact Grows_modify ir t f (fun x _ => ⟨by rw [(hf x).1], (hf x).2⟩)
  | warn w => exact Grows_of_eq rfl rfl
  | lower x op l r hx hk hop =>
    refine Grows_modify ir s _ (fun y hy => ⟨?_, rfl⟩)
    rw [hx] at hy
    cases hy
    rw [hk]
    show StmtKind.BinaryOpStmt (lowered .div) 0 0 = StmtKind.BinaryOpStmt (lowered op) 0 0
    rw [hop]
    rfl
  | cast x xi xa anchor input dt b pre post blk field hx hin hi ha hp hb hpre hwhere hf1 hf2 =>
    have g1 : Grows ir (with_cast ir input dt b blk) := by
      rcases hwhere with ⟨-, hblk⟩ | ⟨-, hblk⟩
      · exact Grows_with_cast ir input dt b pre (anchor :: post) blk hb hblk
      · exact Grows_with_cast ir input dt b (pre ++ [anchor]) post blk
          (by rw [hb]; simp) (by rw [hblk]; simp)
    refine Grows_trans g1 (Grows_modify _ s _ (fun y hy => ⟨?_, rfl⟩))
    rw [with_cast_get_old _ _ _ _ _ _ (lt_of_get hx), hx] at hy
    cases hy
    exact hf1

theorem Move_grows {ir ir' : IR} (h : Move ir ir') : Grows ir ir' := by
  cases h with
  | step s _ _ h1 => exact Step_grows h1
  | log s => exact Grows_of_eq rfl rfl

theorem Trace_grows {ir ir' : IR} (h : Trace ir ir') : Grows ir ir' := by
  induction h with
  | refl => exact Grows_refl _
  | tail _ h2 ih => exact Grows_trans ih (Move_grows h2)
/-! ## Definition before use -/

theorem Before_iff (L : List StmtId) (a t : StmtId) :
    Before L a t ↔ ∀ pre post, L = pre ++ t :: post → a ∈ pre := by
  constructor
  · intro h pre post hL
    have h1 := h pre.length (by rw [hL]; simp)
      (by rw [hL, List.getElem?_append_right (Nat.le_refl _)]; simp)
    rw [hL] at h1
    simpa using h1
  · intro h i hi hget
    have ht : L[i] = t := by
      rw [List.getElem?_eq_getElem hi] at hget
      exact Option.some.inj hget
    apply h (L.take i) (L.drop (i + 1))
    rw [← ht]
    have := List.take_append_drop i L
    rw [List.drop_eq_getElem_cons hi] at this
    exact this.symm

theorem Before_insert {A B : List StmtId} {n o t : StmtId} (hne : t ≠ n)
    (h : Before (A ++ B) o t) : Before (A ++ n :: B) o t := by
  rw [Before_iff] at h ⊢
  intro p q hL
  rcases List.append_eq_append_iff.1 hL with ⟨a', hp, hn⟩ | ⟨c', hA, hs⟩
  · cases a' with
    | nil =>
      simp only [List.nil_append, List.cons.injEq] at hn
      exact absurd hn.1.symm hne
    | cons x a'' =>
      simp only [List.cons_append, List.cons.injEq] at hn
      obtain ⟨rfl, hB⟩ := hn
      have := h (A ++ a'') q (by rw [hB]; simp)
      rw [hp]
      simp only [List.mem_append, List.mem_cons] at this ⊢
      tauto
  · cases c' with
    | nil =>
      simp only [List.nil_append, List.cons.injEq] at hs
      exact absurd hs.1 hne
    | cons x c'' =>
      simp only [List.cons_append, List.cons.injEq] at hs
      obtain ⟨rfl, hq⟩ := hs
      exact h p (c'' ++ B) (by rw [hA]; simp)

theorem Before_new {A B : List StmtId} {n s : StmtId} (hA : s ∉ A) (hne : s ≠ n) :
    Before (A ++ n :: B) n s := by
  rw [Before_iff]
  intro p q hL
  rcases List.append_eq_append_iff.1 hL with ⟨a', hp, hn⟩ | ⟨c', hA', hs⟩
  · cases a' with
    | nil =>
      simp only [List.nil_append, List.cons.injEq] at hn
      exact absurd hn.1.symm hne
    | cons x a'' =>
      simp only [List.cons_append, List.cons.injEq] at hn
      obtain ⟨rfl, -⟩ := hn
      rw [hp]
      simp
  · cases c' with
    | nil =>
      simp only [List.nil_append, List.cons.injEq] at hs
      exact absurd hs.1 hne
    | cons x c'' =>
      simp only [List.cons_append, List.cons.injEq] at hs
      obtain ⟨rfl, -⟩ := hs
      exact absurd (by rw [hA']; simp) hA

theorem Before_at {A B : List StmtId} {n o : StmtId} (hA : n ∉ A) (hB : n ∉ B) (ho : o ∈ A) :
    Before (A ++ n :: B) o n := by
  rw [Before_iff]
  intro p q hL
  rcases List.append_eq_append_iff.1 hL with ⟨a', hp, hn⟩ | ⟨c', hA', hs⟩
  · cases a' with
    | nil =>
      rw [hp]; simpa using ho
    | cons x a'' =>
      simp only [List.cons_append, List.cons.injEq] at hn
      obtain ⟨-, hB'⟩ := hn
      exact absurd (by rw [hB']; simp) hB
  · cases c' with
    | nil =>
      simp only [List.append_nil] at hA'
      rw [← hA']; exact ho
    | cons x c'' =>
      simp only [List.cons_append, List.cons.injEq] at hs
      obtain ⟨rfl, -⟩ := hs
      exact absurd (by rw [hA']; simp) hA

theorem Before_mem {L : List StmtId} {a t : StmtId} (h : Before L a t) (ht : t ∈ L) :
    a ∈ L := by
  rw [Before_iff] at h
  obtain ⟨p, q, hL⟩ := List.append_of_mem ht
  have := h p q hL
  rw [hL]
  exact List.mem_append_left _ this

theorem Before_irrefl {L : List StmtId} {t : StmtId} (ht : t ∈ L) : ¬ Before L t t := by
  intro h
  rw [Before_iff] at h
  obtain ⟨pre, post, hL, hpre, -, -⟩ := insert_before_spec t 0 L ht
  exact hpre (h pre post hL)

theorem Before_not_mem {pre post : List StmtId} {a t : StmtId} (ha : a ∉ pre)
    (h : Before (pre ++ a :: post) a t) : t ∉ pre := by
  intro ht
  rw [Before_iff] at h
  obtain ⟨p, q, hp⟩ := List.append_of_mem ht
  have := h p (q ++ a :: post) (by rw [hp]; simp)
  exact ha (by rw [hp]; exact List.mem_append_left _ this)

theorem operands_of_modify (ir : IR) (t : StmtId) (f : Stmt → Stmt)
    (hf : ∀ x, (f x).kind = x.kind) (u : StmtId) :
    operands_of (ir.modify t f) u = operands_of ir u := by
  unfold operands_of
  rw [IR.modify_get]
  by_cases hut : u = t
  · rw [if_pos hut]
    cases h : ir.stmts[u]? with
    | none => rfl
    | some y => simp [hf]
  · rw [if_neg hut]

theorem operands_set_op_type (op : BinaryOpType) (k : StmtKind) :
    (StmtKind.set_op_type op k).operands = k.operands := by
  cases k <;> rfl
theorem operands_of_modify_kind (ir : IR) (t : StmtId) (f : Stmt → Stmt)
    (hf : ∀ x, (f x).kind.operands = x.kind.operands) (u : StmtId) :
    operands_of (ir.modify t f) u = operands_of ir u := by
  unfold operands_of
  rw [IR.modify_get]
  by_cases hut : u = t
  · rw [if_pos hut]
    cases h : ir.stmts[u]? with
    | none => rfl
    | some y => simp [hf]
  · rw [if_neg hut]

theorem BlockInv_modify {n0 : Nat} {s : StmtId} {b : BlockId} {ir : IR} {L : List StmtId}
    (t : StmtId) (f : Stmt → Stmt)
    (hf : ∀ x, (f x).kind.operands = x.kind.operands ∧ (f x).parent = x.parent)
    (inv : BlockInv n0 s b ir L) : BlockInv n0 s b (ir.modify t f) L := by
  refine ⟨by simpa using inv.blk, ?_, ?_, inv.mem, inv.casts⟩
  · intro u hu
    obtain ⟨y, hy, hp⟩ := inv.own u hu
    rw [IR.modify_get]
    by_cases hut : u = t
    · rw [if_pos hut, hy]
      exact ⟨f y, rfl, by rw [(hf y).2]; exact hp⟩
    · rw [if_neg hut]
      exact ⟨y, hy, hp⟩
  · intro u hu o ho
    rw [operands_of_modify_kind ir t f (fun x => (hf x).1)] at ho
    exact inv.dbu u hu o ho

/-- One elementary change of the visit of `s` keeps the invariant of the block of `s`. -/
theorem Step_blockInv {n0 : Nat} {s : StmtId} {b : BlockId} {ir ir' : IR} {L : List StmtId}
    (h : Step s ir ir') (inv : BlockInv n0 s b ir L) : ∃ L', BlockInv n0 s b ir' L' := by
  cases h with
  | retype t f hf =>
    exact ⟨L, BlockInv_modify t f (fun x => ⟨by rw [(hf x).1], (hf x).2⟩) inv⟩
  | warn w => exact ⟨L, inv.blk, inv.own, inv.dbu, inv.mem, inv.casts⟩
  | lower x op l r hx hk hop =>
    exact ⟨L, BlockInv_modify s _ (fun y => ⟨operands_set_op_type _ _, rfl⟩) inv⟩
  | cast x xi xa anchor input dt b' pre post blk field hx hin hi ha hp hb hpre hwhere hf1 hf2 =>
    have hslt : s < ir.stmts.length := lt_of_get hx
    have hins : input ∈ operands_of ir s := by
      unfold operands_of; rw [hx]; exact hin
    have hbis : Before L input s := inv.dbu s inv.mem input hins
    have hinL : input ∈ L := Before_mem hbis inv.mem
    have hne_is : s ≠ input := by
      rintro rfl
      exact Before_irrefl inv.mem hbis
    have hanc : anchor ∈ L := by
      rcases hwhere with ⟨h, -⟩ | ⟨h, -⟩ <;> rw [h]
      · exact inv.mem
      · exact hinL
    have hbb : b' = b := by
      obtain ⟨y, hy, hpy⟩ := inv.own anchor hanc
      rw [ha] at hy
      cases hy
      rw [hp] at hpy
      exact Option.some.inj hpy
    subst hbb
    have hL : L = pre ++ anchor :: post := by
      have := inv.blk
      rw [hb] at this
      exact (Option.some.inj this).symm
    have hvalid : ∀ t ∈ L, t < ir.stmts.length := by
      intro t ht
      obtain ⟨y, hy, -⟩ := inv.own t ht
      exact lt_of_get hy
    have hnL : ir.stmts.length ∉ L := fun h => Nat.lt_irrefl _ (hvalid _ h)
    have hsn : s ≠ ir.stmts.length := Nat.ne_of_lt hslt
    -- the statements of the new state
    have hget_old : ∀ t, t < ir.stmts.length → t ≠ s →
        ((with_cast ir input dt b' blk).assign s (field ir.stmts.length)).stmts[t]? =
          ir.stmts[t]? := by
      intro t ht hts
      rw [IR.assign_get, if_neg hts, with_cast_get_old _ _ _ _ _ _ ht]
    have hget_s : ((with_cast ir input dt b' blk).assign s (field ir.stmts.length)).stmts[s]? =
        some { x with kind := field ir.stmts.length x.kind } := by
      rw [IR.assign_get, if_pos rfl, with_cast_get_old _ _ _ _ _ _ hslt, hx]
      rfl
    have hget_n : ((with_cast ir input dt b' blk).assign s
        (field ir.stmts.length)).stmts[ir.stmts.length]? =
        some (by_value_cast input dt (cast_width ir input) b') := by
      rw [IR.assign_get, if_neg (Ne.symm hsn), with_cast_get_new]
    have hops_old : ∀ t, t ∈ L → t ≠ s →
        operands_of ((with_cast ir input dt b' blk).assign s (field ir.stmts.length)) t =
          operands_of ir t := by
      intro t ht hts
      unfold operands_of
      rw [hget_old t (hvalid t ht) hts]
    -- the new list, and the position of the new statement in it
    obtain ⟨A, B, hLAB, hblk, hsA, hinA⟩ : ∃ A B, L = A ++ B ∧
        blk = A ++ ir.stmts.length :: B ∧ s ∉ A ∧ (input ∈ A) := by
      rcases hwhere with ⟨h1, h2⟩ | ⟨h1, h2⟩
      · subst h1
        refine ⟨pre, anchor :: post, hL, h2, hpre, ?_⟩
        rw [Before_iff] at hbis
        exact hbis pre post hL
      · subst h1
        refine ⟨pre ++ [anchor], post, by rw [hL]; simp, by rw [h2]; simp, ?_, by simp⟩
        intro hm
        rcases List.mem_append.1 hm with h | h
        · exact Before_not_mem hpre (hL ▸ hbis) h
        · simp only [List.mem_singleton] at h
          exact hne_is h
    have hnA : ir.stmts.length ∉ A := fun h => hnL (by rw [hLAB]; exact List.mem_append_left _ h)
    have hnB : ir.stmts.length ∉ B := fun h => hnL (by rw [hLAB]; exact List.mem_append_right _ h)
    have hmem : ∀ t, t ∈ blk ↔ t = ir.stmts.length ∨ t ∈ L := by
      intro t
      rw [hblk, hLAB]
      simp only [List.mem_append, List.mem_cons]
      tauto
    have hnew : Before blk ir.stmts.length s := by
      rw [hblk]; exact Before_new hsA hsn
    have hlift : ∀ o t, t ∈ L → Before L o t → Before blk o t := by
      intro o t ht h
      rw [hblk]
      rw [hLAB] at h
      exact Before_insert (fun e => hnL (e ▸ ht)) h
    refine ⟨blk, ?_, ?_, ?_, ?_, ?_⟩
    · unfold IR.assign
      simp only [IR.modify_blocks, with_cast]
      exact List.getElem?_set_self (lt_of_get hb)
    · intro t ht
      rcases (hmem t).1 ht with rfl | htL
      · exact ⟨_, hget_n, rfl⟩
      · by_cases hts : t = s
        · subst hts
          obtain ⟨y, hy, hpy⟩ := inv.own t htL
          rw [hx] at hy
          cases hy
          exact ⟨_, hget_s, hpy⟩
        · obtain ⟨y, hy, hpy⟩ := inv.own t htL
          exact ⟨y, by rw [hget_old t (hvalid t htL) hts]; exact hy, hpy⟩
    · intro t ht o ho
      rcases (hmem t).1 ht with rfl | htL
      · unfold operands_of at ho
        rw [hget_n] at ho
        simp only [by_value_cast, StmtKind.operands, List.mem_singleton] at ho
        subst ho
        rw [hblk]
        exact Before_at hnA hnB hinA
      · by_cases hts : t = s
        · subst hts
          unfold operands_of at ho
          rw [hget_s] at ho
          rcases hf2 o ho with rfl | hold
          · exact hnew
          · exact hlift o t htL (inv.dbu t htL o (by unfold operands_of; rw [hx]; exact hold))
        · rw [hops_old t htL hts] at ho
          exact hlift o t htL (inv.dbu t htL o ho)
    · exact (hmem s).2 (Or.inr inv.mem)
    · intro c hc hn0
      rcases (hmem c).1 hc with rfl | hcL
      · exact hnew
      · exact hlift c s inv.mem (inv.casts c hcL hn0)

theorem Steps_blockInv {n0 : Nat} {s : StmtId} {b : BlockId} {ir ir' : IR} {L : List StmtId}
    (h : Steps s ir ir') (inv : BlockInv n0 s b ir L) : ∃ L', BlockInv n0 s b ir' L' := by
  induction h with
  | refl => exact ⟨L, inv⟩
  | tail _ h2 ih =>
    obtain ⟨L1, inv1⟩ := ih
    exact Step_blockInv h2 inv1

theorem Inserted_mono_mem {P Q : StmtId → Prop} {l l' : List StmtId}
    (hi : Inserted P l l') (h : ∀ c ∈ l', P c → Q c) : Inserted Q l l' := by
  induction hi with
  | nil => exact Inserted.nil
  | keep a l l' _ ih =>
    exact Inserted.keep a l l' (ih (fun c hc => h c (List.mem_cons_of_mem _ hc)))
  | add c l l' hc _ ih =>
    exact Inserted.add c l l' (h c (List.mem_cons_self _ _) hc)
      (ih (fun c' hc' => h c' (List.mem_cons_of_mem _ hc')))

theorem Steps_grows {s : StmtId} {ir ir' : IR} (h : Steps s ir ir') : Grows ir ir' :=
  Trace_grows (Steps_trace h)

/-! ## The order of dispatch -/

theorem owners_entered_append (ir : IR) (E1 E2 : List Event)
    (h : owners_entered ir (E1 ++ E2)) : owners_entered ir E2 := by
  induction E1 with
  | nil => exact h
  | cons e es ih =>
    cases e with
    | enter b => exact ih h
    | visit s => exact ih h.2

/-- The owners of the statements to dispatch stay entered when, for every old statement, each
anchor of the new state is an anchor of the old state with the same owner, or is owned by a
block that is not entered any more. -/
theorem owners_entered_mono {ir ir' : IR} {F : List Event}
    (H : ∀ t a b, Event.visit t ∈ F → a ∈ t :: operands_of ir' t → parent_of ir' a = some b →
      (a ∈ t :: operands_of ir t ∧ parent_of ir a = some b) ∨ Event.enter b ∉ F)
    (es : List Event) (hsub : ∀ e ∈ es, e ∈ F) (h : owners_entered ir es) :
    owners_entered ir' es := by
  induction es with
  | nil => trivial
  | cons e es ih =>
    have hsub' : ∀ e' ∈ es, e' ∈ F := fun e' he' => hsub e' (List.mem_cons_of_mem _ he')
    cases e with
    | enter b => exact ih hsub' h
    | visit t =>
      refine ⟨?_, ih hsub' h.2⟩
      intro a ha b hb
      rcases H t a b (hsub _ (List.mem_cons_self _ _)) ha hb with ⟨ha', hb'⟩ | hn
      · exact h.1 a ha' b hb'
      · exact fun hm => hn (hsub' _ hm)

theorem parent_of_modify (ir : IR) (t : StmtId) (f : Stmt → Stmt)
    (hf : ∀ x, (f x).parent = x.parent) (u : StmtId) :
    parent_of (ir.modify t f) u = parent_of ir u := by
  unfold parent_of
  rw [IR.modify_get]
  by_cases hut : u = t
  · rw [if_pos hut]
    cases h : ir.stmts[u]? with
    | none => rfl
    | some y => simp [hf]
  · rw [if_neg hut]

theorem LogFresh_refl (ir : IR) : LogFresh ir ir :=
  ⟨Nat.le_refl _, by simp⟩

theorem LogFresh_of_eq {ir ir' : IR} (hs : ir'.stmts.length = ir.stmts.length)
    (ha : ir'.accepted = ir.accepted) : LogFresh ir ir' :=
  ⟨by rw [hs], by rw [hs, ha]; simp⟩

theorem LogFresh_trans {a b c : IR} (h1 : LogFresh a b) (h2 : LogFresh b c) :
    LogFresh a c := by
  refine ⟨Nat.le_trans h1.1 h2.1, ?_⟩
  rw [h2.2, h1.2, List.append_assoc]
  congr 1
  obtain ⟨k1, hk1⟩ := Nat.le.dest h1.1
  obtain ⟨k2, hk2⟩ := Nat.le.dest h2.1
  have e1 : b.stmts.length - a.stmts.length = k1 := by omega
  have e2 : c.stmts.length - b.stmts.length = k2 := by omega
  have e3 : c.stmts.length - a.stmts.length = k2 + k1 := by omega
  rw [e1, e2, e3, ← hk1]
  exact List.range'_append_1 _ _ _

/-- What one elementary change of the visit of `s` keeps, when the owners of `s` and of its
operands are not entered later. -/
theorem Step_traversal {s : StmtId} {ir0 ir ir' : IR} {fut : List Event}
    (h : Step s ir ir') (inv : TraversalInv ir0 ir fut)
    (hanch : ∀ a ∈ s :: operands_of ir s, ∀ b, parent_of ir a = some b →
      Event.enter b ∉ fut) :
    TraversalInv ir0 ir' fut ∧
    (∀ a ∈ s :: operands_of ir' s, ∀ b, parent_of ir' a = some b → Event.enter b ∉ fut) ∧
    LogFresh ir ir' := by
  have g' : Grows ir0 ir' := Grows_trans inv.g (Step_grows h)
  cases h with
  | retype t f hf =>
    have ho : ∀ u, operands_of (ir.modify t f) u = operands_of ir u :=
      operands_of_modify ir t f (fun x => (hf x).1)
    have hp : ∀ u, parent_of (ir.modify t f) u = parent_of ir u :=
      parent_of_modify ir t f (fun x => (hf x).2)
    refine ⟨⟨g', by simpa using inv.clean, ?_, inv.old⟩, ?_, LogFresh_of_eq (by simp) (by simp)⟩
    · refine owners_entered_mono ?_ fut (fun _ h => h) inv.wf
      intro u a b _ ha hb
      rw [ho] at ha
      rw [hp] at hb
      exact Or.inl ⟨ha, hb⟩
    · intro a ha b hb
      rw [ho] at ha
      rw [hp] at hb
      exact hanch a ha b hb
  | warn w =>
    refine ⟨⟨g', inv.clean, ?_, inv.old⟩, hanch, LogFresh_of_eq rfl rfl⟩
    exact @owners_entered_mono ir (ir.warn w) fut (fun _ _ _ _ ha hb => Or.inl ⟨ha, hb⟩) fut
      (fun _ h => h) inv.wf
  | lower x op l r hx hk hop =>
    have ho : ∀ u, operands_of (ir.set_op_type s .div) u = operands_of ir u :=
      operands_of_modify_kind ir s _ (fun y => operands_set_op_type _ _)
    have hp : ∀ u, parent_of (ir.set_op_type s .div) u = parent_of ir u :=
      parent_of_modify ir s _ (fun _ => rfl)
    refine ⟨⟨g', ?_, ?_, inv.old⟩, ?_, LogFresh_of_eq ?_ ?_⟩
    · intro b hb
      unfold IR.set_op_type IR.assign
      rw [IR.modify_blocks]
      exact inv.clean b hb
    · refine owners_entered_mono ?_ fut (fun _ h => h) inv.wf
      intro u a b _ ha hb
      rw [ho] at ha
      rw [hp] at hb
      exact Or.inl ⟨ha, hb⟩
    · intro a ha b hb
      rw [ho] at ha
      rw [hp] at hb
      exact hanch a ha b hb
    · unfold IR.set_op_type IR.assign
      simp
    · unfold IR.set_op_type IR.assign
      simp
  | cast x xi xa anchor input dt b' pre post blk field hx hin hi ha hp hb hpre hwhere hf1 hf2 =>
    have hslt : s < ir.stmts.length := lt_of_get hx
    have hsn : s ≠ ir.stmts.length := Nat.ne_of_lt hslt
    have hins : input ∈ operands_of ir s := by
      unfold operands_of; rw [hx]; exact hin
    have hanc : anchor ∈ s :: operands_of ir s := by
      rcases hwhere with ⟨h, -⟩ | ⟨h, -⟩ <;> rw [h]
      · exact List.mem_cons_self _ _
      · exact List.mem_cons_of_mem _ hins
    have hb'fut : Event.enter b' ∉ fut :=
      hanch anchor hanc b' (by unfold parent_of; rw [ha]; exact hp)
    -- the statements of the new state
    have hget_old : ∀ t, t < ir.stmts.length → t ≠ s →
        ((with_cast ir input dt b' blk).assign s (field ir.stmts.length)).stmts[t]? =
          ir.stmts[t]? := by
      intro t ht hts
      rw [IR.assign_get, if_neg hts, with_cast_get_old _ _ _ _ _ _ ht]
    have hget_s : ((with_cast ir input dt b' blk).assign s (field ir.stmts.length)).stmts[s]? =
        some { x with kind := field ir.stmts.length x.kind } := by
      rw [IR.assign_get, if_pos rfl, with_cast_get_old _ _ _ _ _ _ hslt, hx]
      rfl
    have hget_n : ((with_cast ir input dt b' blk).assign s
        (field ir.stmts.length)).stmts[ir.stmts.length]? =
        some (by_value_cast input dt (cast_width ir input) b') := by
      rw [IR.assign_get, if_neg (Ne.symm hsn), with_cast_get_new]
    have hlen : ((with_cast ir input dt b' blk).assign s (field ir.stmts.length)).stmts.length =
        ir.stmts.length + 1 := by
      rw [IR.assign_length, with_cast_length]
    have hpar : ∀ a b, a ≠ ir.stmts.length →
        parent_of ((with_cast ir input dt b' blk).assign s (field ir.stmts.length)) a = some b →
        parent_of ir a = some b := by
      intro a b han hpa
      by_cases hal : a < ir.stmts.length
      · by_cases has : a = s
        · subst has
          unfold parent_of at hpa ⊢
          rw [hget_s] at hpa
          rw [hx]
          exact hpa
        · unfold parent_of at hpa ⊢
          rw [hget_old a hal has] at hpa
          exact hpa
      · have hgt : ir.stmts.length + 1 ≤ a := by
          rcases Nat.lt_or_ge a (ir.stmts.length + 1) with h | h
          · exact absurd (Nat.le_antisymm (Nat.lt_succ_iff.mp h) (Nat.le_of_not_lt hal)) han
          · exact h
        unfold parent_of at hpa
        rw [List.getElem?_eq_none (by rw [hlen]; exact hgt)] at hpa
        cases hpa
    have hparn : parent_of ((with_cast ir input dt b' blk).assign s
        (field ir.stmts.length)) ir.stmts.length = some b' := by
      unfold parent_of
      rw [hget_n]
      rfl
    have hops : ∀ t, t < ir.stmts.length → ∀ a,
        a ∈ t :: operands_of ((with_cast ir input dt b' blk).assign s
          (field ir.stmts.length)) t →
        a = ir.stmts.length ∨ a ∈ t :: operands_of ir t := by
      intro t ht a hat
      rcases List.mem_cons.1 hat with rfl | hat
      · exact Or.inr (List.mem_cons_self _ _)
      · by_cases hts : t = s
        · subst hts
          unfold operands_of at hat
          rw [hget_s] at hat
          rcases hf2 a hat with h | h
          · exact Or.inl h
          · exact Or.inr (List.mem_cons_of_mem _ (by unfold operands_of; rw [hx]; exact h))
        · unfold operands_of at hat
          rw [hget_old t ht hts] at hat
          exact Or.inr (List.mem_cons_of_mem _ hat)
    have hkeep : ∀ t, t < ir.stmts.length → ∀ a b,
        a ∈ t :: operands_of ((with_cast ir input dt b' blk).assign s
          (field ir.stmts.length)) t →
        parent_of ((with_cast ir input dt b' blk).assign s (field ir.stmts.length)) a
          = some b →
        (a ∈ t :: operands_of ir t ∧ parent_of ir a = some b) ∨ Event.enter b ∉ fut := by
      intro t ht a b hat hpa
      by_cases han : a = ir.stmts.length
      · subst han
        rw [hparn] at hpa
        cases hpa
        exact Or.inr hb'fut
      · rcases hops t ht a hat with h | h
        · exact absurd h han
        · exact Or.inl ⟨h, hpar a b han hpa⟩
    refine ⟨⟨g', ?_, ?_, inv.old⟩, ?_, ?_⟩
    · intro b hbf
      have hne : b' ≠ b := fun e => hb'fut (e ▸ hbf)
      unfold IR.assign
      rw [IR.modify_blocks]
      simp only [with_cast]
      rw [List.getElem?_set_ne hne]
      exact inv.clean b hbf
    · refine owners_entered_mono ?_ fut (fun _ h => h) inv.wf
      intro t a b ht hat hpa
      exact hkeep t (Nat.lt_of_lt_of_le (inv.old t ht) inv.g.len) a b hat hpa
    · intro a hat b hpa
      rcases hkeep s hslt a b hat hpa with ⟨h1, h2⟩ | h
      · exact hanch a h1 b h2
      · exact h
    · refine ⟨by rw [hlen]; exact Nat.le_succ _, ?_⟩
      rw [hlen]
      unfold IR.assign
      rw [IR.modify_accepted]
      simp [with_cast]
theorem Steps_traversal {s : StmtId} {ir0 ir ir' : IR} {fut : List Event}
    (h : Steps s ir ir') (inv : TraversalInv ir0 ir fut)
    (hanch : ∀ a ∈ s :: operands_of ir s, ∀ b, parent_of ir a = some b →
      Event.enter b ∉ fut) :
    TraversalInv ir0 ir' fut ∧
    (∀ a ∈ s :: operands_of ir' s, ∀ b, parent_of ir' a = some b → Event.enter b ∉ fut) ∧
    LogFresh ir ir' := by
  induction h with
  | refl => exact ⟨inv, hanch, LogFresh_refl _⟩
  | tail _ h2 ih =>
    obtain ⟨inv1, ha1, l1⟩ := ih
    obtain ⟨inv2, ha2, l2⟩ := Step_traversal h2 inv1 ha1
    exact ⟨inv2, ha2, LogFresh_trans l1 l2⟩

theorem visits_append (A B : List Event) : visits (A ++ B) = visits A ++ visits B := by
  induction A with
  | nil => rfl
  | cons e es ih =>
    cases e with
    | enter b => exact ih
    | visit s =>
      show s :: visits (es ++ B) = s :: visits es ++ visits B
      rw [ih]
      rfl

theorem LogOK_refl (n0 : Nat) (ir : IR) : LogOK n0 ir ir [] :=
  ⟨Nat.le_refl _, [], by simp, rfl, by simp⟩

theorem LogOK_of_fresh {n0 : Nat} {ir ir' : IR} (h : LogFresh ir ir')
    (hn : n0 ≤ ir.stmts.length) : LogOK n0 ir ir' [] := by
  refine ⟨h.1, _, h.2, ?_, ?_⟩
  · rw [List.filter_eq_nil_iff]
    intro a ha
    rw [List.mem_range'_1] at ha
    simp only [decide_eq_true_eq]
    exact Nat.not_lt.2 (Nat.le_trans hn ha.1)
  · rw [List.filter_eq_self]
    intro a ha
    rw [List.mem_range'_1] at ha
    simp only [decide_eq_true_eq]
    exact Nat.le_trans hn ha.1

theorem LogOK_log {n0 : Nat} (ir : IR) {s : StmtId} (hs : s < n0) :
    LogOK n0 ir (ir.log_accept s) [s] := by
  refine ⟨Nat.le_refl _, [s], rfl, ?_, ?_⟩
  · simp [hs]
  · have : ¬ n0 ≤ s := Nat.not_le.2 hs
    simp [this, IR.log_accept]

theorem LogOK_trans {n0 : Nat} {a b c : IR} {V1 V2 : List StmtId}
    (h1 : LogOK n0 a b V1) (h2 : LogOK n0 b c V2) : LogOK n0 a c (V1 ++ V2) := by
  obtain ⟨hl1, L1, ha1, hv1, hf1⟩ := h1
  obtain ⟨hl2, L2, ha2, hv2, hf2⟩ := h2
  refine ⟨Nat.le_trans hl1 hl2, L1 ++ L2, by rw [ha2, ha1, List.append_assoc], ?_, ?_⟩
  · rw [List.filter_append, hv1, hv2]
  · rw [List.filter_append, hf1, hf2]
    obtain ⟨k1, hk1⟩ := Nat.le.dest hl1
    obtain ⟨k2, hk2⟩ := Nat.le.dest hl2
    have e1 : b.stmts.length - a.stmts.length = k1 := by omega
    have e2 : c.stmts.length - b.stmts.length = k2 := by omega
    have e3 : c.stmts.length - a.stmts.length = k2 + k1 := by omega
    rw [e1, e2, e3, ← hk1]
    exact List.range'_append_1 _ _ _

theorem TraversalInv_enter {ir0 ir : IR} {b : BlockId} {es : List Event}
    (inv : TraversalInv ir0 ir (.enter b :: es)) : TraversalInv ir0 ir es :=
  ⟨inv.g, fun b' hb' => inv.clean b' (List.mem_cons_of_mem _ hb'), inv.wf,
    fun t ht => inv.old t (List.mem_cons_of_mem _ ht)⟩

theorem TraversalInv_visit {ir0 ir : IR} {s : StmtId} {es : List Event}
    (inv : TraversalInv ir0 ir (.visit s :: es)) : TraversalInv ir0 ir es :=
  ⟨inv.g, fun b' hb' => inv.clean b' (List.mem_cons_of_mem _ hb'), inv.wf.2,
    fun t ht => inv.old t (List.mem_cons_of_mem _ ht)⟩

theorem TraversalInv_log {ir0 ir : IR} {fut : List Event} (s : StmtId)
    (inv : TraversalInv ir0 ir fut) : TraversalInv ir0 (ir.log_accept s) fut :=
  ⟨Grows_trans inv.g (Grows_of_eq rfl rfl), inv.clean,
    @owners_entered_mono ir (ir.log_accept s) fut (fun _ _ _ _ ha hb => Or.inl ⟨ha, hb⟩) fut
      (fun _ h => h) inv.wf,
    inv.old⟩

/-- The blocks an initial statement owns are those it owned initially. -/
theorem bodies_of_grows {ir0 ir : IR} (g : Grows ir0 ir) {s : StmtId} {x : Stmt}
    (hs : s < ir0.stmts.length) (hx : ir.stmts[s]? = some x) :
    bodies_of ir0 s = x.kind.bodies := by
  obtain ⟨x', hx', hsk, -⟩ := g.old s _ (List.getElem?_eq_getElem hs)
  rw [hx] at hx'
  cases hx'
  unfold bodies_of
  rw [List.getElem?_eq_getElem hs]
  exact (bodies_of_skeleton hsk).symm

theorem events_succ (fuel : Nat) (ir : IR) (s : StmtId) :
    events (fuel + 1) ir s = .visit s :: (bodies_of ir s).flatMap (events_block fuel ir) :=
  rfl

/-- The loop over the snapshot of a block follows the events of its statements. -/
theorem visit_stmts_traversal {n0 : Nat} {ir0 : IR} {acc : StmtId → IR → Except Abort IR}
    {E : StmtId → List Event}
    (hacc : ∀ s ir ir' rest, TraversalInv ir0 ir (E s ++ rest) → s < n0 → acc s ir = .ok ir' →
      TraversalInv ir0 ir' rest ∧ LogOK n0 ir ir' (visits (E s)))
    (l : List StmtId) :
    ∀ ir ir' rest, (∀ t ∈ l, t < n0) → TraversalInv ir0 ir (l.flatMap E ++ rest) →
      visit_stmts acc l ir = .ok ir' →
      TraversalInv ir0 ir' rest ∧ LogOK n0 ir ir' (visits (l.flatMap E)) := by
  induction l with
  | nil =>
    intro ir ir' rest _ inv h
    simp only [visit_stmts, pure, Except.pure, Except.ok.injEq] at h
    subst h
    exact ⟨inv, LogOK_refl _ _⟩
  | cons s ss ih =>
    intro ir ir' rest hl inv h
    simp only [visit_stmts, bind, Except.bind] at h
    split at h
    · cases h
    · rename_i ir1 h1
      rw [List.flatMap_cons, List.append_assoc] at inv
      obtain ⟨inv1, log1⟩ := hacc s ir ir1 _ inv (hl s (List.mem_cons_self _ _)) h1
      obtain ⟨inv2, log2⟩ := ih ir1 ir' rest (fun t ht => hl t (List.mem_cons_of_mem _ ht))
        inv1 h
      refine ⟨inv2, ?_⟩
      rw [List.flatMap_cons, visits_append]
      exact LogOK_trans log1 log2

theorem visit_Block_traversal {ir0 : IR} {acc : StmtId → IR → Except Abort IR} {fuel : Nat}
    (hvalid : ∀ (b : BlockId) (l : List StmtId), ir0.blocks[b]? = some l →
      ∀ t ∈ l, t < ir0.stmts.length)
    (hacc : ∀ s ir ir' rest, TraversalInv ir0 ir (events fuel ir0 s ++ rest) →
      s < ir0.stmts.length → acc s ir = .ok ir' →
      TraversalInv ir0 ir' rest ∧ LogOK ir0.stmts.length ir ir' (visits (events fuel ir0 s)))
    (b : BlockId) (ir ir' : IR) (rest : List Event)
    (inv : TraversalInv ir0 ir (events_block fuel ir0 b ++ rest))
    (h : visit_Block acc b ir = .ok ir') :
    TraversalInv ir0 ir' rest ∧
      LogOK ir0.stmts.length ir ir' (visits (events_block fuel ir0 b)) := by
  unfold visit_Block at h
  split at h
  · cases h
  · rename_i l hl
    have hl0 : ir0.blocks[b]? = some l := by
      rw [← inv.clean b (by simp [events_block])]
      exact hl
    have hb : block_of ir0 b = l := by
      unfold block_of; rw [hl0]
    have inv1 : TraversalInv ir0 ir (l.flatMap (events fuel ir0) ++ rest) := by
      have h0 : TraversalInv ir0 ir (.enter b :: (l.flatMap (events fuel ir0) ++ rest)) := by
        simpa [events_block, hb] using inv
      exact TraversalInv_enter h0
    obtain ⟨inv2, log2⟩ := visit_stmts_traversal hacc l ir ir' rest (hvalid b l hl0) inv1 h
    refine ⟨inv2, ?_⟩
    have : visits (events_block fuel ir0 b) = visits (l.flatMap (events fuel ir0)) := by
      simp [events_block, hb, visits]
    rw [this]
    exact log2

theorem visit_opt_Block_traversal {ir0 : IR} {acc : StmtId → IR → Except Abort IR}
    {fuel : Nat}
    (hvalid : ∀ (b : BlockId) (l : List StmtId), ir0.blocks[b]? = some l →
      ∀ t ∈ l, t < ir0.stmts.length)
    (hacc : ∀ s ir ir' rest, TraversalInv ir0 ir (events fuel ir0 s ++ rest) →
      s < ir0.stmts.length → acc s ir = .ok ir' →
      TraversalInv ir0 ir' rest ∧ LogOK ir0.stmts.length ir ir' (visits (events fuel ir0 s)))
    (ob : Option BlockId) (ir ir' : IR) (rest : List Event)
    (inv : TraversalInv ir0 ir (ob.toList.flatMap (events_block fuel ir0) ++ rest))
    (h : visit_opt_Block acc ob ir = .ok ir') :
    TraversalInv ir0 ir' rest ∧
      LogOK ir0.stmts.length ir ir' (visits (ob.toList.flatMap (events_block fuel ir0))) := by
  cases ob with
  | none =>
    simp only [visit_opt_Block, pure, Except.pure, Except.ok.injEq] at h
    subst h
    exact ⟨by simpa using inv, by simpa [visits] using LogOK_refl _ _⟩
  | some b =>
    simp only [visit_opt_Block] at h
    have inv' : TraversalInv ir0 ir (events_block fuel ir0 b ++ rest) := by
      simpa using inv
    obtain ⟨inv2, log2⟩ := visit_Block_traversal hvalid hacc b ir ir' rest inv' h
    exact ⟨inv2, by simpa using log2⟩
/-- The dispatch of a statement without blocks of its own. -/
theorem leaf_traversal {ir0 ir ir' : IR} {s : StmtId} {rest : List Event}
    {m : Except Abort IR}
    (inv : TraversalInv ir0 ir (.visit s :: rest)) (hs : s < ir0.stmts.length)
    (hr : Reaches s (ir.log_accept s) m) (h : m = .ok ir') :
    TraversalInv ir0 ir' rest ∧ LogOK ir0.stmts.length ir ir' [s] := by
  have hsteps : Steps s (ir.log_accept s) ir' := hr ir' (by rw [h]; rfl)
  have inv1 : TraversalInv ir0 (ir.log_accept s) rest :=
    TraversalInv_log s (TraversalInv_visit inv)
  obtain ⟨inv2, -, lf⟩ := Steps_traversal hsteps inv1 inv.wf.1
  refine ⟨inv2, ?_⟩
  have := LogOK_trans (LogOK_log ir hs) (LogOK_of_fresh lf inv1.g.len)
  simpa using this

theorem accept_traversal (cfg : Config) {ir0 : IR}
    (hvalid : ∀ (b : BlockId) (l : List StmtId), ir0.blocks[b]? = some l →
      ∀ t ∈ l, t < ir0.stmts.length)
    (fuel : Nat) :
    ∀ s ir ir' rest, TraversalInv ir0 ir (events fuel ir0 s ++ rest) →
      s < ir0.stmts.length → accept cfg fuel s ir = .ok ir' →
      TraversalInv ir0 ir' rest ∧
        LogOK ir0.stmts.length ir ir' (visits (events fuel ir0 s)) := by
  induction fuel with
  | zero =>
    intro s ir ir' rest _ _ h
    simp [accept] at h
  | succ fuel ih =>
    intro s ir ir' rest inv hs h
    simp only [accept, bind, Except.bind] at h
    split at h
    · cases h
    · rename_i x hx
      have hx := IR.deref_ok hx
      have hbod : bodies_of ir0 s = x.kind.bodies := bodies_of_grows inv.g hs hx
      rw [events_succ, hbod]
      rw [events_succ, hbod, List.cons_append] at inv
      have hanch := inv.wf.1
      have inv1 : TraversalInv ir0 (ir.log_accept s)
          (x.kind.bodies.flatMap (events_block fuel ir0) ++ rest) :=
        TraversalInv_log s (TraversalInv_visit inv)
      have log1 : LogOK ir0.stmts.length ir (ir.log_accept s) [s] := LogOK_log ir hs
      have hleaf : ∀ {m : Except Abort IR}, x.kind.bodies = [] →
          Reaches s (ir.log_accept s) m → m = .ok ir' →
          TraversalInv ir0 ir' rest ∧ LogOK ir0.stmts.length ir ir'
            (visits (.visit s :: x.kind.bodies.flatMap (events_block fuel ir0))) := by
        intro m hb hr hm
        rw [hb] at inv ⊢
        exact leaf_traversal (by simpa using inv) hs hr hm
      have hpure : x.kind.bodies = [] → ir.log_accept s = ir' →
          TraversalInv ir0 ir' rest ∧ LogOK ir0.stmts.length ir ir'
            (visits (.visit s :: x.kind.bodies.flatMap (events_block fuel ir0))) := by
        intro hb hm
        exact hleaf hb (Reaches_pure (Steps_refl _ _)) (by rw [hm]; rfl)
      have hblock : ∀ (irm : IR) (body : BlockId), x.kind.bodies = [body] →
          TraversalInv ir0 irm (events_block fuel ir0 body ++ rest) →
          LogOK ir0.stmts.length ir irm [s] →
          visit_Block (accept cfg fuel) body irm = .ok ir' →
          TraversalInv ir0 ir' rest ∧ LogOK ir0.stmts.length ir ir'
            (visits (.visit s :: x.kind.bodies.flatMap (events_block fuel ir0))) := by
        intro irm body hb invm logm hm
        obtain ⟨inv2, log2⟩ := visit_Block_traversal hvalid ih body irm ir' rest invm hm
        refine ⟨inv2, ?_⟩
        rw [hb]
        have := LogOK_trans logm log2
        simpa [visits] using this
      cases hk : x.kind with
      | AllocaStmt =>
        simp only [hk, pure, Except.pure, Except.ok.injEq] at h
        rw [← hk]
        exact hpure (by rw [hk]; rfl) h
      | ConstStmt =>
        simp only [hk, pure, Except.pure, Except.ok.injEq] at h
        rw [← hk]
        exact hpure (by rw [hk]; rfl) h
      | Other =>
        simp only [hk, pure, Except.pure, Except.ok.injEq] at h
        rw [← hk]
        exact hpure (by rw [hk]; rfl) h
      | IfStmt tb fb =>
        simp only [hk] at h
        split at h
        · cases h
        · rename_i ir1 h1
          have hb : x.kind.bodies = tb.toList ++ fb.toList := by rw [hk]; rfl
          rw [hb, List.flatMap_append, List.append_assoc] at inv1
          obtain ⟨inv2, log2⟩ := visit_opt_Block_traversal hvalid ih tb _ ir1 _ inv1 h1
          obtain ⟨inv3, log3⟩ := visit_opt_Block_traversal hvalid ih fb ir1 ir' rest inv2 h
          refine ⟨inv3, ?_⟩
          have := LogOK_trans (LogOK_trans log1 log2) log3
          rw [← hk, hb, List.flatMap_append]
          simpa [visits, visits_append] using this
      | AtomicOpStmt dest val =>
        simp only [hk] at h
        rw [← hk]
        exact hleaf (by rw [hk]; rfl) (visit_AtomicOpStmt_reaches _ _) h
      | LocalLoadStmt ptr =>
        simp only [hk] at h
        rw [← hk]
        exact hleaf (by rw [hk]; rfl) (visit_LocalLoadStmt_reaches _ _) h
      | LocalStoreStmt ptr data =>
        simp only [hk] at h
        rw [← hk]
        exact hleaf (by rw [hk]; rfl) (visit_LocalStoreStmt_reaches _ _ _) h
      | GlobalLoadStmt ptr =>
        simp only [hk] at h
        rw [← hk]
        exact hleaf (by rw [hk]; rfl) (visit_GlobalLoadStmt_reaches _ _) h
      | SNodeOpStmt =>
        simp only [hk] at h
        rw [← hk]
        exact hleaf (by rw [hk]; rfl) (visit_SNodeOpStmt_reaches _ _) h
      | GlobalPtrStmt snodes indices =>
        simp only [hk] at h
        rw [← hk]
        exact hleaf (by rw [hk]; rfl) (visit_GlobalPtrStmt_reaches _ _) h
      | GlobalStoreStmt ptr data =>
        simp only [hk] at h
        rw [← hk]
        exact hleaf (by rw [hk]; rfl) (visit_GlobalStoreStmt_reaches _ _ _) h
      | RangeForStmt begin_ end_ body =>
        simp only [hk] at h
        split at h
        · cases h
        · rename_i ir1 h1
          split at h
          · cases h
          · rename_i ir2 h2
            have hb : x.kind.bodies = [body] := by rw [hk]; rfl
            have st : Steps s (ir.log_accept s) ir2 :=
              Steps_trans (mark_as_if_const_steps h1) (mark_as_if_const_steps h2)
            obtain ⟨inv2, -, lf⟩ := Steps_traversal st inv1 hanch
            rw [← hk]
            refine hblock ir2 body hb (by simpa [hb] using inv2) ?_ h
            have := LogOK_trans log1 (LogOK_of_fresh lf inv1.g.len)
            simpa using this
      | StructForStmt body =>
        simp only [hk] at h
        have hb : x.kind.bodies = [body] := by rw [hk]; rfl
        rw [← hk]
        exact hblock _ body hb (by simpa [hb] using inv1) log1 h
      | WhileStmt body =>
        simp only [hk] at h
        have hb : x.kind.bodies = [body] := by rw [hk]; rfl
        rw [← hk]
        exact hblock _ body hb (by simpa [hb] using inv1) log1 h
      | UnaryOpStmt op operand ct cbv =>
        simp only [hk] at h
        rw [← hk]
        exact hleaf (by rw [hk]; rfl) (visit_UnaryOpStmt_reaches _ _) h
      | BinaryOpStmt op l r =>
        simp only [hk] at h
        rw [← hk]
        exact hleaf (by rw [hk]; rfl) (visit_BinaryOpStmt_reaches _ _ _) h
      | TernaryOpStmt op a b c =>
        simp only [hk] at h
        rw [← hk]
        exact hleaf (by rw [hk]; rfl) (visit_TernaryOpStmt_reaches _ _ _) h
      | ElementShuffleStmt elements =>
        simp only [hk] at h
        rw [← hk]
        exact hleaf (by rw [hk]; rfl) (visit_ElementShuffleStmt_reaches _ _) h
      | RangeAssumptionStmt input base =>
        simp only [hk] at h
        rw [← hk]
        exact hleaf (by rw [hk]; rfl) (visit_RangeAssumptionStmt_reaches _ _) h
      | ArgLoadStmt arg_id =>
        simp only [hk] at h
        rw [← hk]
        exact hleaf (by rw [hk]; rfl) (visit_ArgLoadStmt_reaches _ _ _) h
      | ArgStoreStmt arg_id val =>
        simp only [hk] at h
        rw [← hk]
        exact hleaf (by rw [hk]; rfl) (visit_ArgStoreStmt_reaches _ _ _) h
      | ExternalPtrStmt base_ptrs =>
        simp only [hk] at h
        rw [← hk]
        exact hleaf (by rw [hk]; rfl) (visit_ExternalPtrStmt_reaches _ _) h
      | LoopIndexStmt =>
        simp only [hk] at h
        rw [← hk]
        exact hleaf (by rw [hk]; rfl) (visit_LoopIndexStmt_reaches _ _) h
      | GetChStmt output_snode =>
        simp only [hk] at h
        rw [← hk]
        exact hleaf (by rw [hk]; rfl) (visit_GetChStmt_reaches _ _) h
      | OffloadedStmt body =>
        simp only [hk] at h
        have hb : x.kind.bodies = body.toList := by rw [hk]; rfl
        rw [hb] at inv1
        obtain ⟨inv2, log2⟩ := visit_opt_Block_traversal hvalid ih body _ ir' rest inv1 h
        refine ⟨inv2, ?_⟩
        have := LogOK_trans log1 log2
        rw [← hk, hb]
        simpa [visits] using this

theorem events_old {ir : IR}
    (hvalid : ∀ (b : BlockId) (l : List StmtId), ir.blocks[b]? = some l →
      ∀ t ∈ l, t < ir.stmts.length)
    (fuel : Nat) :
    ∀ s t, Event.visit t ∈ events fuel ir s → t = s ∨ t < ir.stmts.length := by
  induction fuel with
  | zero =>
    intro s t h
    cases h
  | succ fuel ih =>
    intro s t h
    rw [events_succ] at h
    rcases List.mem_cons.1 h with h | h
    · cases h
      exact Or.inl rfl
    · obtain ⟨b, -, hb⟩ := List.mem_flatMap.1 h
      unfold events_block at hb
      rcases List.mem_cons.1 hb with hb | hb
      · cases hb
      · obtain ⟨u, hu, hut⟩ := List.mem_flatMap.1 hb
        have hul : u < ir.stmts.length := by
          unfold block_of at hu
          split at hu
          · rename_i l hl
            exact hvalid b l hl u hu
          · cases hu
        rcases ih u t hut with h | h
        · exact Or.inr (h ▸ hul)
        · exact Or.inr h

theorem events_block_old {ir : IR}
    (hvalid : ∀ (b : BlockId) (l : List StmtId), ir.blocks[b]? = some l →
      ∀ t ∈ l, t < ir.stmts.length)
    (fuel : Nat) (b : BlockId) :
    ∀ t, Event.visit t ∈ events_block fuel ir b → t < ir.stmts.length := by
  intro t hb
  unfold events_block at hb
  rcases List.mem_cons.1 hb with hb | hb
  · cases hb
  · obtain ⟨u, hu, hut⟩ := List.mem_flatMap.1 hb
    have hul : u < ir.stmts.length := by
      unfold block_of at hu
      split at hu
      · rename_i l hl
        exact hvalid b l hl u hu
      · cases hu
    rcases events_old hvalid fuel u t hut with h | h
    · exact h ▸ hul
    · exact h

theorem nodup_of_filters {n0 : Nat} {Lg : List StmtId}
    (h1 : (Lg.filter (fun t => decide (t < n0))).Nodup)
    (h2 : (Lg.filter (fun t => decide (n0 ≤ t))).Nodup) : Lg.Nodup := by
  have hp := List.filter_append_perm (fun t => decide (t < n0)) Lg
  have he : Lg.filter (fun t => !decide (t < n0)) = Lg.filter (fun t => decide (n0 ≤ t)) := by
    apply List.filter_congr
    intro x _
    by_cases hx : x < n0
    · simp [hx, Nat.not_le.2 hx]
    · simp [hx, Nat.le_of_not_lt hx]
  rw [he] at hp
  rw [← hp.nodup_iff, List.nodup_append]
  refine ⟨h1, h2, ?_⟩
  intro a ha hb
  rw [List.mem_filter] at ha hb
  simp only [decide_eq_true_eq] at ha hb
  exact absurd ha.2 (Nat.not_lt.2 hb.2)


/-! ## The claims -/

/-- C1: when `visit(BinaryOpStmt *)` returns on an instruction whose operator is not a
comparison, then in the resulting state the (possibly redirected) operands `lhs` and `rhs`
have the same element type and the same width, neither element type is `unknown`, and the
result type of the instruction is the type of its operands. This holds for every
configuration, in particular for every `promoted_type`. -/
theorem C1_binary_postcondition (cfg : Config) (s : StmtId) (ir ir' : IR) (x : Stmt)
    (op : BinaryOpType) (l r : StmtId)
    (hs : ir.stmts[s]? = some x) (hk : x.kind = .BinaryOpStmt op l r)
    (hop : is_comparison op = false)
    (h : visit_BinaryOpStmt cfg s ir = .ok ir') :
    ∃ x' op' l' r' xl xr, ir'.stmts[s]? = some x' ∧ x'.kind = .BinaryOpStmt op' l' r' ∧
      ir'.stmts[l']? = some xl ∧ ir'.stmts[r']? = some xr ∧
      xl.ret_type.data_type = xr.ret_type.data_type ∧
      xl.ret_type.width = xr.ret_type.width ∧
      xl.ret_type.data_type ≠ .unknown ∧ xr.ret_type.data_type ≠ .unknown ∧
      x'.ret_type = xl.ret_type ∧ x'.ret_type = xr.ret_type := by
  obtain ⟨ir3, e, h3⟩ := visit_BinaryOpStmt_ok h
  obtain ⟨x3, op3, l3, r3, xl, xr, hx3, hk3, hxl, hxr, heq, hn, _, rfl⟩ := check_and_assign_ok h3
  obtain ⟨x3', hx3', hsk, _⟩ := e.old s x hs
  rw [hx3] at hx3'
  cases hx3'
  obtain ⟨op', l', r', hk', hlow⟩ := skeleton_binary hsk hk
  rw [hk3] at hk'
  cases hk'
  have hc : is_comparison op3 = false := by
    rw [← is_comparison_lowered, hlow, is_comparison_lowered]; exact hop
  simp only [hc, Bool.false_eq_true, if_false]
  have hs' : (ir3.set_ret_type s xl.ret_type).stmts[s]? =
      some { x3 with ret_type := xl.ret_type } := by
    rw [IR.set_ret_type_get]; simp [hx3]
  obtain ⟨yl, hyl, hyl1, _⟩ :=
    IR.set_ret_type_keeps (fun T => T = xl.ret_type) ir3 s l3 xl.ret_type xl hxl rfl rfl
  obtain ⟨yr, hyr, hyr1, _⟩ :=
    IR.set_ret_type_keeps (fun T => T = xl.ret_type) ir3 s r3 xl.ret_type xr hxr heq.symm rfl
  refine ⟨_, op3, l3, r3, yl, yr, hs', hk3, hyl, hyr, ?_, ?_, ?_, ?_, ?_, ?_⟩
  · rw [hyl1, hyr1]
  · rw [hyl1, hyr1]
  · rw [hyl1]; exact hn
  · rw [hyr1]; exact hn
  · exact hyl1.symm
  · exact hyr1.symm

/-- C2: when `visit(BinaryOpStmt *)` returns on a comparison, the result type is `i32` at the
width of the `lhs` operand, which is the width of the `rhs` operand, whatever the element
type of the operands is. This holds for the (possibly redirected) operands `l'`, `r'` of the
resulting state and for the operands `l`, `r` the instruction had before the visit. -/
theorem C2_comparison_postcondition (cfg : Config) (s : StmtId) (ir ir' : IR) (x : Stmt)
    (op : BinaryOpType) (l r : StmtId)
    (hs : ir.stmts[s]? = some x) (hk : x.kind = .BinaryOpStmt op l r)
    (hop : is_comparison op = true)
    (h : visit_BinaryOpStmt cfg s ir = .ok ir') :
    ∃ x' op' l' r' xl xr xl0 xr0,
      ir'.stmts[s]? = some x' ∧ x'.kind = .BinaryOpStmt op' l' r' ∧
      ir'.stmts[l']? = some xl ∧ ir'.stmts[r']? = some xr ∧
      x'.ret_type.data_type = .i32 ∧
      x'.ret_type.width = xl.ret_type.width ∧
      xl.ret_type.width = xr.ret_type.width ∧
      ir.stmts[l]? = some xl0 ∧ ir.stmts[r]? = some xr0 ∧
      x'.ret_type.width = xl0.ret_type.width ∧
      xl0.ret_type.width = xr0.ret_type.width := by
  have hf : op ≠ .floordiv := by rintro rfl; cases hop
  have ht : op ≠ .truediv := by rintro rfl; cases hop
  unfold visit_BinaryOpStmt at h
  simp only [bind, Except.bind, IR.binary_of hs hk] at h
  split at h
  · cases h
  · rename_i lt hlt
    obtain ⟨xl0, hl, rfl⟩ := IR.ret_type_ok hlt
    split at h
    · cases h
    · rename_i rt hrt
      obtain ⟨xr0, hr, rfl⟩ := IR.ret_type_ok hrt
      split at h
      · simp [error, fatal] at h
      · simp only [lower_floordiv_skip cfg hs hk hf, lower_truediv_skip cfg hs hk ht] at h
        split at h
        · cases h
        · rename_i ir3 h3
          obtain ⟨x3, l3, r3, yl, yr, hs3, hk3, hl3, hr3, hwl, hwr⟩ :=
            promote_widths h3 hs hk hl hr
          obtain ⟨x3', op3, l3', r3', xl, xr, hx3, hk3', hxl, hxr, heq, -, -, rfl⟩ :=
            check_and_assign_ok h
          rw [hs3] at hx3
          cases hx3
          rw [hk3] at hk3'
          cases hk3'
          rw [hl3] at hxl
          cases hxl
          rw [hr3] at hxr
          cases hxr
          simp only [hop, if_true]
          have hs' : (ir3.set_ret_type s ⟨yl.ret_type.width, .i32⟩).stmts[s]? =
              some { x3 with ret_type := ⟨yl.ret_type.width, .i32⟩ } := by
            rw [IR.set_ret_type_get]; simp [hs3]
          obtain ⟨zl, hzl, hzl1, -⟩ :=
            IR.set_ret_type_keeps (fun T => T.width = yl.ret_type.width) ir3 s l3
              ⟨yl.ret_type.width, .i32⟩ yl hl3 rfl rfl
          obtain ⟨zr, hzr, hzr1, -⟩ :=
            IR.set_ret_type_keeps (fun T => T.width = yl.ret_type.width) ir3 s r3
              ⟨yl.ret_type.width, .i32⟩ yr hr3 (by rw [heq]) rfl
          refine ⟨_, op, l3, r3, zl, zr, xl0, xr0, hs', hk3, hzl, hzr, rfl, hzl1.symm,
            by rw [hzl1, hzr1], hl, hr, hwl, ?_⟩
          rw [← hwl, ← hwr, heq]

/-- Witness of C1: Scenario A. -/
theorem C1_binary_postcondition_witness :
    ∃ x' op' l' r' xl xr, scenarioA_after.stmts[2]? = some x' ∧
      x'.kind = .BinaryOpStmt op' l' r' ∧
      scenarioA_after.stmts[l']? = some xl ∧ scenarioA_after.stmts[r']? = some xr ∧
      xl.ret_type.data_type = xr.ret_type.data_type ∧
      xl.ret_type.width = xr.ret_type.width ∧
      xl.ret_type.data_type ≠ .unknown ∧ xr.ret_type.data_type ≠ .unknown ∧
      x'.ret_type = xl.ret_type ∧ x'.ret_type = xr.ret_type :=
  C1_binary_postcondition cfgA 2 scenarioA scenarioA_after
    ⟨.BinaryOpStmt .add 0 1, ⟨1, .unknown⟩, some 0⟩ .add 0 1 rfl rfl rfl rfl

/-- Witness of C2: a comparison of two `f32` vectors of width 4. -/
theorem C2_comparison_postcondition_witness :
    ∃ x' op' l' r' xl xr xl0 xr0,
      comparison_after.stmts[2]? = some x' ∧ x'.kind = .BinaryOpStmt op' l' r' ∧
      comparison_after.stmts[l']? = some xl ∧ comparison_after.stmts[r']? = some xr ∧
      x'.ret_type.data_type = .i32 ∧
      x'.ret_type.width = xl.ret_type.width ∧
      xl.ret_type.width = xr.ret_type.width ∧
      comparison.stmts[0]? = some xl0 ∧ comparison.stmts[1]? = some xr0 ∧
      x'.ret_type.width = xl0.ret_type.width ∧
      xl0.ret_type.width = xr0.ret_type.width :=
  C2_comparison_postcondition cfgA 2 comparison comparison_after
    ⟨.BinaryOpStmt .cmp_lt 0 1, ⟨1, .unknown⟩, some 0⟩ .cmp_lt 0 1 rfl rfl rfl rfl

/-- C10: the cast synthesizer. For an anchor that is in its owning block `b` and a source
`input` of the state, `insert_type_cast_before` and `insert_type_cast_after` return (they
never abort) the new statement, which is a unary `cast` of `input` with `cast_by_value = true`
and result type (width of the source, `dt`); the block `b` afterwards is its old list with
that one statement immediately before, respectively after, the anchor; no other block, no
other statement and no warning changes. -/
theorem C10_cast_synthesizer (ir : IR) (anchor input : StmtId) (dt : DataType)
    (sa x : Stmt) (b : BlockId) (l : List StmtId)
    (ha : ir.stmts[anchor]? = some sa) (hp : sa.parent = some b)
    (hb : ir.blocks[b]? = some l) (hmem : anchor ∈ l) (hx : ir.stmts[input]? = some x) :
    ∃ pre post, l = pre ++ anchor :: post ∧ anchor ∉ pre ∧
      insert_type_cast_before anchor input dt ir = .ok
        ({ stmts := ir.stmts ++ [by_value_cast input dt x.ret_type.width b]
           blocks := ir.blocks.set b (pre ++ ir.stmts.length :: anchor :: post)
           warnings := ir.warnings
           accepted := ir.accepted ++ [ir.stmts.length] }, ir.stmts.length) ∧
      insert_type_cast_after anchor input dt ir = .ok
        ({ stmts := ir.stmts ++ [by_value_cast input dt x.ret_type.width b]
           blocks := ir.blocks.set b (pre ++ anchor :: ir.stmts.length :: post)
           warnings := ir.warnings
           accepted := ir.accepted ++ [ir.stmts.length] }, ir.stmts.length) := by
  obtain ⟨pre, post, hl, hn, hbef, haft⟩ := insert_before_spec anchor ir.stmts.length l hmem
  have hw : cast_width ir input = x.ret_type.width := by simp [cast_width, hx]
  have hi : input ≤ ir.stmts.length := Nat.le_of_lt (lt_of_get hx)
  refine ⟨pre, post, hl, hn, ?_, ?_⟩
  · rw [insert_type_cast_before_iff]
    exact ⟨sa, b, l, _, rfl, hi, ha, hp, hb, hbef, by simp [with_cast, hw]⟩
  · rw [insert_type_cast_after_iff]
    exact ⟨sa, b, l, _, rfl, hi, ha, hp, hb, haft, by simp [with_cast, hw]⟩

/-- Witness of C10: a cast of `%0` to `f32` anchored at the add of Scenario A. -/
theorem C10_cast_synthesizer_witness :
    ∃ pre post, [0, 1, 2] = pre ++ 2 :: post ∧ 2 ∉ pre ∧
      insert_type_cast_before 2 0 .f32 scenarioA = .ok
        ({ stmts := scenarioA.stmts ++
             [by_value_cast 0 .f32 (value 1 .i32 0).ret_type.width 0]
           blocks := scenarioA.blocks.set 0 (pre ++ scenarioA.stmts.length :: 2 :: post)
           warnings := scenarioA.warnings
           accepted := scenarioA.accepted ++ [scenarioA.stmts.length] },
          scenarioA.stmts.length) ∧
      insert_type_cast_after 2 0 .f32 scenarioA = .ok
        ({ stmts := scenarioA.stmts ++
             [by_value_cast 0 .f32 (value 1 .i32 0).ret_type.width 0]
           blocks := scenarioA.blocks.set 0 (pre ++ 2 :: scenarioA.stmts.length :: post)
           warnings := scenarioA.warnings
           accepted := scenarioA.accepted ++ [scenarioA.stmts.length] },
          scenarioA.stmts.length) :=
  C10_cast_synthesizer scenarioA 2 0 .f32 ⟨.BinaryOpStmt .add 0 1, ⟨1, .unknown⟩, some 0⟩
    (value 1 .i32 0) 0 [0, 1, 2] rfl rfl rfl (by decide) rfl

/-- C4: a binary operator other than `floordiv` and `truediv`, in its owning block, whose
operands have different element types `a` (lhs) and `b` (rhs) with `promoted_type a b = b`.
The visit returns or aborts fatally at the final check; either way exactly one statement was
added, the by-value cast of the lhs to `b` at the width of the lhs, placed immediately
before the operator, and the lhs of the operator is that cast while its rhs is unchanged.
Scenario A (an `add` of an `i32` lhs and an `f32` rhs of equal widths, for every width): the
visit returns, nothing but that one cast is added, and the result type is `f32` at that
width. -/
theorem C4_one_cast (cfg : Config) (s : StmtId) (ir : IR) (x xl xr : Stmt)
    (op : BinaryOpType) (l r : StmtId) (b : BlockId) (blk : List StmtId)
    (hs : ir.stmts[s]? = some x) (hk : x.kind = .BinaryOpStmt op l r)
    (hp : x.parent = some b) (hb : ir.blocks[b]? = some blk) (hmem : s ∈ blk)
    (hl : ir.stmts[l]? = some xl) (hr : ir.stmts[r]? = some xr)
    (hf : op ≠ .floordiv) (ht : op ≠ .truediv)
    (hne : xl.ret_type.data_type ≠ xr.ret_type.data_type)
    (hpr : cfg.promoted_type xl.ret_type.data_type xr.ret_type.data_type
      = xr.ret_type.data_type) :
    ∃ pre post, blk = pre ++ s :: post ∧ s ∉ pre ∧
      (∃ ir' T, (visit_BinaryOpStmt cfg s ir = .ok ir' ∨
            visit_BinaryOpStmt cfg s ir = .error (.fatal ir')) ∧
          ir'.stmts = (ir.stmts ++
              [by_value_cast l xr.ret_type.data_type xl.ret_type.width b]).set s
            { x with kind := .BinaryOpStmt op ir.stmts.length r, ret_type := T } ∧
          ir'.blocks = ir.blocks.set b (pre ++ ir.stmts.length :: s :: post)) ∧
      (op = .add → xl.ret_type.data_type = .i32 → xr.ret_type.data_type = .f32 →
        xl.ret_type.width = xr.ret_type.width →
        visit_BinaryOpStmt cfg s ir = .ok
          { stmts := (ir.stmts ++ [by_value_cast l .f32 xl.ret_type.width b]).set s
              { x with kind := .BinaryOpStmt .add ir.stmts.length r,
                       ret_type := ⟨xl.ret_type.width, .f32⟩ }
            blocks := ir.blocks.set b (pre ++ ir.stmts.length :: s :: post)
            warnings := ir.warnings
            accepted := ir.accepted ++ [ir.stmts.length] }) := by
  obtain ⟨pre, post, hblk, hpre, hins, _⟩ := insert_before_spec s ir.stmts.length blk hmem
  refine ⟨pre, post, hblk, hpre, ?_⟩
  have hv := visit_binary_lhs_cast cfg s ir x xl xr op l r b blk _ hs hk hp hb hins hl hr
    hf ht hne hpr
  have hslt : s < ir.stmts.length := lt_of_get hs
  have hrlt : r < ir.stmts.length := lt_of_get hr
  have hw : cast_width ir l = xl.ret_type.width := by simp [cast_width, hl]
  -- the state after promotion, in closed form
  have h3 : (with_cast ir l xr.ret_type.data_type b (pre ++ ir.stmts.length :: s :: post)).set_lhs
      s ir.stmts.length =
      { stmts := (ir.stmts ++
            [by_value_cast l xr.ret_type.data_type xl.ret_type.width b]).set s
            { x with kind := .BinaryOpStmt op ir.stmts.length r }
        blocks := ir.blocks.set b (pre ++ ir.stmts.length :: s :: post)
        warnings := ir.warnings
        accepted := ir.accepted ++ [ir.stmts.length] } := by
    unfold IR.set_lhs IR.assign
    rw [IR.modify_eq _ _ _ x (by rw [with_cast_get_old _ _ _ _ _ _ hslt]; exact hs)]
    simp [with_cast, hk, hw, StmtKind.set_lhs]
  rw [h3] at hv
  generalize hL : ir.stmts ++ [by_value_cast l xr.ret_type.data_type xl.ret_type.width b] = L
    at hv
  have hLs : (L.set s { x with kind := .BinaryOpStmt op ir.stmts.length r })[s]? =
      some { x with kind := .BinaryOpStmt op ir.stmts.length r } := by
    rw [List.getElem?_set_self]
    rw [← hL]; simp; exact Nat.lt_succ_of_lt hslt
  have hLn : (L.set s { x with kind := .BinaryOpStmt op ir.stmts.length r })[ir.stmts.length]? =
      some (by_value_cast l xr.ret_type.data_type xl.ret_type.width b) := by
    rw [List.getElem?_set_ne (Nat.ne_of_lt hslt), ← hL]
    simp
  have hLr : ∃ xr', (L.set s { x with kind := .BinaryOpStmt op ir.stmts.length r })[r]? =
      some xr' ∧ xr'.ret_type = xr.ret_type := by
    by_cases hrs : r = s
    · subst hrs
      rw [hLs]
      rw [hs] at hr
      cases hr
      exact ⟨_, rfl, rfl⟩
    · rw [List.getElem?_set_ne (Ne.symm hrs), ← hL, List.getElem?_append_left hrlt]
      exact ⟨xr, hr, rfl⟩
  obtain ⟨xr', hxr', hxrt⟩ := hLr
  rw [check_and_assign_eval hLs rfl hLn hxr'] at hv
  simp only [by_value_cast, hxrt] at hv
  constructor
  · split at hv
    · split at hv
      · exact ⟨_, x.ret_type, Or.inr hv, rfl, rfl⟩
      · exact ⟨_, _, Or.inl hv, List.set_set _ _ _ _, rfl⟩
    · exact ⟨_, x.ret_type, Or.inr hv, rfl, rfl⟩
  · intro hop ha hb' hww
    subst hop
    rw [hv, ← hL]
    have hxr : xr.ret_type = ⟨xl.ret_type.width, .f32⟩ := by
      rw [hww, ← hb']
    simp [hb', hxr, binary_is_bitwise, is_comparison]

/-- Witness of C4: Scenario A at width 1. -/
theorem C4_one_cast_witness :
    ∃ pre post, [0, 1, 2] = pre ++ 2 :: post ∧ 2 ∉ pre ∧
      (∃ ir' T, (visit_BinaryOpStmt cfgA 2 scenarioA = .ok ir' ∨
            visit_BinaryOpStmt cfgA 2 scenarioA = .error (.fatal ir')) ∧
          ir'.stmts = (scenarioA.stmts ++ [by_value_cast 0 .f32 1 0]).set 2
            ⟨.BinaryOpStmt .add 3 1, T, some 0⟩ ∧
          ir'.blocks = scenarioA.blocks.set 0 (pre ++ 3 :: 2 :: post)) ∧
      (BinaryOpType.add = .add → DataType.i32 = .i32 → DataType.f32 = .f32 → (1 : Int) = 1 →
        visit_BinaryOpStmt cfgA 2 scenarioA = .ok
          { stmts := (scenarioA.stmts ++ [by_value_cast 0 .f32 1 0]).set 2
              ⟨.BinaryOpStmt .add 3 1, ⟨1, .f32⟩, some 0⟩
            blocks := scenarioA.blocks.set 0 (pre ++ 3 :: 2 :: post)
            warnings := []
            accepted := [3] }) :=
  C4_one_cast cfgA 2 scenarioA ⟨.BinaryOpStmt .add 0 1, ⟨1, .unknown⟩, some 0⟩
    (value 1 .i32 0) (value 1 .f32 0) .add 0 1 0 [0, 1, 2] rfl rfl rfl rfl (by decide) rfl rfl
    (by decide) (by decide) (by decide) rfl

/-- C3: a `select` in its owning block whose condition `op1` has element type `i32` and whose
three operands have the same width. The visit returns; afterwards `op2` and `op3` (each the
original operand, or a by-value cast of it inserted by this visit) both have the element type
`promoted_type (type of the original op2) (type of the original op3)`, and the result type
of the select is (width of `op1`, that promoted type). -/
theorem C3_select_postcondition (cfg : Config) (s : StmtId) (ir : IR) (x x1 x2 x3 : Stmt)
    (op1 op2 op3 : StmtId) (b : BlockId) (blk : List StmtId)
    (hs : ir.stmts[s]? = some x) (hk : x.kind = .TernaryOpStmt .select op1 op2 op3)
    (hp : x.parent = some b) (hb : ir.blocks[b]? = some blk) (hm : s ∈ blk)
    (h1 : ir.stmts[op1]? = some x1) (h2 : ir.stmts[op2]? = some x2)
    (h3 : ir.stmts[op3]? = some x3)
    (hc : x1.ret_type.data_type = .i32)
    (hw12 : x1.ret_type.width = x2.ret_type.width)
    (hw23 : x2.ret_type.width = x3.ret_type.width) :
    ∃ ir' x' o2 o3 y2 y3, visit_TernaryOpStmt cfg s ir = .ok ir' ∧
      ir'.stmts[s]? = some x' ∧ x'.kind = .TernaryOpStmt .select op1 o2 o3 ∧
      x'.ret_type = ⟨x1.ret_type.width,
        cfg.promoted_type x2.ret_type.data_type x3.ret_type.data_type⟩ ∧
      ir'.stmts[o2]? = some y2 ∧ ir'.stmts[o3]? = some y3 ∧
      y2.ret_type.data_type = cfg.promoted_type x2.ret_type.data_type x3.ret_type.data_type ∧
      y3.ret_type.data_type = cfg.promoted_type x2.ret_type.data_type x3.ret_type.data_type ∧
      (o2 = op2 ∨ (ir.stmts[o2]? = none ∧ y2 = by_value_cast op2
        (cfg.promoted_type x2.ret_type.data_type x3.ret_type.data_type) x2.ret_type.width b)) ∧
      (o3 = op3 ∨ (ir.stmts[o3]? = none ∧ y3 = by_value_cast op3
        (cfg.promoted_type x2.ret_type.data_type x3.ret_type.data_type) x3.ret_type.width b))
    := by
  generalize hP : cfg.promoted_type x2.ret_type.data_type x3.ret_type.data_type = P
  have ha : Anchored ir s b := ⟨x, blk, hs, hp, hb, hm⟩
  -- first promotion
  obtain ⟨ir1, o2, y2, hok1, keep1, -, hs1, ho2, hcase1⟩ :=
    cast_before_if_step StmtKind.set_op2 skeleton_set_op2 P (P ≠ x2.ret_type.data_type)
      ha hs h2 (by rw [hk]; rfl)
  have hk1 : ({ x with kind := StmtKind.set_op2 o2 x.kind } : Stmt).kind =
      .TernaryOpStmt .select op1 o2 op3 := by simp [hk, StmtKind.set_op2]
  obtain ⟨x3', h3', ht3, -, -⟩ := keep1.1 op3 x3 h3
  -- second promotion
  obtain ⟨ir2, o3, y3, hok2, keep2, -, hs2, ho3, hcase2⟩ :=
    cast_before_if_step StmtKind.set_op3 skeleton_set_op3 P (P ≠ x3.ret_type.data_type)
      (Anchored_keeps keep1 ha) hs1 h3' (by rw [hk1]; rfl)
  have hk2 : ({ ({ x with kind := StmtKind.set_op2 o2 x.kind } : Stmt) with
      kind := StmtKind.set_op3 o3 (StmtKind.set_op2 o2 x.kind) } : Stmt).kind =
      .TernaryOpStmt .select op1 o2 o3 := by simp [hk, StmtKind.set_op2, StmtKind.set_op3]
  obtain ⟨x1', h1', ht1, -, -⟩ := (Keeps_trans keep1 keep2).1 op1 x1 h1
  have hv : visit_TernaryOpStmt cfg s ir = .ok (ir2.set_ret_type s ⟨x1.ret_type.width, P⟩) := by
    unfold visit_TernaryOpStmt
    simp only [bind, Except.bind, IR.ternary_of hs hk, IR.ret_type_of h2, IR.ret_type_of h3,
      IR.ret_type_of h1, hP, hc, hw12, hw23, ne_eq, not_true_eq_false, if_false, if_true,
      hok1, IR.ternary_of hs1 hk1, IR.ret_type_of h3', ht3, hok2, IR.ternary_of hs2 hk2,
      IR.ret_type_of h1', ht1]
    rfl
  have hslt : s < ir.stmts.length := lt_of_get hs
  -- the types of the final operands before the result type is assigned
  have hd2 : y2.ret_type.data_type = P := by
    rcases hcase1 with ⟨hn, -, -, rfl⟩ | ⟨-, -, rfl⟩
    · exact (not_not.1 hn).symm
    · rfl
  have hd3 : y3.ret_type.data_type = P := by
    rcases hcase2 with ⟨hn, -, -, rfl⟩ | ⟨-, -, rfl⟩
    · rw [ht3]; exact (not_not.1 hn).symm
    · rfl
  obtain ⟨y2', ho2', hty2, -, hsame2⟩ := keep2.1 o2 y2 ho2
  obtain ⟨z2, hz2, hzd2, -⟩ := IR.set_ret_type_keeps (fun T => T.data_type = P) ir2 s o2
    ⟨x1.ret_type.width, P⟩ y2' ho2' (by rw [hty2]; exact hd2) rfl
  obtain ⟨z3, hz3, hzd3, -⟩ := IR.set_ret_type_keeps (fun T => T.data_type = P) ir2 s o3
    ⟨x1.ret_type.width, P⟩ y3 ho3 hd3 rfl
  refine ⟨_, ⟨.TernaryOpStmt .select op1 o2 o3, ⟨x1.ret_type.width, P⟩, x.parent⟩, o2, o3,
    z2, z3, hv, ?_, rfl, rfl, hz2, hz3, hzd2, hzd3, ?_, ?_⟩
  · rw [IR.set_ret_type_get, if_pos rfl, hs2]
    simp [hk, StmtKind.set_op2, StmtKind.set_op3]
  · rcases hcase1 with ⟨-, h, -, -⟩ | ⟨-, ho, hy⟩
    · exact Or.inl h
    · right
      have hne : o2 ≠ s := by rw [ho]; exact Nat.ne_of_gt hslt
      refine ⟨by rw [ho]; exact List.getElem?_eq_none (Nat.le_refl _), ?_⟩
      rw [IR.set_ret_type_get, if_neg hne, ho2'] at hz2
      cases hz2
      rw [hsame2 hne, hy]
  · rcases hcase2 with ⟨-, h, -, -⟩ | ⟨-, ho, hy⟩
    · exact Or.inl h
    · right
      have hlt1 : s < ir1.stmts.length := lt_of_get hs1
      have hne : o3 ≠ s := by rw [ho]; exact Nat.ne_of_gt hlt1
      constructor
      · cases hq : ir.stmts[o3]? with
        | none => rfl
        | some q =>
          obtain ⟨q', hq', -⟩ := keep1.1 o3 q hq
          rw [ho, List.getElem?_eq_none (Nat.le_refl _)] at hq'
          cases hq'
      · rw [IR.set_ret_type_get, if_neg hne, ho3] at hz3
        cases hz3
        rw [hy, ht3]

/-- Witness of C3: `select %0 %1 %2` with `%1 : i32` and `%2 : f32`. -/
theorem C3_select_postcondition_witness :
    ∃ ir' x' o2 o3 y2 y3, visit_TernaryOpStmt cfgA 3 scenarioSelect = .ok ir' ∧
      ir'.stmts[3]? = some x' ∧ x'.kind = .TernaryOpStmt .select 0 o2 o3 ∧
      x'.ret_type = ⟨1, cfgA.promoted_type .i32 .f32⟩ ∧
      ir'.stmts[o2]? = some y2 ∧ ir'.stmts[o3]? = some y3 ∧
      y2.ret_type.data_type = cfgA.promoted_type .i32 .f32 ∧
      y3.ret_type.data_type = cfgA.promoted_type .i32 .f32 ∧
      (o2 = 1 ∨ (scenarioSelect.stmts[o2]? = none ∧
        y2 = by_value_cast 1 (cfgA.promoted_type .i32 .f32) 1 0)) ∧
      (o3 = 2 ∨ (scenarioSelect.stmts[o3]? = none ∧
        y3 = by_value_cast 2 (cfgA.promoted_type .i32 .f32) 1 0)) :=
  C3_select_postcondition cfgA 3 scenarioSelect ⟨.TernaryOpStmt .select 0 1 2, ⟨1, .unknown⟩, some 0⟩
    (value 1 .i32 0) (value 1 .i32 0) (value 1 .f32 0) 0 1 2 0 [0, 1, 2, 3]
    rfl rfl rfl rfl (by decide) rfl rfl rfl rfl rfl rfl

/-- C7: a `select` whose condition `op1` does not have element type `i32`, or whose three
operands do not all have the same width, aborts fatally; the state at the abort is the state
before the visit, so no cast was inserted and the operands `op2`, `op3` and the result type
of the select are unchanged. -/
theorem C7_select_abort (cfg : Config) (s : StmtId) (ir : IR) (x x1 x2 x3 : Stmt)
    (op1 op2 op3 : StmtId)
    (hs : ir.stmts[s]? = some x) (hk : x.kind = .TernaryOpStmt .select op1 op2 op3)
    (h1 : ir.stmts[op1]? = some x1) (h2 : ir.stmts[op2]? = some x2)
    (h3 : ir.stmts[op3]? = some x3)
    (hbad : x1.ret_type.data_type ≠ .i32 ∨ x1.ret_type.width ≠ x2.ret_type.width ∨
      x2.ret_type.width ≠ x3.ret_type.width) :
    visit_TernaryOpStmt cfg s ir = .error (.fatal ir) := by
  unfold visit_TernaryOpStmt
  simp only [bind, Except.bind, IR.ternary_of hs hk, IR.ret_type_of h2, IR.ret_type_of h3,
    IR.ret_type_of h1, if_true]
  by_cases hc : x1.ret_type.data_type = .i32
  · by_cases hw : x1.ret_type.width = x2.ret_type.width
    · have hw' : x2.ret_type.width ≠ x3.ret_type.width := by
        rcases hbad with h | h | h
        · exact absurd hc h
        · exact absurd hw h
        · exact h
      simp [hc, hw, hw', fatal]
    · simp [hc, hw, fatal]
  · simp [hc, fatal]

/-- Witness of C7: Scenario D, a select with a condition of type `f32`. -/
theorem C7_select_abort_witness :
    visit_TernaryOpStmt cfgA 3 scenarioD = .error (.fatal scenarioD) :=
  C7_select_abort cfgA 3 scenarioD ⟨.TernaryOpStmt .select 0 1 2, ⟨1, .unknown⟩, some 0⟩
    (value 1 .f32 0) (value 1 .i32 0) (value 1 .f32 0) 0 1 2 rfl rfl rfl rfl rfl
    (Or.inl (by decide))

/-- C8: a `floordiv` whose operands have the same integral element type `T` and the same
width. The visit returns; the operator is `div` afterwards; nothing is inserted (statements
other than the instruction, blocks, warnings and the log of accepted statements are
unchanged); the operands are unchanged; the result type is `T` at the width of the operands.
This holds for every configuration, so independently of the default integer type. -/
theorem C8_floordiv_integral (cfg : Config) (s : StmtId) (ir : IR) (x xl xr : Stmt)
    (l r : StmtId)
    (hs : ir.stmts[s]? = some x) (hk : x.kind = .BinaryOpStmt .floordiv l r)
    (hl : ir.stmts[l]? = some xl) (hr : ir.stmts[r]? = some xr)
    (hT : xl.ret_type.data_type = xr.ret_type.data_type)
    (hint : is_integral xl.ret_type.data_type = true)
    (hw : xl.ret_type.width = xr.ret_type.width) :
    visit_BinaryOpStmt cfg s ir = .ok
      { ir with stmts := (ir.stmts.set s
          { x with kind := .BinaryOpStmt .div l r, ret_type := xl.ret_type }) } := by
  have hkn : xl.ret_type.data_type ≠ .unknown := is_integral_known hint
  have hnu : ¬ (xl.ret_type.data_type = .unknown ∧ xr.ret_type.data_type = .unknown) :=
    fun h => hkn h.1
  have hlow : lower_floordiv cfg s ir = .ok (ir.set_op_type s .div) := by
    simp [lower_floordiv, bind, Except.bind, IR.binary_of hs hk,
      coerce_lhs_skip cfg.default_ip hs hk hl hint,
      coerce_rhs_skip cfg.default_ip hs hk hr (hT ▸ hint), pure, Except.pure]
  have hs1 : (ir.set_op_type s .div).stmts[s]? =
      some { x with kind := .BinaryOpStmt .div l r } := by
    unfold IR.set_op_type
    rw [IR.assign_get, if_pos rfl, hs]
    simp [hk, StmtKind.set_op_type]
  have keep : Keeps s ir (ir.set_op_type s .div) := Keeps_assign _ _ _
  obtain ⟨xl', hl', htl, -, -⟩ := keep.1 l xl hl
  obtain ⟨xr', hr', htr, -, -⟩ := keep.1 r xr hr
  have htd := lower_truediv_skip cfg hs1 rfl (by decide)
  have hpr := promote_skip cfg hs1 rfl hl' hr' (by rw [htl, htr]; exact hT)
  have heq : xl.ret_type = xr.ret_type := by
    cases hxl : xl.ret_type; cases hxr : xr.ret_type
    rw [hxl, hxr] at hT hw
    simp only at hT hw
    rw [hT, hw]
  unfold visit_BinaryOpStmt
  simp only [bind, Except.bind, IR.binary_of hs hk, IR.ret_type_of hl, IR.ret_type_of hr,
    if_neg hnu, hlow, htd, hpr, check_and_assign_eval hs1 rfl hl' hr', htl, htr]
  rw [if_pos ⟨hkn, heq⟩]
  simp only [binary_is_bitwise, is_comparison, Bool.false_eq_true, false_and, if_false]
  unfold IR.set_op_type IR.assign
  rw [IR.modify_eq _ _ _ _ hs]
  simp [hk, StmtKind.set_op_type]

/-- Witness of C8: Scenario E. -/
theorem C8_floordiv_integral_witness :
    visit_BinaryOpStmt cfgA 2 scenarioE = .ok
      { scenarioE with stmts := (scenarioE.stmts.set 2
          ⟨.BinaryOpStmt .div 0 1, ⟨1, .i32⟩, some 0⟩) } :=
  C8_floordiv_integral cfgA 2 scenarioE ⟨.BinaryOpStmt .floordiv 0 1, ⟨1, .unknown⟩, some 0⟩
    (value 1 .i32 0) (value 1 .i32 0) 0 1 rfl rfl rfl rfl rfl rfl rfl

/-- C5 (Scenario B): the local store `%2 = store %0 <- %1` into the slot `%0 : i32` of the
value `%1 : f64`, with `promoted_type i32 f64 = f64`. The visit returns and a precision-loss
warning is logged, the slot stays `i32` and the result type of the store is `i32`, but no
cast is inserted: line 70 compares the promoted type `f64` with the type `f64` of the value,
so the data operand still is `%1`, of type `f64`. -/
theorem C5_local_store_no_cast :
    cfgA.promoted_type .i32 .f64 = .f64 ∧
    visit_LocalStoreStmt cfgA 2 scenarioB = .ok
      { stmts := [⟨.AllocaStmt, ⟨1, .i32⟩, some 0⟩, value 1 .f64 0,
          ⟨.LocalStoreStmt 0 1, ⟨1, .i32⟩, some 0⟩]
        blocks := [[0, 1, 2]]
        warnings := [.local_store_precision 2]
        accepted := [] } :=
  ⟨rfl, rfl⟩

/-- C6: a global address computation `s` with a non-empty set of addressed nodes (all node and
parent pointers non-null, all index operands statements of the state, `s` not its own index).
The visit returns if and only if (i) for every addressed node the `num_active_indices` of
its parent is 0 or the number of index operands and (ii) every index operand has an integral
element type and a width equal to the number of addressed nodes; otherwise it aborts fatally.
In both cases the state reached is the initial state with the element type of `s` set to the
`dt` of the first node: no statement is inserted into any block. -/
theorem C6_global_ptr (s : StmtId) (ir : IR) (x : Stmt) (snodes : List (Option SNode))
    (indices : List StmtId)
    (hs : ir.stmts[s]? = some x) (hk : x.kind = .GlobalPtrStmt snodes indices)
    (hne : snodes ≠ [])
    (hvs : ∀ p ∈ snodes, ∃ sn par, p = some sn ∧ sn.parent = some par)
    (hvi : ∀ i ∈ indices, ∃ xi, ir.stmts[i]? = some xi)
    (hself : s ∉ indices) :
    ∃ sn0, snodes.head? = some (some sn0) ∧
      (arity_matches snodes indices.length ∧ indices_integral ir indices snodes.length →
        visit_GlobalPtrStmt s ir = .ok (ir.set_data_type s sn0.dt)) ∧
      (¬ (arity_matches snodes indices.length ∧ indices_integral ir indices snodes.length) →
        visit_GlobalPtrStmt s ir = .error (.fatal (ir.set_data_type s sn0.dt))) ∧
      (ir.set_data_type s sn0.dt).blocks = ir.blocks ∧
      (ir.set_data_type s sn0.dt).stmts =
        ir.stmts.set s { x with ret_type := ⟨x.ret_type.width, sn0.dt⟩ } := by
  cases hsn : snodes with
  | nil => exact absurd hsn hne
  | cons p rest =>
    obtain ⟨sn0, par0, rfl, hpar0⟩ := hvs p (by rw [hsn]; exact List.mem_cons_self _ _)
    refine ⟨sn0, rfl, ?_, ?_, by simp [IR.set_data_type], ?_⟩
    rotate_left 2
    · unfold IR.set_data_type
      rw [IR.modify_eq _ _ _ _ hs]
    all_goals
      rw [← hsn]
      have hget : ∀ i ∈ indices, (ir.set_data_type s sn0.dt).stmts[i]? = ir.stmts[i]? := by
        intro i hi
        rw [IR.set_data_type_get, if_neg (fun h : i = s => hself (h ▸ hi))]
      have hvi' : ∀ i ∈ indices, ∃ xi, (ir.set_data_type s sn0.dt).stmts[i]? = some xi := by
        intro i hi
        rw [hget i hi]
        exact hvi i hi
      have e1 := check_snodes_eval (ir.set_data_type s sn0.dt) indices.length snodes hvs
      have e2 := check_indices_eval (ir.set_data_type s sn0.dt) snodes.length indices hvi'
      have hiff : indices_integral (ir.set_data_type s sn0.dt) indices snodes.length ↔
          indices_integral ir indices snodes.length := by
        constructor
        · intro h i hi xi hxi
          exact h i hi xi (by rw [hget i hi]; exact hxi)
        · intro h i hi xi hxi
          exact h i hi xi (by rw [← hget i hi]; exact hxi)
      have hvis : visit_GlobalPtrStmt s ir = (do
          check_snodes (ir.set_data_type s sn0.dt) indices.length snodes
          check_indices (ir.set_data_type s sn0.dt) snodes.length indices
          pure (ir.set_data_type s sn0.dt)) := by
        unfold visit_GlobalPtrStmt
        simp only [bind, Except.bind, IR.deref_of hs, hk]
        rw [hsn]
        simp [snodes_to_pointer, pure, Except.pure]
      rw [hvis]
    · rintro ⟨ha, hi⟩
      rw [e1.1 ha, e2.1 (hiff.2 hi)]
      rfl
    · intro hn
      by_cases ha : arity_matches snodes indices.length
      · have hi : ¬ indices_integral ir indices snodes.length := fun h => hn ⟨ha, h⟩
        rw [e1.1 ha, e2.2 (fun h => hi (hiff.1 h))]
        rfl
      · rw [e1.2 ha]
        rfl

/-- Witness of C6: Scenario C, three index values against a parent of arity 2. -/
theorem C6_global_ptr_witness :
    (∃ sn0, [some (⟨.f32, some ⟨2⟩⟩ : SNode)].head? = some (some sn0) ∧
      (arity_matches [some ⟨.f32, some ⟨2⟩⟩] 3 ∧ indices_integral scenarioC [0, 1, 2] 1 →
        visit_GlobalPtrStmt 3 scenarioC = .ok (scenarioC.set_data_type 3 sn0.dt)) ∧
      (¬ (arity_matches [some ⟨.f32, some ⟨2⟩⟩] 3 ∧ indices_integral scenarioC [0, 1, 2] 1) →
        visit_GlobalPtrStmt 3 scenarioC =
          .error (.fatal (scenarioC.set_data_type 3 sn0.dt))) ∧
      (scenarioC.set_data_type 3 sn0.dt).blocks = scenarioC.blocks ∧
      (scenarioC.set_data_type 3 sn0.dt).stmts =
        scenarioC.stmts.set 3
          ⟨.GlobalPtrStmt [some ⟨.f32, some ⟨2⟩⟩] [0, 1, 2], ⟨1, sn0.dt⟩, some 0⟩) ∧
    visit_GlobalPtrStmt 3 scenarioC = .error (.fatal (scenarioC.set_data_type 3 .f32)) :=
  ⟨C6_global_ptr 3 scenarioC
    ⟨.GlobalPtrStmt [some ⟨.f32, some ⟨2⟩⟩] [0, 1, 2], ⟨1, .unknown⟩, some 0⟩
    [some ⟨.f32, some ⟨2⟩⟩] [0, 1, 2] rfl rfl (by decide)
    (by intro p hp; simp at hp; exact ⟨_, _, hp, rfl⟩)
    (by intro i hi; simp at hi; rcases hi with rfl | rfl | rfl <;> exact ⟨_, rfl⟩)
    (by decide), rfl⟩

/-- C9, counterexample: the pass returns on a block that holds an allocation slot never
stored to and a load of it; both are reachable from the root block afterwards and both still
have the element type `unknown`. -/
theorem C9_counterexample :
    run cfgA 1 0 unstored = .ok unstored_after ∧
    Reachable unstored_after 0 0 ∧ Reachable unstored_after 0 1 ∧
    unstored_after.stmts[0]? = some ⟨.AllocaStmt, ⟨1, .unknown⟩, some 0⟩ ∧
    unstored_after.stmts[1]? = some ⟨.LocalLoadStmt [0], ⟨1, .unknown⟩, some 0⟩ :=
  ⟨rfl, Reachable.top [0, 1] 0 rfl (by decide), Reachable.top [0, 1] 1 rfl (by decide),
    rfl, rfl⟩

/-- C9, amended: when `TypeCheck::run` returns on a root block, every statement reachable
from the root block afterwards that is a binary operator, a storage-tree operation
(`SNodeOpStmt`) or a loop-index query has a result element type different from `unknown`. -/
theorem C9_typed_concrete (cfg : Config) (fuel : Nat) (root : BlockId) (ir ir' : IR)
    (h : run cfg fuel root ir = .ok ir') (t : StmtId) (x : Stmt)
    (hr : Reachable ir' root t) (hx : ir'.stmts[t]? = some x)
    (hk : (∃ op l r, x.kind = .BinaryOpStmt op l r) ∨ x.kind = .SNodeOpStmt ∨
      x.kind = .LoopIndexStmt) :
    x.ret_type.data_type ≠ .unknown := by
  have ht : x.kind.typed = true := by
    rcases hk with ⟨op, l, r, hk⟩ | hk | hk <;> rw [hk] <;> rfl
  obtain ⟨e, g⟩ := visit_Block_ok (accept_ok cfg fuel) root ir ir' h
  rcases Reachable_back e hr with hr0 | hnew
  · exact g t hr0 x hx ht
  · obtain ⟨i, dt, hc⟩ := e.fresh t x hnew hx
    rw [hc] at ht
    cases ht

/-- Witness of C9 (amended): the add inside the conditional of `nested_add`. -/
theorem C9_typed_concrete_witness :
    run cfgA 2 0 nested_add = .ok nested_add_after ∧
    (⟨.BinaryOpStmt .add 4 1, ⟨1, .f32⟩, some 1⟩ : Stmt).ret_type.data_type ≠ .unknown :=
  ⟨rfl, C9_typed_concrete cfgA 2 0 nested_add nested_add_after rfl 3
    ⟨.BinaryOpStmt .add 4 1, ⟨1, .f32⟩, some 1⟩
    (Reachable.nested 2 ⟨.IfStmt (some 1) none, ⟨1, .unknown⟩, some 0⟩ 1 [4, 3] 3
      (Reachable.top [0, 1, 2] 2 rfl (by decide)) rfl (by decide) rfl (by decide))
    rfl (Or.inl ⟨_, _, _, rfl⟩)⟩

/-! ## The claims C11 to C20 -/

/-- C11: a global store `s` in its owning block `b`, with pointer `ptr` of type `P` and data
operand `data` of element type `d`. The visit returns. Afterwards the data operand `o` of
the store has the element type of `P`: when `d` differs from it, `o` is a new by-value cast
of `data` to that type, at the width of `data`, placed immediately before the store, and
nothing else is inserted; when `d` equals it, `o` is `data` and nothing is inserted. The
result type of the store is `P`, the type of the pointer is still `P`, every statement other
than the store is unchanged, and a precision-loss warning is logged exactly when the element
type of `P` is not `promoted_type` of it and `d`. -/
theorem C11_global_store (cfg : Config) (s : StmtId) (ir : IR) (x xp xd : Stmt)
    (ptr data : StmtId) (b : BlockId) (blk : List StmtId)
    (hs : ir.stmts[s]? = some x) (hk : x.kind = .GlobalStoreStmt ptr data)
    (hpar : x.parent = some b) (hb : ir.blocks[b]? = some blk) (hmem : s ∈ blk)
    (hp : ir.stmts[ptr]? = some xp) (hd : ir.stmts[data]? = some xd) :
    ∃ pre post ir' o y xp', blk = pre ++ s :: post ∧ s ∉ pre ∧
      visit_GlobalStoreStmt cfg s ir = .ok ir' ∧
      ir'.stmts[s]? = some ⟨.GlobalStoreStmt ptr o, xp.ret_type, x.parent⟩ ∧
      ir'.stmts[o]? = some y ∧ y.ret_type.data_type = xp.ret_type.data_type ∧
      ir'.stmts[ptr]? = some xp' ∧ xp'.ret_type = xp.ret_type ∧
      (∀ t, t ≠ s → t < ir.stmts.length → ir'.stmts[t]? = ir.stmts[t]?) ∧
      ir'.warnings = ir.warnings ++
        (if xp.ret_type.data_type
            ≠ cfg.promoted_type xp.ret_type.data_type xd.ret_type.data_type
          then [.global_store_precision xp.ret_type.data_type xd.ret_type.data_type]
          else []) ∧
      (xp.ret_type.data_type = xd.ret_type.data_type →
        o = data ∧ ir'.stmts.length = ir.stmts.length ∧ ir'.blocks = ir.blocks ∧
        ir'.accepted = ir.accepted) ∧
      (xp.ret_type.data_type ≠ xd.ret_type.data_type →
        o = ir.stmts.length ∧
        y = by_value_cast data xp.ret_type.data_type xd.ret_type.width b ∧
        ir'.stmts.length = ir.stmts.length + 1 ∧
        ir'.blocks = ir.blocks.set b (pre ++ ir.stmts.length :: s :: post) ∧
        ir'.accepted = ir.accepted ++ [ir.stmts.length]) := by
  obtain ⟨pre, post, hblk, hpre, -, -⟩ := insert_before_spec s ir.stmts.length blk hmem
  subst hblk
  have hslt : s < ir.stmts.length := lt_of_get hs
  have hplt : ptr < ir.stmts.length := lt_of_get hp
  have hxeq : ∀ o T, ({ x with kind := StmtKind.set_data o x.kind, ret_type := T } : Stmt) =
      ⟨.GlobalStoreStmt ptr o, T, x.parent⟩ := by
    intro o T; rw [hk]; rfl
  have hxeq0 : ∀ T, ({ x with ret_type := T } : Stmt) =
      ⟨.GlobalStoreStmt ptr data, T, x.parent⟩ := by
    intro T; rw [hk]
  by_cases hc : xp.ret_type.data_type = xd.ret_type.data_type
  · -- no cast
    have hcb : cast_before_if (xp.ret_type.data_type ≠ xd.ret_type.data_type) s data
        xp.ret_type.data_type StmtKind.set_data ir = .ok ir := by
      unfold cast_before_if
      rw [if_neg (not_not.2 hc)]
      rfl
    have hev : visit_GlobalStoreStmt cfg s ir = .ok
        { ir with
          stmts := ir.stmts.set s { x with ret_type := xp.ret_type }
          warnings := ir.warnings ++
            (if xp.ret_type.data_type
                ≠ cfg.promoted_type xp.ret_type.data_type xd.ret_type.data_type
              then [.global_store_precision xp.ret_type.data_type xd.ret_type.data_type]
              else []) } := by
      unfold visit_GlobalStoreStmt
      simp only [bind, Except.bind, IR.deref_of hs, hk, IR.ret_type_of hp, IR.ret_type_of hd,
        hcb, warn_if_ret_type, pure, Except.pure, warn_if_set_ret_type _ _ _ _ _ _ hs]
    have hy : ∃ y, (ir.stmts.set s { x with ret_type := xp.ret_type })[data]? = some y ∧
        y.ret_type.data_type = xp.ret_type.data_type := by
      by_cases hds : data = s
      · subst hds
        rw [List.getElem?_set_self hslt]
        exact ⟨_, rfl, rfl⟩
      · rw [List.getElem?_set_ne (Ne.symm hds)]
        exact ⟨xd, hd, hc.symm⟩
    have hq : ∃ y, (ir.stmts.set s { x with ret_type := xp.ret_type })[ptr]? = some y ∧
        y.ret_type = xp.ret_type := by
      by_cases hds : ptr = s
      · subst hds
        rw [List.getElem?_set_self hslt]
        exact ⟨_, rfl, rfl⟩
      · rw [List.getElem?_set_ne (Ne.symm hds)]
        exact ⟨xp, hp, rfl⟩
    obtain ⟨y, hy1, hy2⟩ := hy
    obtain ⟨q, hq1, hq2⟩ := hq
    refine ⟨pre, post, _, data, y, q, rfl, hpre, hev, ?_, hy1, hy2, hq1, hq2, ?_, rfl, ?_, ?_⟩
    · simp only
      rw [List.getElem?_set_self hslt, hxeq0]
    · intro t hts _
      simp only
      rw [List.getElem?_set_ne (Ne.symm hts)]
    · intro _
      exact ⟨rfl, by simp, rfl, rfl⟩
    · intro h
      exact absurd hc h
  · -- one cast
    have hcb : cast_before_if (xp.ret_type.data_type ≠ xd.ret_type.data_type) s data
        xp.ret_type.data_type StmtKind.set_data ir =
        cast_before s data xp.ret_type.data_type StmtKind.set_data ir := by
      unfold cast_before_if
      rw [if_pos hc]
    rw [cast_before_at StmtKind.set_data xp.ret_type.data_type hs hpar hb hpre hd] at hcb
    generalize hC : by_value_cast data xp.ret_type.data_type xd.ret_type.width b = C at hcb
    obtain ⟨ir1, hir1⟩ : ∃ ir1 : IR, ir1 =
        { stmts := (ir.stmts ++ [C]).set s
            { x with kind := StmtKind.set_data ir.stmts.length x.kind }
          blocks := ir.blocks.set b (pre ++ ir.stmts.length :: s :: post)
          warnings := ir.warnings
          accepted := ir.accepted ++ [ir.stmts.length] } := ⟨_, rfl⟩
    rw [← hir1] at hcb
    have hs1 : ir1.stmts[s]? =
        some { x with kind := StmtKind.set_data ir.stmts.length x.kind } := by
      rw [hir1]; exact get_snoc_set_self _ _ hslt
    have hq : ∃ q, ir1.stmts[ptr]? = some q ∧ q.ret_type = xp.ret_type := by
      rw [hir1]
      by_cases hds : ptr = s
      · subst hds
        simp only
        rw [get_snoc_set_self _ _ hslt]
        rw [hs] at hp
        cases hp
        exact ⟨_, rfl, rfl⟩
      · simp only
        rw [get_snoc_set_old _ _ hplt hds]
        exact ⟨xp, hp, rfl⟩
    obtain ⟨q, hq1, hq2⟩ := hq
    have hev : visit_GlobalStoreStmt cfg s ir = .ok
        { ir1 with
          stmts := ir1.stmts.set s
              { x with kind := StmtKind.set_data ir.stmts.length x.kind,
                       ret_type := xp.ret_type }
          warnings := ir1.warnings ++
            (if xp.ret_type.data_type
                ≠ cfg.promoted_type xp.ret_type.data_type xd.ret_type.data_type
              then [.global_store_precision xp.ret_type.data_type xd.ret_type.data_type]
              else []) } := by
      unfold visit_GlobalStoreStmt
      simp only [bind, Except.bind, IR.deref_of hs, hk, IR.ret_type_of hp, IR.ret_type_of hd,
        hcb, warn_if_ret_type, pure, Except.pure, IR.ret_type_of hq1, hq2]
      simp only [warn_if_set_ret_type _ _ _ _ _ _ hs1]
      rw [hk]
    subst hir1
    simp only [List.set_set] at hev
    have hq' : ∃ q, ((ir.stmts ++ [C]).set s
        { x with kind := StmtKind.set_data ir.stmts.length x.kind,
                 ret_type := xp.ret_type })[ptr]? = some q ∧
        q.ret_type = xp.ret_type := by
      by_cases hds : ptr = s
      · subst hds
        rw [get_snoc_set_self _ _ hslt]
        exact ⟨_, rfl, rfl⟩
      · rw [get_snoc_set_old _ _ hplt hds]
        exact ⟨xp, hp, rfl⟩
    obtain ⟨q', hq1', hq2'⟩ := hq'
    refine ⟨pre, post, _, ir.stmts.length, C, q', rfl, hpre, hev, ?_, ?_, ?_, hq1', hq2', ?_,
      rfl, ?_, ?_⟩
    · simp only
      rw [get_snoc_set_self _ _ hslt, hxeq]
    · exact get_snoc_set_new _ _ hslt
    · rw [← hC]; rfl
    · intro t hts htl
      exact get_snoc_set_old _ _ htl hts
    · intro h
      exact absurd h hc
    · intro _
      exact ⟨rfl, rfl, by simp, rfl, rfl⟩

/-- Witness of C11: the store `%2 = global store %0 <- %1` of an `i32` value through a
pointer of element type `f32`. -/
theorem C11_global_store_witness :
    ∃ pre post ir' o y xp', [0, 1, 2] = pre ++ 2 :: post ∧ 2 ∉ pre ∧
      visit_GlobalStoreStmt cfgA 2 global_store_f32_i32 = .ok ir' ∧
      ir'.stmts[2]? = some ⟨.GlobalStoreStmt 0 o, ⟨1, .f32⟩, some 0⟩ ∧
      ir'.stmts[o]? = some y ∧ y.ret_type.data_type = .f32 ∧
      ir'.stmts[0]? = some xp' ∧ xp'.ret_type = ⟨1, .f32⟩ ∧
      (∀ t, t ≠ 2 → t < 3 → ir'.stmts[t]? = global_store_f32_i32.stmts[t]?) ∧
      ir'.warnings = [] ++
        (if DataType.f32 ≠ cfgA.promoted_type .f32 .i32
          then [.global_store_precision .f32 .i32] else []) ∧
      (DataType.f32 = .i32 →
        o = 1 ∧ ir'.stmts.length = 3 ∧ ir'.blocks = [[0, 1, 2]] ∧ ir'.accepted = []) ∧
      (DataType.f32 ≠ .i32 →
        o = 3 ∧ y = by_value_cast 1 .f32 1 0 ∧ ir'.stmts.length = 3 + 1 ∧
        ir'.blocks = [[0, 1, 2]].set 0 (pre ++ 3 :: 2 :: post) ∧
        ir'.accepted = [] ++ [3]) :=
  C11_global_store cfgA 2 global_store_f32_i32 ⟨.GlobalStoreStmt 0 1, ⟨1, .unknown⟩, some 0⟩
    (value 1 .f32 0) (value 1 .i32 0) 0 1 0 [0, 1, 2] rfl rfl rfl rfl (by decide) rfl rfl

/-- C12: a global address computation whose set of addressed nodes is empty: the rule
`visit(GlobalPtrStmt *)` aborts fatally, in the state it was entered with, whatever the index
operands are, in particular when there are none. -/
theorem C12_global_ptr_empty (s : StmtId) (ir : IR) (x : Stmt) (indices : List StmtId)
    (hs : ir.stmts[s]? = some x) (hk : x.kind = .GlobalPtrStmt [] indices) :
    visit_GlobalPtrStmt s ir = .error (.fatal ir) := by
  unfold visit_GlobalPtrStmt
  simp only [bind, Except.bind, IR.deref_of hs, hk, snodes_to_pointer, fatal]

/-- Witness of C12: an address computation with no addressed node and no index operand. -/
theorem C12_global_ptr_empty_witness :
    visit_GlobalPtrStmt 0 ⟨[⟨.GlobalPtrStmt [] [], ⟨1, .unknown⟩, some 0⟩], [[0]], [], []⟩ =
      .error (.fatal ⟨[⟨.GlobalPtrStmt [] [], ⟨1, .unknown⟩, some 0⟩], [[0]], [], []⟩) :=
  C12_global_ptr_empty 0 ⟨[⟨.GlobalPtrStmt [] [], ⟨1, .unknown⟩, some 0⟩], [[0]], [], []⟩
    ⟨.GlobalPtrStmt [] [], ⟨1, .unknown⟩, some 0⟩ [] rfl rfl

/-- C13: the order of dispatch. Let the pass return on the root block `root` of a tree in
which every block lists existing statements and in which, when a statement is dispatched,
the block that owns it and the blocks that own its operands are not entered later. Then the
log of the calls of `accept` grows by a list `Lg` in which the statements that existed before
the pass are exactly the statements of the tree in depth-first program order, and the other
statements are exactly the casts created by the pass, each once, in the order of creation
(a cast is dispatched by the synthesizer when it is created and never by the loop over a
snapshot). So when no statement occurs twice in the tree, no statement is dispatched
twice. -/
theorem C13_dispatch_order (cfg : Config) (fuel : Nat) (root : BlockId) (ir ir' : IR)
    (hvalid : ∀ (b : BlockId) (l : List StmtId), ir.blocks[b]? = some l →
      ∀ t ∈ l, t < ir.stmts.length)
    (hwf : owners_entered ir (events_block fuel ir root))
    (h : run cfg fuel root ir = .ok ir') :
    ∃ Lg, ir'.accepted = ir.accepted ++ Lg ∧
      Lg.filter (fun t => decide (t < ir.stmts.length)) = program_order fuel ir root ∧
      Lg.filter (fun t => decide (ir.stmts.length ≤ t)) =
        List.range' ir.stmts.length (ir'.stmts.length - ir.stmts.length) ∧
      ((program_order fuel ir root).Nodup → Lg.Nodup) := by
  have inv : TraversalInv ir ir (events_block fuel ir root ++ []) := by
    refine ⟨Grows_refl ir, fun _ _ => rfl, by simpa using hwf, ?_⟩
    intro t ht
    exact events_block_old hvalid fuel root t (by simpa using ht)
  obtain ⟨-, -, Lg, ha, hv, hf⟩ :=
    visit_Block_traversal hvalid (accept_traversal cfg hvalid fuel) root ir ir' [] inv h
  refine ⟨Lg, ha, hv, hf, ?_⟩
  intro hnd
  apply nodup_of_filters
  · rw [hv]; exact hnd
  · rw [hf]; exact List.nodup_range' _ _

/-- Witness of C13: the add inside a conditional; the log is `%0, %1, %2, %3` and the cast
`%4`. -/
theorem C13_dispatch_order_witness :
    ∃ Lg, nested_add_after.accepted = nested_add.accepted ++ Lg ∧
      Lg.filter (fun t => decide (t < 4)) = program_order 2 nested_add 0 ∧
      Lg.filter (fun t => decide (4 ≤ t)) = List.range' 4 (5 - 4) ∧
      ((program_order 2 nested_add 0).Nodup → Lg.Nodup) :=
  C13_dispatch_order cfgA 2 0 nested_add nested_add_after
    (by
      intro b l hl t ht
      match b, hl with
      | 0, hl =>
        cases hl
        have ht' : t ∈ ([0, 1, 2] : List StmtId) := ht
        simp only [List.mem_cons, List.mem_singleton, List.not_mem_nil, or_false] at ht'
        rcases ht' with rfl | rfl | rfl <;> decide
      | 1, hl =>
        cases hl
        have ht' : t ∈ ([3] : List StmtId) := ht
        simp only [List.mem_singleton] at ht'
        subst ht'
        decide
      | n + 2, hl => cases hl)
    (by
      simp [owners_entered, events_block, events, block_of, bodies_of, operands_of, parent_of,
        nested_add, value, StmtKind.bodies, StmtKind.operands])
    rfl

/-- C14: the pass never deletes or reorders. Let `st` be the state in which a run of the pass
on the root block `root` ends, be it returned or reached at a fatal abort. Every block `b`
of the initial state is a block of `st`, and its statement list in `st` is its initial list
with statements inserted: all initial statements are kept in the same relative order
(the initial list is a sublist of the final one), and every inserted statement is a new
statement that is a unary cast with `cast_by_value = true`. -/
theorem C14_blocks_grow (cfg : Config) (fuel : Nat) (root : BlockId) (ir st : IR)
    (h : run cfg fuel root ir = .ok st ∨ run cfg fuel root ir = .error (.fatal st)) :
    ∀ (b : BlockId) (l : List StmtId), ir.blocks[b]? = some l →
      ∃ l', st.blocks[b]? = some l' ∧ l.Sublist l' ∧
        Inserted (fun c => ir.stmts[c]? = none ∧ IsByValueCast st c) l l' := by
  have ho : outcome (run cfg fuel root ir) = some st := by
    rcases h with h | h <;> rw [h] <;> rfl
  have g := Trace_grows (run_traces cfg fuel root ir st ho)
  intro b l hl
  obtain ⟨l', hl', hi⟩ := g.blocks b l hl
  refine ⟨l', hl', Inserted_sublist hi, Inserted_mono ?_ hi⟩
  intro c hc
  have hn : ir.stmts[c]? = none := List.getElem?_eq_none hc.1
  obtain ⟨x', hx'⟩ : ∃ x', st.stmts[c]? = some x' := ⟨_, List.getElem?_eq_getElem hc.2⟩
  obtain ⟨i, dt, hk⟩ := g.fresh c x' hc.1 hx'
  exact ⟨hn, x', i, dt, hx', hk⟩

/-- Witness of C14: the run on Scenario A returns; the cast `%3` is inserted into the root
block `[%0, %1, %2]`. -/
theorem C14_blocks_grow_witness :
    ∃ l', scenarioA_run.blocks[0]? = some l' ∧ [0, 1, 2].Sublist l' ∧
      Inserted (fun c => scenarioA.stmts[c]? = none ∧ IsByValueCast scenarioA_run c)
        [0, 1, 2] l' :=
  C14_blocks_grow cfgA 1 0 scenarioA scenarioA_run (Or.inl rfl) 0 [0, 1, 2] rfl

/-- C15: a bitwise binary operator `s`. When the visit returns, both operands of `s` have an
integral element type in the resulting state. When the promotion step returns a state `ir3`
in which the operands of `s` pass the matching check (same width, same known element type)
but their element type is not integral, the visit aborts fatally, in `ir3` with the two
messages of the bitwise error logged. -/
theorem C15_bitwise (cfg : Config) (s : StmtId) (ir : IR) (x : Stmt)
    (op : BinaryOpType) (l r : StmtId)
    (hs : ir.stmts[s]? = some x) (hk : x.kind = .BinaryOpStmt op l r)
    (hb : binary_is_bitwise op = true) :
    (∀ ir', visit_BinaryOpStmt cfg s ir = .ok ir' →
      ∃ x' l' r' xl xr, ir'.stmts[s]? = some x' ∧ x'.kind = .BinaryOpStmt op l' r' ∧
        ir'.stmts[l']? = some xl ∧ ir'.stmts[r']? = some xr ∧
        is_integral xl.ret_type.data_type = true ∧
        is_integral xr.ret_type.data_type = true) ∧
    (∀ ir3 x3 l3 r3 yl yr, promote cfg s ir = .ok ir3 →
      ir3.stmts[s]? = some x3 → x3.kind = .BinaryOpStmt op l3 r3 →
      ir3.stmts[l3]? = some yl → ir3.stmts[r3]? = some yr →
      yl.ret_type = yr.ret_type → yl.ret_type.data_type ≠ .unknown →
      is_integral yl.ret_type.data_type = false →
      visit_BinaryOpStmt cfg s ir =
        .error (.fatal ((ir3.warn .bitwise_integral).warn .compilation_stopped))) := by
  have hlow : lowered op = op := by
    cases op <;> first | rfl | cases hb
  have hcmp : is_comparison op = false := by
    cases op <;> first | rfl | cases hb
  have hf : op ≠ .floordiv := by rintro rfl; cases hb
  have ht : op ≠ .truediv := by rintro rfl; cases hb
  constructor
  · intro ir' h
    obtain ⟨ir3, l3, r3, hs3, -, -, hc⟩ := visit_BinaryOpStmt_track h hs hk
    obtain ⟨x3, op3, l3', r3', xl, xr, hx3, hk3, hxl, hxr, heq, hn, hbit, rfl⟩ :=
      check_and_assign_ok hc
    rw [hs3] at hx3
    cases hx3
    cases hk3
    rw [hlow] at hbit hs3 ⊢
    simp only [hcmp, Bool.false_eq_true, if_false]
    have hint := hbit hb
    obtain ⟨yl, hyl, hyl1, _⟩ :=
      IR.set_ret_type_keeps (fun T => T = xl.ret_type) ir3 s l3 xl.ret_type xl hxl rfl rfl
    obtain ⟨yr, hyr, hyr1, _⟩ :=
      IR.set_ret_type_keeps (fun T => T = xl.ret_type) ir3 s r3 xl.ret_type xr hxr heq.symm rfl
    refine ⟨⟨.BinaryOpStmt op l3 r3, xl.ret_type, x.parent⟩, l3, r3, yl, yr, ?_, rfl, hyl, hyr,
      ?_, ?_⟩
    · rw [IR.set_ret_type_get, if_pos rfl, hs3]
      rfl
    · rw [hyl1]; exact hint
    · rw [hyr1]; exact hint
  · intro ir3 x3 l3 r3 yl yr hp hs3 hk3 hyl hyr heq hn hni
    obtain ⟨xl, xr, hl, hr⟩ := promote_reads hp hs hk
    have hnu : ¬ (xl.ret_type.data_type = .unknown ∧ xr.ret_type.data_type = .unknown) := by
      rintro ⟨h1, h2⟩
      rw [promote_skip cfg hs hk hl hr (by rw [h1, h2])] at hp
      cases hp
      rw [hs] at hs3
      cases hs3
      rw [hk] at hk3
      cases hk3
      rw [hl] at hyl
      cases hyl
      exact hn h1
    unfold visit_BinaryOpStmt
    simp only [bind, Except.bind, IR.binary_of hs hk, IR.ret_type_of hl, IR.ret_type_of hr,
      if_neg hnu, lower_floordiv_skip cfg hs hk hf, lower_truediv_skip cfg hs hk ht, hp,
      check_and_assign_eval hs3 hk3 hyl hyr]
    rw [if_pos ⟨hn, heq⟩, if_pos ⟨hb, hni⟩]
    rfl

/-- Witness of C15: a `bit_and` of two `f32` values aborts fatally at the bitwise check. -/
theorem C15_bitwise_witness :
    visit_BinaryOpStmt cfgA 2 bit_and_f32 =
      .error (.fatal ((bit_and_f32.warn .bitwise_integral).warn .compilation_stopped)) :=
  (C15_bitwise cfgA 2 bit_and_f32 ⟨.BinaryOpStmt .bit_and 0 1, ⟨1, .unknown⟩, some 0⟩
    .bit_and 0 1 rfl rfl rfl).2 bit_and_f32 ⟨.BinaryOpStmt .bit_and 0 1, ⟨1, .unknown⟩, some 0⟩
    0 1 (value 1 .f32 0) (value 1 .f32 0) rfl rfl rfl rfl rfl rfl (by decide) rfl

/-- C16: for a unary operator `s` with operand `operand`, `visit(UnaryOpStmt *)` aborts
fatally exactly when the element type of the operand is not real and the operator is
trigonometric, `floor` or `ceil`; otherwise it returns, and the result type of `s` has the
width of the operand and, as element type, the cast target when the operator is `cast` and
the element type of the operand for every other operator. Nothing else is changed. -/
theorem C16_unary (s : StmtId) (ir : IR) (x xo : Stmt) (op : UnaryOpType) (operand : StmtId)
    (cast_type : DataType) (by_value : Bool)
    (hs : ir.stmts[s]? = some x) (hk : x.kind = .UnaryOpStmt op operand cast_type by_value)
    (ho : ir.stmts[operand]? = some xo) :
    ((∃ st, visit_UnaryOpStmt s ir = .error (.fatal st)) ↔
      (is_real xo.ret_type.data_type = false ∧ needs_real op = true)) ∧
    (¬ (is_real xo.ret_type.data_type = false ∧ needs_real op = true) →
      visit_UnaryOpStmt s ir = .ok (ir.set_ret_type s
        ⟨xo.ret_type.width, if op = .cast then cast_type else xo.ret_type.data_type⟩)) := by
  have hev : visit_UnaryOpStmt s ir =
      if is_real xo.ret_type.data_type = false ∧ needs_real op = true then
        .error (.fatal (ir.set_ret_type s xo.ret_type))
      else .ok (ir.set_ret_type s
        ⟨xo.ret_type.width, if op = .cast then cast_type else xo.ret_type.data_type⟩) := by
    unfold visit_UnaryOpStmt
    simp only [bind, Except.bind, IR.deref_of hs, hk, IR.ret_type_of ho]
    by_cases hc : op = .cast
    · subst hc
      have h1 : ((ir.set_ret_type s xo.ret_type).set_data_type s cast_type) =
          ir.set_ret_type s ⟨xo.ret_type.width, cast_type⟩ := by
        unfold IR.set_data_type IR.set_ret_type
        rw [IR.modify_eq _ _ _ x hs]
        unfold IR.modify
        have hlt := lt_of_get hs
        simp [hs, hlt]
      have h2 : ∃ y, (ir.set_ret_type s ⟨xo.ret_type.width, cast_type⟩).stmts[operand]? = some y := by
        rw [IR.set_ret_type_get]
        split <;> simp [ho]
      obtain ⟨y, hy⟩ := h2
      simp [h1, IR.ret_type_of hy, is_trigonometric, needs_real, pure, Except.pure]
    · have h2 : ∃ y, (ir.set_ret_type s xo.ret_type).stmts[operand]? = some y ∧
          y.ret_type = xo.ret_type := by
        rw [IR.set_ret_type_get]
        split <;> simp [ho]
      obtain ⟨y, hy, hyt⟩ := h2
      simp only [if_neg hc, IR.ret_type_of hy, hyt]
      cases hr : is_real xo.ret_type.data_type
      · cases ht : is_trigonometric op
        · by_cases hfl : op = .floor
          · subst hfl
            simp [needs_real, is_trigonometric, fatal]
          · by_cases hce : op = .ceil
            · subst hce
              simp [needs_real, is_trigonometric, fatal]
            · have hvt : xo.ret_type = ⟨xo.ret_type.width, xo.ret_type.data_type⟩ := rfl
              simp [needs_real, ht, hfl, hce, pure, Except.pure]
        · simp [needs_real, ht, fatal]
      · have hvt : xo.ret_type = ⟨xo.ret_type.width, xo.ret_type.data_type⟩ := rfl
        simp [pure, Except.pure]
  rw [hev]
  constructor
  · constructor
    · rintro ⟨st, h⟩
      split at h
      · assumption
      · cases h
    · intro h
      rw [if_pos h]
      exact ⟨_, rfl⟩
  · intro h
    rw [if_neg h]

/-- Witness of C16: the sine of an `i32` value aborts fatally. -/
theorem C16_unary_witness :
    ((∃ st, visit_UnaryOpStmt 1 sin_of_int = .error (.fatal st)) ↔
      (is_real DataType.i32 = false ∧ needs_real .sin = true)) ∧
    (¬ (is_real DataType.i32 = false ∧ needs_real .sin = true) →
      visit_UnaryOpStmt 1 sin_of_int = .ok (sin_of_int.set_ret_type 1
        ⟨1, if UnaryOpType.sin = .cast then .unknown else .i32⟩)) :=
  C16_unary 1 sin_of_int ⟨.UnaryOpStmt .sin 0 .unknown false, ⟨1, .unknown⟩, some 0⟩
    (value 1 .i32 0) .sin 0 .unknown false rfl rfl rfl

/-- C17: a local store `s` whose slot `ptr` has the element type `unknown` and whose value
`data` has a known element type `t` with `promoted_type t t = t`. The visit returns in the
state in which the slot has the full type of the value and the store has that type as its
result type, and nothing else is changed: no cast is inserted, the data operand of the store
is unchanged, no warning is logged. -/
theorem C17_local_store_infer (cfg : Config) (s : StmtId) (ir : IR) (x xp xd : Stmt)
    (ptr data : StmtId)
    (hs : ir.stmts[s]? = some x) (hk : x.kind = .LocalStoreStmt ptr data)
    (hp : ir.stmts[ptr]? = some xp) (hd : ir.stmts[data]? = some xd)
    (hu : xp.ret_type.data_type = .unknown) (hn : xd.ret_type.data_type ≠ .unknown)
    (hpr : cfg.promoted_type xd.ret_type.data_type xd.ret_type.data_type
      = xd.ret_type.data_type) :
    visit_LocalStoreStmt cfg s ir = .ok
      { ir with stmts := ((ir.stmts.set ptr { xp with ret_type := xd.ret_type }).set s
          { x with ret_type := xd.ret_type }) } := by
  have hne : data ≠ ptr := by
    rintro rfl
    rw [hp] at hd
    cases hd
    exact hn hu
  have hir1 : ir.set_ret_type ptr xd.ret_type =
      { ir with stmts := ir.stmts.set ptr { xp with ret_type := xd.ret_type } } := by
    unfold IR.set_ret_type
    rw [IR.modify_eq _ _ _ xp hp]
  have hp1 : (ir.set_ret_type ptr xd.ret_type).stmts[ptr]? =
      some { xp with ret_type := xd.ret_type } := by
    rw [IR.set_ret_type_get, if_pos rfl, hp]; rfl
  have hd1 : (ir.set_ret_type ptr xd.ret_type).stmts[data]? = some xd := by
    rw [IR.set_ret_type_get, if_neg hne, hd]
  have hs1 : ∃ x1, (ir.set_ret_type ptr xd.ret_type).stmts[s]? = some x1 ∧
      ({ x1 with ret_type := xd.ret_type } : Stmt) = { x with ret_type := xd.ret_type } := by
    rw [IR.set_ret_type_get]
    by_cases hsp : s = ptr
    · subst hsp
      rw [hs] at hp
      cases hp
      exact ⟨{ x with ret_type := xd.ret_type }, by rw [if_pos rfl, hs]; rfl, rfl⟩
    · exact ⟨x, by rw [if_neg hsp, hs], rfl⟩
  obtain ⟨x1, hx1, hx1e⟩ := hs1
  have hfin : (ir.set_ret_type ptr xd.ret_type).set_ret_type s xd.ret_type =
      { ir with stmts := ((ir.stmts.set ptr { xp with ret_type := xd.ret_type }).set s
          { x with ret_type := xd.ret_type }) } := by
    rw [IR.set_ret_type, IR.modify_eq _ _ _ x1 hx1, hx1e, hir1]
  unfold visit_LocalStoreStmt
  simp only [bind, Except.bind, IR.deref_of hs, hk, IR.ret_type_of hp, IR.ret_type_of hd, hu,
    if_true, IR.ret_type_of hp1, IR.ret_type_of hd1, hpr, cast_before_if, ne_eq,
    not_true_eq_false, if_false, pure, Except.pure, hfin]

/-- Witness of C17: the first store into a slot of unknown type. -/
theorem C17_local_store_infer_witness :
    visit_LocalStoreStmt cfgA 2 local_store_unknown = .ok
      { local_store_unknown with stmts := ((local_store_unknown.stmts.set 0
          ⟨.AllocaStmt, ⟨1, .f32⟩, some 0⟩).set 2 ⟨.LocalStoreStmt 0 1, ⟨1, .f32⟩, some 0⟩) } :=
  C17_local_store_infer cfgA 2 local_store_unknown ⟨.LocalStoreStmt 0 1, ⟨1, .unknown⟩, some 0⟩
    ⟨.AllocaStmt, ⟨1, .unknown⟩, some 0⟩ (value 1 .f32 0) 0 1 rfl rfl rfl rfl rfl (by decide) rfl

/-- C18, amended: a true division `s` whose operands `l` and `r` (each in the block that owns
it) have non-real element types that are not both `unknown`, and equal widths, under a real
default floating-point type `F`. The visit returns; the operator is `div`; exactly two
statements are added, the by-value casts of `l` and of `r` to `F`, at the widths of their
sources; the lhs and rhs of `s` are these casts; the cast of `l` is inserted first,
immediately after `l`, then the cast of `r` immediately after `r` (so when `l` and `r` are
the same statement, the cast of `r` stands between it and the cast of `l`); there is no
promotion cast; the result type is `F` at the width of the operands. And whenever the visit
of a `floordiv` or `truediv` returns, the operator of the instruction is `div`. -/
theorem C18_truediv (cfg : Config) (s : StmtId) (ir : IR) (x xl xr : Stmt) (l r : StmtId)
    (bl br : BlockId) (Ll Lr : List StmtId)
    (hs : ir.stmts[s]? = some x) (hk : x.kind = .BinaryOpStmt .truediv l r)
    (hl : ir.stmts[l]? = some xl) (hr : ir.stmts[r]? = some xr)
    (hpl : xl.parent = some bl) (hbl : ir.blocks[bl]? = some Ll) (hml : l ∈ Ll)
    (hpr : xr.parent = some br) (hbr : ir.blocks[br]? = some Lr) (hmr : r ∈ Lr)
    (hnl : is_real xl.ret_type.data_type = false) (hnr : is_real xr.ret_type.data_type = false)
    (hnu : ¬ (xl.ret_type.data_type = .unknown ∧ xr.ret_type.data_type = .unknown))
    (hw : xl.ret_type.width = xr.ret_type.width)
    (hF : is_real cfg.default_fp = true) :
    (∃ pre1 post1 pre2 post2, Ll = pre1 ++ l :: post1 ∧ l ∉ pre1 ∧
      (ir.blocks.set bl (pre1 ++ l :: ir.stmts.length :: post1))[br]?
        = some (pre2 ++ r :: post2) ∧ r ∉ pre2 ∧
      visit_BinaryOpStmt cfg s ir = .ok
        { stmts := (ir.stmts ++ [by_value_cast l cfg.default_fp xl.ret_type.width bl,
              by_value_cast r cfg.default_fp xr.ret_type.width br]).set s
            { kind := .BinaryOpStmt .div ir.stmts.length (ir.stmts.length + 1)
              ret_type := ⟨xl.ret_type.width, cfg.default_fp⟩
              parent := x.parent }
          blocks := (ir.blocks.set bl (pre1 ++ l :: ir.stmts.length :: post1)).set br
            (pre2 ++ r :: (ir.stmts.length + 1) :: post2)
          warnings := ir.warnings
          accepted := ir.accepted ++ [ir.stmts.length, ir.stmts.length + 1] }) ∧
    (∀ (cfg0 : Config) (s0 : StmtId) (ir0 ir0' : IR) (x0 : Stmt) (op0 : BinaryOpType)
        (l0 r0 : StmtId),
      ir0.stmts[s0]? = some x0 → x0.kind = .BinaryOpStmt op0 l0 r0 →
      op0 = .floordiv ∨ op0 = .truediv →
      visit_BinaryOpStmt cfg0 s0 ir0 = .ok ir0' →
      ∃ x0' l0' r0', ir0'.stmts[s0]? = some x0' ∧ x0'.kind = .BinaryOpStmt .div l0' r0') := by
  constructor
  · obtain ⟨pre1, post1, hL1, hpre1, -, -⟩ := insert_before_spec l ir.stmts.length Ll hml
    subst hL1
    have hslt : s < ir.stmts.length := lt_of_get hs
    have hllt : l < ir.stmts.length := lt_of_get hl
    have hrlt : r < ir.stmts.length := lt_of_get hr
    have hFn : cfg.default_fp ≠ .unknown := by
      intro h; rw [h] at hF; cases hF
    -- the block of the rhs after the first cast
    have hmr1 : ∃ L1r, (ir.blocks.set bl (pre1 ++ l :: ir.stmts.length :: post1))[br]?
        = some L1r ∧ r ∈ L1r := by
      by_cases hbb : bl = br
      · subst hbb
        rw [hbl] at hbr
        cases hbr
        refine ⟨_, by
          rw [List.getElem?_set_self (lt_of_get hbl)], ?_⟩
        simp only [List.mem_append, List.mem_cons] at hmr ⊢
        tauto
      · exact ⟨Lr, by rw [List.getElem?_set_ne hbb]; exact hbr, hmr⟩
    obtain ⟨L1r, hb1, hmr1⟩ := hmr1
    obtain ⟨pre2, post2, hL2, hpre2, -, -⟩ := insert_before_spec r (ir.stmts.length + 1) L1r hmr1
    subst hL2
    refine ⟨pre1, post1, pre2, post2, rfl, hpre1, hb1, hpre2, ?_⟩
    generalize hc1 : by_value_cast l cfg.default_fp xl.ret_type.width bl = c1
    generalize hc2 : by_value_cast r cfg.default_fp xr.ret_type.width br = c2
    have hc1t : c1.ret_type = ⟨xl.ret_type.width, cfg.default_fp⟩ := by rw [← hc1]; rfl
    have hc2t : c2.ret_type = ⟨xr.ret_type.width, cfg.default_fp⟩ := by rw [← hc2]; rfl
    -- the first coercion
    obtain ⟨ir1, hir1⟩ : ∃ ir1 : IR, ir1 =
        { stmts := (ir.stmts ++ [c1]).set s { x with kind := .BinaryOpStmt .truediv ir.stmts.length r }
          blocks := ir.blocks.set bl (pre1 ++ l :: ir.stmts.length :: post1)
          warnings := ir.warnings
          accepted := ir.accepted ++ [ir.stmts.length] } := ⟨_, rfl⟩
    have e1 : coerce_lhs is_real cfg.default_fp s ir = .ok ir1 := by
      unfold coerce_lhs
      simp only [bind, Except.bind, IR.binary_of hs hk, IR.ret_type_of hl, hnl,
        cast_at cfg.default_fp hl hpl hbl hpre1, Bool.false_eq_true, if_false, pure,
        Except.pure, hc1]
      unfold IR.set_lhs IR.assign
      rw [IR.modify_eq _ _ _ x (by
        simp only
        rw [List.getElem?_append_left hslt]; exact hs)]
      rw [hir1, hk]
      rfl
    have hs1 : ir1.stmts[s]? = some { x with kind := .BinaryOpStmt .truediv ir.stmts.length r } := by
      rw [hir1]; exact get_snoc_set_self _ _ hslt
    have hlen1 : ir1.stmts.length = ir.stmts.length + 1 := by
      rw [hir1]; simp
    have hr1 : ∃ xr1, ir1.stmts[r]? = some xr1 ∧ xr1.ret_type = xr.ret_type ∧
        xr1.parent = xr.parent := by
      rw [hir1]
      by_cases hrs : r = s
      · subst hrs
        rw [hs] at hr
        cases hr
        exact ⟨_, get_snoc_set_self _ _ hslt, rfl, rfl⟩
      · exact ⟨xr, by simp only; rw [get_snoc_set_old _ _ hrlt hrs]; exact hr, rfl, rfl⟩
    obtain ⟨xr1, hr1, hr1t, hr1p⟩ := hr1
    have hb1' : ir1.blocks[br]? = some (pre2 ++ r :: post2) := by
      rw [hir1]; exact hb1
    -- the second coercion
    obtain ⟨ir2, hir2⟩ : ∃ ir2 : IR, ir2 =
        { stmts := (ir1.stmts ++ [c2]).set s
            { x with kind := .BinaryOpStmt .truediv ir.stmts.length (ir.stmts.length + 1) }
          blocks := ir1.blocks.set br (pre2 ++ r :: (ir.stmts.length + 1) :: post2)
          warnings := ir1.warnings
          accepted := ir1.accepted ++ [ir.stmts.length + 1] } := ⟨_, rfl⟩
    have e2 : coerce_rhs is_real cfg.default_fp s ir1 = .ok ir2 := by
      unfold coerce_rhs
      simp only [bind, Except.bind, IR.binary_of hs1 rfl, IR.ret_type_of hr1, hr1t, hnr,
        cast_at cfg.default_fp hr1 (hr1p.trans hpr) hb1' hpre2, Bool.false_eq_true, if_false,
        pure, Except.pure, hc2, hlen1]
      unfold IR.set_rhs IR.assign
      rw [IR.modify_eq _ _ _ _ (by
        simp only
        rw [List.getElem?_append_left (by rw [hlen1]; exact Nat.lt_succ_of_lt hslt)]
        exact hs1)]
      rw [hir2]
      rfl
    have hs2 : ir2.stmts[s]? = some
        { x with kind := .BinaryOpStmt .truediv ir.stmts.length (ir.stmts.length + 1) } := by
      rw [hir2]
      exact get_snoc_set_self _ _ (by rw [hlen1]; exact Nat.lt_succ_of_lt hslt)
    have hn1 : ir1.stmts[ir.stmts.length]? = some c1 := by
      rw [hir1]; exact get_snoc_set_new _ _ hslt
    have hl2 : ir2.stmts[ir.stmts.length]? = some c1 := by
      rw [hir2]
      simp only
      rw [get_snoc_set_old _ _ (by rw [hlen1]; exact Nat.lt_succ_self _)
        (Nat.ne_of_gt hslt)]
      exact hn1
    have hr2 : ir2.stmts[ir.stmts.length + 1]? = some c2 := by
      rw [hir2, ← hlen1]
      exact get_snoc_set_new _ _ (by rw [hlen1]; exact Nat.lt_succ_of_lt hslt)
    have htd : lower_truediv cfg s ir = .ok (ir2.set_op_type s .div) := by
      unfold lower_truediv
      simp only [bind, Except.bind, IR.binary_of hs hk, if_true, e1, e2, pure, Except.pure]
    have hs3 : (ir2.set_op_type s .div).stmts[s]? = some
        { x with kind := .BinaryOpStmt .div ir.stmts.length (ir.stmts.length + 1) } := by
      unfold IR.set_op_type
      rw [IR.assign_get, if_pos rfl, hs2]
      rfl
    have hl3 : (ir2.set_op_type s .div).stmts[ir.stmts.length]? = some c1 := by
      unfold IR.set_op_type
      rw [IR.assign_get, if_neg (Nat.ne_of_gt hslt), hl2]
    have hr3 : (ir2.set_op_type s .div).stmts[ir.stmts.length + 1]? = some c2 := by
      unfold IR.set_op_type
      rw [IR.assign_get, if_neg (Nat.ne_of_gt (Nat.lt_succ_of_lt hslt)), hr2]
    have h3eq : ir2.set_op_type s .div = { ir2 with stmts := (ir2.stmts.set s
        { x with kind := .BinaryOpStmt .div ir.stmts.length (ir.stmts.length + 1) }) } := by
      unfold IR.set_op_type IR.assign
      rw [IR.modify_eq _ _ _ _ hs2]
      rfl
    unfold visit_BinaryOpStmt
    simp only [bind, Except.bind, IR.binary_of hs hk, IR.ret_type_of hl, IR.ret_type_of hr,
      if_neg hnu, lower_floordiv_skip cfg hs hk (by decide), htd,
      promote_skip cfg hs3 rfl hl3 hr3 (by rw [hc1t, hc2t]),
      check_and_assign_eval hs3 rfl hl3 hr3]
    rw [if_pos ⟨by rw [hc1t]; exact hFn, by rw [hc1t, hc2t, hw]⟩]
    simp only [binary_is_bitwise, is_comparison, Bool.false_eq_true, false_and, if_false,
      h3eq, hc1t]
    subst hir2 hir1
    simp only [List.set_set, Except.ok.injEq, IR.mk.injEq, and_true, true_and]
    refine ⟨?_, by simp⟩
    rw [set_append_left _ (by simp; exact Nat.lt_succ_of_lt hslt), List.set_set,
      List.append_assoc]
    rfl
  · intro cfg0 s0 ir0 ir0' x0 op0 l0 r0 hs0 hk0 hop h
    obtain ⟨ir3, l3, r3, hs3, -, -, hc⟩ := visit_BinaryOpStmt_track h hs0 hk0
    obtain ⟨x3, op3, l3', r3', xl3, xr3, hx3, hk3, -, -, -, -, -, rfl⟩ := check_and_assign_ok hc
    rw [hs3] at hx3
    cases hx3
    have hlow : lowered op0 = .div := by
      rcases hop with rfl | rfl <;> rfl
    refine ⟨_, l3, r3, by rw [IR.set_ret_type_get, if_pos rfl, hs3]; rfl, ?_⟩
    simp only [hlow]

/-- Witness of C18: `%2 = truediv %0 %1` with `%0 : i32`, `%1 : i64` and the default `f32`. -/
theorem C18_truediv_witness :
    ∃ pre1 post1 pre2 post2, [0, 1, 2] = pre1 ++ 0 :: post1 ∧ 0 ∉ pre1 ∧
      ([[0, 1, 2]].set 0 (pre1 ++ 0 :: 3 :: post1))[0]? = some (pre2 ++ 1 :: post2) ∧ 1 ∉ pre2 ∧
      visit_BinaryOpStmt cfgA 2 truediv_ints = .ok
        { stmts := ([value 1 .i32 0, value 1 .i64 0,
              ⟨.BinaryOpStmt .truediv 0 1, ⟨1, .unknown⟩, some 0⟩] ++
              [by_value_cast 0 .f32 1 0, by_value_cast 1 .f32 1 0]).set 2
            ⟨.BinaryOpStmt .div 3 (3 + 1), ⟨1, .f32⟩, some 0⟩
          blocks := ([[0, 1, 2]].set 0 (pre1 ++ 0 :: 3 :: post1)).set 0
            (pre2 ++ 1 :: (3 + 1) :: post2)
          warnings := []
          accepted := [] ++ [3, 3 + 1] } :=
  (C18_truediv cfgA 2 truediv_ints ⟨.BinaryOpStmt .truediv 0 1, ⟨1, .unknown⟩, some 0⟩
    (value 1 .i32 0) (value 1 .i64 0) 0 1 0 0 [0, 1, 2] [0, 1, 2] rfl rfl rfl rfl rfl rfl
    (by decide) rfl rfl (by decide) rfl rfl (by decide) rfl rfl).1

/-- C18, counterexample: a true division of two operands of unknown type, which are not
real, aborts fatally at the first check (lines 214-216); and in `%1 = truediv %0 %0` on an
`i32` value the cast of the rhs, `%3`, stands between `%0` and the cast `%2` of the lhs, so
the cast of the lhs is not immediately after the operand it converts. -/
theorem C18_counterexample :
    is_real DataType.unknown = false ∧
    visit_BinaryOpStmt cfgA 2 truediv_unknown =
      .error (.fatal ((truediv_unknown.warn (.type_mismatch 2)).warn .compilation_stopped)) ∧
    visit_BinaryOpStmt cfgA 1 truediv_self = .ok
      { stmts := [value 1 .i32 0, ⟨.BinaryOpStmt .div 2 3, ⟨1, .f32⟩, some 0⟩,
          by_value_cast 0 .f32 1 0, by_value_cast 0 .f32 1 0]
        blocks := [[0, 3, 2, 1]]
        warnings := []
        accepted := [2, 3] } :=
  ⟨rfl, rfl, rfl⟩

/-- C19: definition before use is preserved. Let `L` be the statement list of a block `b`
that owns its statements and in which the operands of every statement occur strictly before
it, and let `s` be a statement of `L`. When the visit of `s` by the rule for binary
operators, selects, local stores, global stores or atomic updates returns, the list `L'` of
`b` has the same property in the resulting state. `L'` is `L` with new statements inserted,
each of them a by-value cast whose source operand stands strictly before it and which itself
stands strictly before `s`, the instruction whose operand was redirected; this covers the
casts inserted before `s` and those inserted after an operand. -/
theorem C19_def_before_use (cfg : Config) (s : StmtId) (ir ir' : IR) (b : BlockId)
    (L : List StmtId)
    (hb : ir.blocks[b]? = some L) (hs : s ∈ L) (hown : Owns ir b L)
    (hdbu : DefBeforeUse ir L)
    (hv : visit_BinaryOpStmt cfg s ir = .ok ir' ∨ visit_TernaryOpStmt cfg s ir = .ok ir' ∨
      visit_LocalStoreStmt cfg s ir = .ok ir' ∨ visit_GlobalStoreStmt cfg s ir = .ok ir' ∨
      visit_AtomicOpStmt s ir = .ok ir') :
    ∃ L', ir'.blocks[b]? = some L' ∧ DefBeforeUse ir' L' ∧
      Inserted (fun c => ir.stmts[c]? = none ∧
        ∃ x' i dt, ir'.stmts[c]? = some x' ∧ x'.kind = .UnaryOpStmt .cast i dt true ∧
          Before L' i c ∧ Before L' c s) L L' := by
  have hsteps : Steps s ir ir' := by
    rcases hv with h | h | h | h | h
    · exact visit_BinaryOpStmt_reaches cfg s ir ir' (by rw [h]; rfl)
    · exact visit_TernaryOpStmt_reaches cfg s ir ir' (by rw [h]; rfl)
    · exact visit_LocalStoreStmt_reaches cfg s ir ir' (by rw [h]; rfl)
    · exact visit_GlobalStoreStmt_reaches cfg s ir ir' (by rw [h]; rfl)
    · exact visit_AtomicOpStmt_reaches s ir ir' (by rw [h]; rfl)
  have inv : BlockInv ir.stmts.length s b ir L := by
    refine ⟨hb, hown, hdbu, hs, ?_⟩
    intro c hc hn
    obtain ⟨y, hy, -⟩ := hown c hc
    exact absurd (lt_of_get hy) (Nat.not_lt.2 hn)
  obtain ⟨L', inv'⟩ := Steps_blockInv hsteps inv
  have g := Steps_grows hsteps
  obtain ⟨L'', hL'', hi⟩ := g.blocks b L hb
  rw [inv'.blk] at hL''
  cases hL''
  refine ⟨L', inv'.blk, inv'.dbu, Inserted_mono_mem hi ?_⟩
  intro c hc hr
  obtain ⟨x', hx', -⟩ := inv'.own c hc
  obtain ⟨i, dt, hk⟩ := g.fresh c x' hr.1 hx'
  refine ⟨List.getElem?_eq_none hr.1, x', i, dt, hx', hk, ?_, inv'.casts c hc hr.1⟩
  apply inv'.dbu c hc i
  unfold operands_of
  rw [hx']
  show i ∈ x'.kind.operands
  rw [hk]
  simp [StmtKind.operands]

/-- Witness of C19: Scenario A, whose block `[%0, %1, %2]` becomes `[%0, %1, %3, %2]`. -/
theorem C19_def_before_use_witness :
    ∃ L', scenarioA_after.blocks[0]? = some L' ∧ DefBeforeUse scenarioA_after L' ∧
      Inserted (fun c => scenarioA.stmts[c]? = none ∧
        ∃ x' i dt, scenarioA_after.stmts[c]? = some x' ∧
          x'.kind = .UnaryOpStmt .cast i dt true ∧
          Before L' i c ∧ Before L' c 2) [0, 1, 2] L' :=
  C19_def_before_use cfgA 2 scenarioA scenarioA_after 0 [0, 1, 2] rfl (by decide)
    (by
      intro t ht
      simp only [List.mem_cons, List.mem_singleton, List.not_mem_nil, or_false] at ht
      rcases ht with rfl | rfl | rfl <;> exact ⟨_, rfl, rfl⟩)
    (by
      intro t ht o ho
      simp only [List.mem_cons, List.mem_singleton, List.not_mem_nil, or_false] at ht
      rcases ht with rfl | rfl | rfl
      · cases ho
      · cases ho
      · simp only [operands_of, scenarioA, StmtKind.operands] at ho
        simp only [List.getElem?_cons_succ, List.getElem?_cons_zero, List.mem_cons,
          List.mem_singleton, List.not_mem_nil, or_false] at ho
        rcases ho with rfl | rfl <;> (unfold Before; decide))
    (Or.inl rfl)

/-- C20: idempotence of `visit(BinaryOpStmt *)`. When the visit of a binary operator `s`
returns the state `ir'` (a comparison not being its own operand), then a second visit of
`s` in `ir'`, under any configuration `cfg'`, returns `ir'` itself: nothing is inserted, no
operand link, operator or result type is changed, no warning is logged. -/
theorem C20_binary_idempotent (cfg cfg' : Config) (s : StmtId) (ir ir' : IR) (x : Stmt)
    (op : BinaryOpType) (l r : StmtId)
    (hs : ir.stmts[s]? = some x) (hk : x.kind = .BinaryOpStmt op l r)
    (hself : is_comparison op = true → l ≠ s ∧ r ≠ s)
    (h : visit_BinaryOpStmt cfg s ir = .ok ir') :
    visit_BinaryOpStmt cfg' s ir' = .ok ir' := by
  obtain ⟨ir3, l3, r3, hs3, hl3, hr3, hc⟩ := visit_BinaryOpStmt_track h hs hk
  obtain ⟨x3, op3, l3', r3', xl, xr, hx3, hk3, hxl, hxr, heq, hn, hbit, rfl⟩ :=
    check_and_assign_ok hc
  rw [hs3] at hx3
  cases hx3
  cases hk3
  have hslt : s < ir.stmts.length := lt_of_get hs
  have hl3s : is_comparison op = true → l3 ≠ s := by
    intro hcmp e
    rcases hl3 with h | h
    · exact (hself hcmp).1 (h ▸ e)
    · exact absurd hslt (Nat.not_lt.2 (e ▸ h))
  have hr3s : is_comparison op = true → r3 ≠ s := by
    intro hcmp e
    rcases hr3 with h | h
    · exact (hself hcmp).2 (h ▸ e)
    · exact absurd hslt (Nat.not_lt.2 (e ▸ h))
  generalize hT : (if is_comparison (lowered op) = true then
    (⟨xl.ret_type.width, .i32⟩ : VectorType) else xl.ret_type) = T
  have hs' : (ir3.set_ret_type s T).stmts[s]? =
      some { kind := .BinaryOpStmt (lowered op) l3 r3, ret_type := T, parent := x.parent } := by
    rw [IR.set_ret_type_get, if_pos rfl, hs3]
    rfl
  have hget : ∀ t y, ir3.stmts[t]? = some y → y.ret_type = xl.ret_type →
      (is_comparison op = true → t ≠ s) →
      ∃ y', (ir3.set_ret_type s T).stmts[t]? = some y' ∧ y'.ret_type = xl.ret_type := by
    intro t y hy hyt hne
    rw [IR.set_ret_type_get]
    by_cases hts : t = s
    · rw [if_pos hts, hy]
      refine ⟨_, rfl, ?_⟩
      cases hcmp : is_comparison op
      · rw [← hT, is_comparison_lowered, hcmp]
        simp
      · exact absurd hts (hne hcmp)
    · rw [if_neg hts]
      exact ⟨y, hy, hyt⟩
  obtain ⟨yl, hyl, hylt⟩ := hget l3 xl hxl rfl hl3s
  obtain ⟨yr, hyr, hyrt⟩ := hget r3 xr hxr heq.symm hr3s
  refine visit_BinaryOpStmt_fixed cfg' hs' rfl hyl hyr (lowered_ne_floordiv op)
    (lowered_ne_truediv op) (by rw [hylt, hyrt]) (by rw [hylt]; exact hn)
    (by rw [hylt]; exact hbit) ?_
  rw [hylt]
  exact hT.symm

/-- Witness of C20: Scenario A, visited twice. -/
theorem C20_binary_idempotent_witness :
    visit_BinaryOpStmt cfgA 2 scenarioA_after = .ok scenarioA_after :=
  C20_binary_idempotent cfgA cfgA 2 scenarioA scenarioA_after
    ⟨.BinaryOpStmt .add 0 1, ⟨1, .unknown⟩, some 0⟩ .add 0 1 rfl rfl (by decide) rfl

end TypeCheck
